import Mathlib

/-! DNS-collector: flat projection of a DNS message and the MQTT sink

A shallow embedding of `dnsutils/dnsmessage_json.go` (`Flatten`, `ToFlatJSON`)
and of `workers/mqtt.go` (`ReadConfig`, the cases of `StartCollect`,
`FlushBuffer`, the loop of `StartLogging`, and `ConnectToMQTT` against a clock),
with the text that `encoding/json` writes for a flat map and a reader of JSON
objects to read it back, followed by the properties proved about them.
-/

namespace DNSCollector

/-! ## Values and the flat map -/

/-- A Go `error` value, identified by its message. -/
structure GoError where
  msg : String
deriving DecidableEq, Repr

/-- The dynamic value stored under a key of `map[string]interface{}`: a string,
an integer, a boolean, a float64 (kept as its bit pattern) or a byte slice. -/
inductive Value where
  | str (s : String)
  | int (i : Int)
  | bool (b : Bool)
  | float (bits : Nat)
  | bytes (b : List Nat)
deriving DecidableEq, Repr

/-- A Go `map[string]interface{}`: the entries, at most one per key. -/
structure FlatMap where
  entries : List (String × Value)
deriving DecidableEq, Repr

namespace FlatMap

/-- The empty map. -/
def empty : FlatMap := ⟨[]⟩

/-- Insert or overwrite in a list of entries. -/
def setEntries (k : String) (v : Value) : List (String × Value) → List (String × Value)
  | [] => [(k, v)]
  | (k', v') :: rest => if k' = k then (k, v) :: rest else (k', v') :: setEntries k v rest

/-- The assignment `m[k] = v`. -/
def set (m : FlatMap) (k : String) (v : Value) : FlatMap := ⟨setEntries k v m.entries⟩

/-- Lookup in a list of entries. -/
def getEntries (k : String) : List (String × Value) → Option Value
  | [] => none
  | (k', v') :: rest => if k' = k then some v' else getEntries k rest

/-- The lookup `m[k]`, `none` when the key is absent. -/
def get (m : FlatMap) (k : String) : Option Value := getEntries k m.entries

/-- The keys of the map. -/
def keys (m : FlatMap) : List String := m.entries.map Prod.fst

/-- A run of assignments `m[k₁] = v₁; m[k₂] = v₂; ...`, executed in order. -/
def assignAll (m : FlatMap) (ws : List (String × Value)) : FlatMap :=
  ws.foldl (fun acc kv => acc.set kv.1 kv.2) m

end FlatMap

/-! ## Library functions used by the code -/

/-- One decimal digit as a character. -/
def digitChar (d : Nat) : Char := Char.ofNat (48 + d % 10)

/-- The decimal digits of `n`, most significant first, produced by at most
`fuel + 1` divisions by ten. -/
def natDigitsAux : Nat → Nat → List Char
  | 0, n => [digitChar n]
  | fuel + 1, n => if n < 10 then [digitChar n] else natDigitsAux fuel (n / 10) ++ [digitChar n]

/-- The decimal digits of a natural number, most significant first. -/
def natDigits (n : Nat) : List Char := natDigitsAux n n

/-- Go `strconv.Itoa`: the decimal rendering of an integer. -/
def Itoa (i : Int) : String :=
  if i < 0 then ⟨'-' :: natDigits i.natAbs⟩ else ⟨natDigits i.natAbs⟩

/-- Go `strings.Join`: the elements, each one after the first preceded by `sep`. -/
def stringsJoin (elems : List String) (sep : String) : String :=
  match elems with
  | [] => ""
  | first :: rest => rest.foldl (fun b s => b ++ sep ++ s) first

/-- Whether `k` starts with `p`. -/
def hasPrefix (p k : String) : Bool := p.data.isPrefixOf k.data

/-! ## The DNS message -/

/-- One resource record. -/
structure DNSAnswer where
  Name : String
  Rdatatype : String
  Class : String
  TTL : Int
  Rdata : String
deriving DecidableEq, Repr

/-- Header flags. -/
structure DNSFlags where
  QR : Value
  TC : Value
  AA : Value
  RA : Value
  AD : Value
  RD : Value
  CD : Value
deriving DecidableEq, Repr

/-- The three resource-record sections. -/
structure DNSRRs where
  Answers : List DNSAnswer
  Nameservers : List DNSAnswer
  Records : List DNSAnswer
deriving DecidableEq, Repr

/-- The DNS section. -/
structure DNS where
  ID : Value
  Length : Value
  Opcode : Value
  Rcode : Value
  Qname : Value
  Qtype : Value
  Qclass : Value
  QdCount : Value
  AnCount : Value
  NsCount : Value
  ArCount : Value
  Flags : DNSFlags
  DNSRRs : DNSRRs
  MalformedPacket : Value
deriving DecidableEq, Repr

/-- One EDNS option. -/
structure DNSOption where
  Code : Int
  Name : String
  Data : String
deriving DecidableEq, Repr

/-- The EDNS section. -/
structure DNSExtended where
  UDPSize : Value
  ExtendedRcode : Value
  Version : Value
  Do : Value
  Options : List DNSOption
deriving DecidableEq, Repr

/-- The DNSTap section. -/
structure DNSTap where
  Operation : Value
  Identity : Value
  Version : Value
  TimestampRFC3339 : Value
  Latency : Value
  Extra : Value
  PolicyRule : Value
  PolicyType : Value
  PolicyAction : Value
  PolicyMatch : Value
  PolicyValue : Value
  PeerName : Value
  QueryZone : Value
deriving DecidableEq, Repr

/-- The network section. -/
structure DNSNetInfo where
  Family : Value
  Protocol : Value
  QueryIP : Value
  QueryPort : Value
  ResponseIP : Value
  ResponsePort : Value
  IPDefragmented : Value
  TCPReassembled : Value
deriving DecidableEq, Repr

/-- Geo enrichment. -/
structure TransformDNSGeo where
  City : Value
  Continent : Value
  CountryIsoCode : Value
  AutonomousSystemNumber : Value
  AutonomousSystemOrg : Value
deriving DecidableEq, Repr

/-- Suspicious scoring. -/
structure TransformSuspicious where
  Score : Value
  MalformedPacket : Value
  LargePacket : Value
  LongDomain : Value
  SlowDomain : Value
  UnallowedChars : Value
  UncommonQtypes : Value
  ExcessiveNumberLabels : Value
  Domain : Value
deriving DecidableEq, Repr

/-- Public-suffix extraction. -/
structure TransformPublicSuffix where
  QnamePublicSuffix : Value
  QnameEffectiveTLDPlusOne : Value
  ManagedByICANN : Value
deriving DecidableEq, Repr

/-- Extracted payload. -/
structure TransformExtracted where
  Base64Payload : Value
deriving DecidableEq, Repr

/-- Reducer counters. -/
structure TransformReducer where
  Occurrences : Value
  CumulativeLength : Value
deriving DecidableEq, Repr

/-- Filtering sample rate. -/
structure TransformFiltering where
  SampleRate : Value
deriving DecidableEq, Repr

/-- Machine-learning features. -/
structure TransformML where
  Entropy : Value
  Length : Value
  Labels : Value
  Digits : Value
  Lowers : Value
  Uppers : Value
  Specials : Value
  Others : Value
  RatioDigits : Value
  RatioLetters : Value
  RatioSpecials : Value
  RatioOthers : Value
  ConsecutiveChars : Value
  ConsecutiveVowels : Value
  ConsecutiveDigits : Value
  ConsecutiveConsonants : Value
  Size : Value
  Occurrences : Value
  UncommonQtypes : Value
deriving DecidableEq, Repr

/-- The ordered tags of the ATags transform. -/
structure TransformATags where
  Tags : List String
deriving DecidableEq, Repr

/-- The PowerDNS section; `Metadata` lists the entries of the Go map in the
order the `range` loop visits them. -/
structure PowerDNS where
  Tags : List String
  OriginalRequestSubnet : Value
  AppliedPolicy : Value
  AppliedPolicyHit : Value
  AppliedPolicyKind : Value
  AppliedPolicyTrigger : Value
  AppliedPolicyType : Value
  Metadata : List (String × String)
  HTTPVersion : Value
  MessageID : Value
  RequestorID : Value
  DeviceID : Value
  DeviceName : Value
  InitialRequestorID : Value
deriving DecidableEq, Repr

/-- One relabeling rule. -/
structure RelabelingRule where
  Regex : String
  Replacement : String
  Action : String
deriving DecidableEq, Repr

/-- The relabeling configuration. -/
structure TransformRelabeling where
  Rules : List RelabelingRule
deriving DecidableEq, Repr

/-- Modelled from the spec: the declaration of `DNSMessage` and of its
sub-records lives outside the files at hand; the sections and optional
sub-records are those of the data model, the fields those `Flatten` reads.
A scalar field holds the value that Go boxes into `interface{}`; the fields
the code joins, converts or concatenates have their own types. -/
structure DNSMessage where
  NetworkInfo : DNSNetInfo
  DNS : DNS
  EDNS : DNSExtended
  DNSTap : DNSTap
  Geo : Option TransformDNSGeo
  PowerDNS : Option PowerDNS
  Suspicious : Option TransformSuspicious
  PublicSuffix : Option TransformPublicSuffix
  Extracted : Option TransformExtracted
  Reducer : Option TransformReducer
  MachineLearning : Option TransformML
  Filtering : Option TransformFiltering
  ATags : Option TransformATags
  Relabeling : Option TransformRelabeling
deriving DecidableEq, Repr

/-! ## Flatten -/

/-- The closure `joinOrDash` of `Flatten`. -/
def joinOrDash (arr : List String) : String :=
  if arr.length = 0 then "-" else stringsJoin arr "|"

/-- The closure `buildRRFields` of `Flatten`: the loop appends one element per
record to each of the five slices. -/
def buildRRFields (rrs : List DNSAnswer) : String × String × String × String × String :=
  let n := rrs.map (fun rr => rr.Name)
  let t := rrs.map (fun rr => rr.Rdatatype)
  let d := rrs.map (fun rr => rr.Rdata)
  let l := rrs.map (fun rr => Itoa rr.TTL)
  let c := rrs.map (fun rr => rr.Class)
  (joinOrDash n, joinOrDash t, joinOrDash d, joinOrDash l, joinOrDash c)

/-- The map literal that opens `Flatten`. -/
def coreFields (dm : DNSMessage) : List (String × Value) :=
  [ ("dns.flags.aa", dm.DNS.Flags.AA),
    ("dns.flags.ad", dm.DNS.Flags.AD),
    ("dns.flags.qr", dm.DNS.Flags.QR),
    ("dns.flags.ra", dm.DNS.Flags.RA),
    ("dns.flags.tc", dm.DNS.Flags.TC),
    ("dns.flags.rd", dm.DNS.Flags.RD),
    ("dns.flags.cd", dm.DNS.Flags.CD),
    ("dns.length", dm.DNS.Length),
    ("dns.malformed-packet", dm.DNS.MalformedPacket),
    ("dns.id", dm.DNS.ID),
    ("dns.opcode", dm.DNS.Opcode),
    ("dns.qname", dm.DNS.Qname),
    ("dns.qtype", dm.DNS.Qtype),
    ("dns.qclass", dm.DNS.Qclass),
    ("dns.rcode", dm.DNS.Rcode),
    ("dns.qdcount", dm.DNS.QdCount),
    ("dns.ancount", dm.DNS.AnCount),
    ("dns.arcount", dm.DNS.ArCount),
    ("dns.nscount", dm.DNS.NsCount),
    ("dnstap.identity", dm.DNSTap.Identity),
    ("dnstap.latency", dm.DNSTap.Latency),
    ("dnstap.operation", dm.DNSTap.Operation),
    ("dnstap.timestamp-rfc3339ns", dm.DNSTap.TimestampRFC3339),
    ("dnstap.version", dm.DNSTap.Version),
    ("dnstap.extra", dm.DNSTap.Extra),
    ("dnstap.policy-rule", dm.DNSTap.PolicyRule),
    ("dnstap.policy-type", dm.DNSTap.PolicyType),
    ("dnstap.policy-action", dm.DNSTap.PolicyAction),
    ("dnstap.policy-match", dm.DNSTap.PolicyMatch),
    ("dnstap.policy-value", dm.DNSTap.PolicyValue),
    ("dnstap.peer-name", dm.DNSTap.PeerName),
    ("dnstap.query-zone", dm.DNSTap.QueryZone),
    ("edns.optionscount", Value.int dm.EDNS.Options.length),
    ("edns.dnssec-ok", dm.EDNS.Do),
    ("edns.rcode", dm.EDNS.ExtendedRcode),
    ("edns.udp-size", dm.EDNS.UDPSize),
    ("edns.version", dm.EDNS.Version),
    ("network.family", dm.NetworkInfo.Family),
    ("network.ip-defragmented", dm.NetworkInfo.IPDefragmented),
    ("network.protocol", dm.NetworkInfo.Protocol),
    ("network.query-ip", dm.NetworkInfo.QueryIP),
    ("network.query-port", dm.NetworkInfo.QueryPort),
    ("network.response-ip", dm.NetworkInfo.ResponseIP),
    ("network.response-port", dm.NetworkInfo.ResponsePort),
    ("network.tcp-reassembled", dm.NetworkInfo.TCPReassembled) ]

/-- The five assignments of the `AN` block. -/
def anFields (rrs : List DNSAnswer) : List (String × Value) :=
  match buildRRFields rrs with
  | (anNames, anTypes, anDatas, anTTLs, anClasses) =>
    [ ("dns.resource-records.an.names", Value.str anNames),
      ("dns.resource-records.an.rdatatypes", Value.str anTypes),
      ("dns.resource-records.an.rdatas", Value.str anDatas),
      ("dns.resource-records.an.ttls", Value.str anTTLs),
      ("dns.resource-records.an.classes", Value.str anClasses) ]

/-- The five assignments of the `NS` block. -/
def nsFields (rrs : List DNSAnswer) : List (String × Value) :=
  match buildRRFields rrs with
  | (nsNames, nsTypes, nsDatas, nsTTLs, nsClasses) =>
    [ ("dns.resource-records.ns.names", Value.str nsNames),
      ("dns.resource-records.ns.rdatatypes", Value.str nsTypes),
      ("dns.resource-records.ns.rdatas", Value.str nsDatas),
      ("dns.resource-records.ns.ttls", Value.str nsTTLs),
      ("dns.resource-records.ns.classes", Value.str nsClasses) ]

/-- The five assignments of the `AR` block. -/
def arFields (rrs : List DNSAnswer) : List (String × Value) :=
  match buildRRFields rrs with
  | (arNames, arTypes, arDatas, arTTLs, arClasses) =>
    [ ("dns.resource-records.ar.names", Value.str arNames),
      ("dns.resource-records.ar.rdatatypes", Value.str arTypes),
      ("dns.resource-records.ar.rdatas", Value.str arDatas),
      ("dns.resource-records.ar.ttls", Value.str arTTLs),
      ("dns.resource-records.ar.classes", Value.str arClasses) ]

/-- The EDNS-options block: three slices filled by the loop, then joined. -/
def ednsOptionFields (opts : List DNSOption) : List (String × Value) :=
  let optCodes := opts.map (fun opt => Itoa opt.Code)
  let optDatas := opts.map (fun opt => opt.Data)
  let optNames := opts.map (fun opt => opt.Name)
  [ ("edns.options.codes", Value.str (joinOrDash optCodes)),
    ("edns.options.datas", Value.str (joinOrDash optDatas)),
    ("edns.options.names", Value.str (joinOrDash optNames)) ]

/-- The assignments under `if dm.Geo != nil`. -/
def geoFields : Option TransformDNSGeo → List (String × Value)
  | none => []
  | some geo =>
    [ ("geoip.city", geo.City),
      ("geoip.continent", geo.Continent),
      ("geoip.country-isocode", geo.CountryIsoCode),
      ("geoip.as-number", geo.AutonomousSystemNumber),
      ("geoip.as-owner", geo.AutonomousSystemOrg) ]

/-- The assignments under `if dm.Suspicious != nil`. -/
def suspiciousFields : Option TransformSuspicious → List (String × Value)
  | none => []
  | some s =>
    [ ("suspicious.score", s.Score),
      ("suspicious.malformed-pkt", s.MalformedPacket),
      ("suspicious.large-pkt", s.LargePacket),
      ("suspicious.long-domain", s.LongDomain),
      ("suspicious.slow-domain", s.SlowDomain),
      ("suspicious.unallowed-chars", s.UnallowedChars),
      ("suspicious.uncommon-qtypes", s.UncommonQtypes),
      ("suspicious.excessive-number-labels", s.ExcessiveNumberLabels),
      ("suspicious.domain", s.Domain) ]

/-- The assignments under `if dm.PublicSuffix != nil`. -/
def publicSuffixFields : Option TransformPublicSuffix → List (String × Value)
  | none => []
  | some p =>
    [ ("publicsuffix.tld", p.QnamePublicSuffix),
      ("publicsuffix.etld+1", p.QnameEffectiveTLDPlusOne),
      ("publicsuffix.managed-icann", p.ManagedByICANN) ]

/-- The assignment under `if dm.Extracted != nil`. -/
def extractedFields : Option TransformExtracted → List (String × Value)
  | none => []
  | some e => [ ("extracted.dns_payload", e.Base64Payload) ]

/-- The assignments under `if dm.Reducer != nil`. -/
def reducerFields : Option TransformReducer → List (String × Value)
  | none => []
  | some r =>
    [ ("reducer.occurrences", r.Occurrences),
      ("reducer.cumulative-length", r.CumulativeLength) ]

/-- The assignment under `if dm.Filtering != nil`. -/
def filteringFields : Option TransformFiltering → List (String × Value)
  | none => []
  | some f => [ ("filtering.sample-rate", f.SampleRate) ]

/-- The assignments under `if dm.MachineLearning != nil`. -/
def mlFields : Option TransformML → List (String × Value)
  | none => []
  | some ml =>
    [ ("ml.entropy", ml.Entropy),
      ("ml.length", ml.Length),
      ("ml.labels", ml.Labels),
      ("ml.digits", ml.Digits),
      ("ml.lowers", ml.Lowers),
      ("ml.uppers", ml.Uppers),
      ("ml.specials", ml.Specials),
      ("ml.others", ml.Others),
      ("ml.ratio-digits", ml.RatioDigits),
      ("ml.ratio-letters", ml.RatioLetters),
      ("ml.ratio-specials", ml.RatioSpecials),
      ("ml.ratio-others", ml.RatioOthers),
      ("ml.consecutive-chars", ml.ConsecutiveChars),
      ("ml.consecutive-vowels", ml.ConsecutiveVowels),
      ("ml.consecutive-digits", ml.ConsecutiveDigits),
      ("ml.consecutive-consonants", ml.ConsecutiveConsonants),
      ("ml.size", ml.Size),
      ("ml.occurrences", ml.Occurrences),
      ("ml.uncommon-qtypes", ml.UncommonQtypes) ]

/-- The loop `for i, tag := range tags { dnsFields[pfx+strconv.Itoa(i)] = tag }`,
entered with index `i`. -/
def indexedTagFields (pfx : String) (i : Nat) : List String → List (String × Value)
  | [] => []
  | tag :: rest => (pfx ++ Itoa (i : Int), Value.str tag) :: indexedTagFields pfx (i + 1) rest

/-- The tag block shared by ATags and PowerDNS: the dash under the bare key
when the list is empty, then the indexed loop. -/
def tagFields (key pfx : String) (tags : List String) : List (String × Value) :=
  (if tags.length = 0 then [(key, Value.str "-")] else []) ++ indexedTagFields pfx 0 tags

/-- The assignments under `if dm.ATags != nil`. -/
def atagsFields : Option TransformATags → List (String × Value)
  | none => []
  | some a => tagFields "atags.tags" "atags.tags." a.Tags

/-- The loop over the metadata map. -/
def metadataFields (md : List (String × String)) : List (String × Value) :=
  md.map (fun e => ("powerdns.metadata." ++ e.1, Value.str e.2))

/-- The assignments under `if dm.PowerDNS != nil`. -/
def powerDNSFields : Option PowerDNS → List (String × Value)
  | none => []
  | some p =>
    tagFields "powerdns.tags" "powerdns.tags." p.Tags ++
    [ ("powerdns.original-request-subnet", p.OriginalRequestSubnet),
      ("powerdns.applied-policy", p.AppliedPolicy),
      ("powerdns.applied-policy-hit", p.AppliedPolicyHit),
      ("powerdns.applied-policy-kind", p.AppliedPolicyKind),
      ("powerdns.applied-policy-trigger", p.AppliedPolicyTrigger),
      ("powerdns.applied-policy-type", p.AppliedPolicyType) ] ++
    metadataFields p.Metadata ++
    [ ("powerdns.http-version", p.HTTPVersion),
      ("powerdns.message-id", p.MessageID),
      ("powerdns.requestor-id", p.RequestorID),
      ("powerdns.device-id", p.DeviceID),
      ("powerdns.device-name", p.DeviceName),
      ("powerdns.initial-requestor-id", p.InitialRequestorID) ]

/-- The map `dnsFields` as it stands just before the relabeling step. -/
def flattenFields (dm : DNSMessage) : FlatMap :=
  let dnsFields := FlatMap.empty.assignAll (coreFields dm)
  let dnsFields := dnsFields.assignAll (anFields dm.DNS.DNSRRs.Answers)
  let dnsFields := dnsFields.assignAll (nsFields dm.DNS.DNSRRs.Nameservers)
  let dnsFields := dnsFields.assignAll (arFields dm.DNS.DNSRRs.Records)
  let dnsFields := dnsFields.assignAll (ednsOptionFields dm.EDNS.Options)
  let dnsFields := dnsFields.assignAll (geoFields dm.Geo)
  let dnsFields := dnsFields.assignAll (suspiciousFields dm.Suspicious)
  let dnsFields := dnsFields.assignAll (publicSuffixFields dm.PublicSuffix)
  let dnsFields := dnsFields.assignAll (extractedFields dm.Extracted)
  let dnsFields := dnsFields.assignAll (reducerFields dm.Reducer)
  let dnsFields := dnsFields.assignAll (filteringFields dm.Filtering)
  let dnsFields := dnsFields.assignAll (mlFields dm.MachineLearning)
  let dnsFields := dnsFields.assignAll (atagsFields dm.ATags)
  dnsFields.assignAll (powerDNSFields dm.PowerDNS)

/-- `DNSMessage.Flatten`: the map and the error it returns. `ApplyRelabeling`
is the method of that name, which rewrites the map in place and returns an
error or nil; it is defined outside the files at hand and taken as given. -/
def Flatten (ApplyRelabeling : DNSMessage → FlatMap → FlatMap × Option GoError)
    (dm : DNSMessage) : Option FlatMap × Option GoError :=
  let dnsFields := flattenFields dm
  match dm.Relabeling with
  | some _ =>
    match ApplyRelabeling dm dnsFields with
    | (_, some err) => (none, some err)
    | (dnsFields, none) => (some dnsFields, none)
  | none => (some dnsFields, none)

/-! ## ToFlatJSON -/

/-- Whether a float64 bit pattern is a NaN or an infinity: all eleven exponent
bits set. -/
def isNonFinite (bits : Nat) : Bool := (bits / 2 ^ 52) % 2 ^ 11 = 2 ^ 11 - 1

/-- Whether `encoding/json` refuses a value: a float64 that is NaN or infinite
(`UnsupportedValueError`); strings, integers, booleans and byte slices are
always accepted. -/
def Value.unsupported : Value → Bool
  | Value.float bits => isNonFinite bits
  | _ => false

/-- The contents of the buffer after `json.NewEncoder(buffer).Encode(flat)`.
`Encode` marshals the whole value first and writes, text then newline, only
when that succeeded; on an unsupported value it returns an error and writes
nothing. `jsonText` is the object text `encoding/json` produces for a map it can
marshal; the library is taken as given. -/
def encodeToBuffer (jsonText : FlatMap → String) (flat : FlatMap) : String :=
  if flat.entries.any (fun kv => kv.2.unsupported) then "" else jsonText flat ++ "\n"

/-- `DNSMessage.ToFlatJSON`: the string and the error it returns. The error of
`Encode` is discarded, as in the code. -/
def ToFlatJSON (ApplyRelabeling : DNSMessage → FlatMap → FlatMap × Option GoError)
    (jsonText : FlatMap → String) (dm : DNSMessage) : String × Option GoError :=
  match Flatten ApplyRelabeling dm with
  | (_, some err) => ("", some err)
  | (some flat, none) => (encodeToBuffer jsonText flat, none)
  | (none, none) => ("null\n", none)

/-! ## The JSON text of a flat map -/

/-- The double quote. -/
def quoteChar : Char := Char.ofNat 34

/-- The backslash. -/
def backslashChar : Char := Char.ofNat 92

/-- The comma. -/
def commaChar : Char := Char.ofNat 44

/-- The colon. -/
def colonChar : Char := Char.ofNat 58

/-- The opening brace. -/
def openBrace : Char := Char.ofNat 123

/-- The closing brace. -/
def closeBrace : Char := Char.ofNat 125

/-- One hexadecimal digit in lower case, the digit set of `encoding/json`. -/
def hexChar (d : Nat) : Char :=
  if d % 16 < 10 then Char.ofNat (48 + d % 16) else Char.ofNat (87 + d % 16)

/-- What `encoding/json` writes for one character inside a string, with the
escaping of HTML characters that an `Encoder` has on by default: the quote and
the backslash are preceded by a backslash; backspace, form feed, line feed,
carriage return and tab are written `\b`, `\f`, `\n`, `\r`, `\t` (releases
before Go 1.22 write backspace and form feed as `\u0008` and `\u000c`); any
other character below the space and the characters `<`, `>`, `&` are written
`\u00XX`; U+2028 and U+2029 are written `\u2028` and `\u2029`; every other
character stands for itself. -/
def escapeChar (c : Char) : List Char :=
  if c.toNat = 34 then [backslashChar, quoteChar]
  else if c.toNat = 92 then [backslashChar, backslashChar]
  else if c.toNat = 8 then [backslashChar, 'b']
  else if c.toNat = 12 then [backslashChar, 'f']
  else if c.toNat = 10 then [backslashChar, 'n']
  else if c.toNat = 13 then [backslashChar, 'r']
  else if c.toNat = 9 then [backslashChar, 't']
  else if c.toNat < 32 ∨ c.toNat = 60 ∨ c.toNat = 62 ∨ c.toNat = 38 then
    [backslashChar, 'u', '0', '0', hexChar (c.toNat / 16), hexChar c.toNat]
  else if c.toNat = 8232 then [backslashChar, 'u', '2', '0', '2', '8']
  else if c.toNat = 8233 then [backslashChar, 'u', '2', '0', '2', '9']
  else [c]

/-- A string as `encoding/json` writes it: between quotes, each character
escaped. -/
def quoteText (s : String) : List Char :=
  quoteChar :: (s.data.flatMap escapeChar ++ [quoteChar])

/-- One digit of the standard base64 alphabet. -/
def base64Char (n : Nat) : Char :=
  if n % 64 < 26 then Char.ofNat (65 + n % 64)
  else if n % 64 < 52 then Char.ofNat (71 + n % 64)
  else if n % 64 < 62 then Char.ofNat (n % 64 - 4)
  else if n % 64 = 62 then '+'
  else '/'

/-- Go `base64.StdEncoding`: three bytes give four digits, a last group of one
or two bytes is padded with `=`. -/
def base64 : List Nat → List Char
  | [] => []
  | [a] => [base64Char (a % 256 / 4), base64Char (a % 4 * 16), '=', '=']
  | [a, b] =>
    [base64Char (a % 256 / 4), base64Char (a % 4 * 16 + b % 256 / 16),
      base64Char (b % 16 * 4), '=']
  | a :: b :: c :: rest =>
    base64Char (a % 256 / 4) :: base64Char (a % 4 * 16 + b % 256 / 16) ::
      base64Char (b % 16 * 4 + c % 256 / 64) :: base64Char (c % 64) :: base64 rest

/-- What `encoding/json` writes for a value of the flat map that it can
marshal: a string quoted and escaped, an integer in decimal, a boolean as
`true` or `false`, a float64 as the number text `floatText` (the shortest
decimal of `strconv`, taken as given), a byte slice as its base64 text between
quotes (a nil slice, which Go writes `null`, is not told from the empty one
by `Value`). -/
def marshalValue (floatText : Nat → String) : Value → List Char
  | Value.str s => quoteText s
  | Value.int i => (Itoa i).data
  | Value.bool b => if b then "true".data else "false".data
  | Value.float bits => (floatText bits).data
  | Value.bytes b => quoteChar :: (base64 b ++ [quoteChar])

/-- One member of the object: the key, a colon, the value. -/
def marshalMember (floatText : Nat → String) (kv : String × Value) : List Char :=
  quoteText kv.1 ++ colonChar :: marshalValue floatText kv.2

/-- The members of the object, separated by commas. -/
def marshalMembers (floatText : Nat → String) : List (String × Value) → List Char
  | [] => []
  | [kv] => marshalMember floatText kv
  | kv :: kv' :: rest =>
    marshalMember floatText kv ++ commaChar :: marshalMembers floatText (kv' :: rest)

/-- The order of Go strings, byte by byte, on valid text: the order of the
code points. -/
def keyLE : List Char → List Char → Bool
  | [], _ => true
  | _ :: _, [] => false
  | a :: as, b :: bs => decide (a.toNat < b.toNat) || (decide (a.toNat = b.toNat) && keyLE as bs)

/-- The entries of a map in the order in which `encoding/json` writes them:
sorted by key. -/
def sortedEntries (m : FlatMap) : List (String × Value) :=
  m.entries.insertionSort (fun a b => keyLE a.1.data b.1.data = true)

/-- The object text that `encoding/json` produces for a flat map it can
marshal: the members in the order of their keys, between braces, with no white
space. -/
def marshalFlat (floatText : Nat → String) (m : FlatMap) : String :=
  ⟨openBrace :: (marshalMembers floatText (sortedEntries m) ++ [closeBrace])⟩

/-- A JSON value that is not an array or an object: a string, a number kept as
its text, a boolean, or null. -/
inductive JSONValue where
  | str (s : String)
  | num (text : String)
  | bool (b : Bool)
  | null
deriving DecidableEq, Repr

/-- The JSON value that a value of the flat map is written as. -/
def jsonOf (floatText : Nat → String) : Value → JSONValue
  | Value.str s => JSONValue.str s
  | Value.int i => JSONValue.num (Itoa i)
  | Value.bool b => JSONValue.bool b
  | Value.float bits => JSONValue.num (floatText bits)
  | Value.bytes b => JSONValue.str ⟨base64 b⟩

/-- JSON white space: space, tab, line feed, carriage return. -/
def isJSONSpace (c : Char) : Bool :=
  decide (c.toNat = 32 ∨ c.toNat = 9 ∨ c.toNat = 10 ∨ c.toNat = 13)

/-- Skip white space. -/
def skipSpace (cs : List Char) : List Char := cs.dropWhile isJSONSpace

/-- A decimal digit. -/
def isDecDigit (c : Char) : Bool := decide (48 ≤ c.toNat ∧ c.toNat ≤ 57)

/-- The states of the JSON number grammar
`-? (0 | [1-9][0-9]*) (. [0-9]+)? ([eE] [+-]? [0-9]+)?`. -/
inductive NumState where
  | start
  | minus
  | zero
  | int
  | dot
  | frac
  | e
  | esign
  | exp
deriving DecidableEq, Repr

/-- One step of the number grammar. -/
def numStep (s : NumState) (c : Char) : Option NumState :=
  match s with
  | NumState.start =>
    if c.toNat = 45 then some NumState.minus
    else if c.toNat = 48 then some NumState.zero
    else if isDecDigit c then some NumState.int
    else none
  | NumState.minus =>
    if c.toNat = 48 then some NumState.zero
    else if isDecDigit c then some NumState.int
    else none
  | NumState.zero =>
    if c.toNat = 46 then some NumState.dot
    else if c.toNat = 101 ∨ c.toNat = 69 then some NumState.e
    else none
  | NumState.int =>
    if isDecDigit c then some NumState.int
    else if c.toNat = 46 then some NumState.dot
    else if c.toNat = 101 ∨ c.toNat = 69 then some NumState.e
    else none
  | NumState.dot => if isDecDigit c then some NumState.frac else none
  | NumState.frac =>
    if isDecDigit c then some NumState.frac
    else if c.toNat = 101 ∨ c.toNat = 69 then some NumState.e
    else none
  | NumState.e =>
    if c.toNat = 43 ∨ c.toNat = 45 then some NumState.esign
    else if isDecDigit c then some NumState.exp
    else none
  | NumState.esign => if isDecDigit c then some NumState.exp else none
  | NumState.exp => if isDecDigit c then some NumState.exp else none

/-- The state of the number grammar after a text, if the text can be read. -/
def numRun : NumState → List Char → Option NumState
  | s, [] => some s
  | s, c :: cs =>
    match numStep s c with
    | some s' => numRun s' cs
    | none => none

/-- The states in which a number may end. -/
def NumState.accepting : NumState → Bool
  | NumState.zero => true
  | NumState.int => true
  | NumState.frac => true
  | NumState.exp => true
  | _ => false

/-- Whether a text is a JSON number. -/
def isJSONNumber (cs : List Char) : Bool :=
  match numRun NumState.start cs with
  | some s => s.accepting
  | none => false

/-- The value of a hexadecimal digit. -/
def hexValue (c : Char) : Option Nat :=
  if 48 ≤ c.toNat ∧ c.toNat ≤ 57 then some (c.toNat - 48)
  else if 97 ≤ c.toNat ∧ c.toNat ≤ 102 then some (c.toNat - 87)
  else if 65 ≤ c.toNat ∧ c.toNat ≤ 70 then some (c.toNat - 55)
  else none

/-- The value of four hexadecimal digits. -/
def hexValue4 (a b c d : Char) : Option Nat :=
  match hexValue a, hexValue b, hexValue c, hexValue d with
  | some x, some y, some z, some t => some (((x * 16 + y) * 16 + z) * 16 + t)
  | _, _, _, _ => none

/-- The character that a one-letter escape stands for. -/
def unescapeChar (c : Char) : Option Char :=
  if c.toNat = 34 then some quoteChar
  else if c.toNat = 92 then some backslashChar
  else if c.toNat = 47 then some '/'
  else if c.toNat = 98 then some (Char.ofNat 8)
  else if c.toNat = 102 then some (Char.ofNat 12)
  else if c.toNat = 110 then some (Char.ofNat 10)
  else if c.toNat = 114 then some (Char.ofNat 13)
  else if c.toNat = 116 then some (Char.ofNat 9)
  else none

/-- Read one escape, the backslash already read: a one-letter escape, or `u`
and four hexadecimal digits. A high surrogate followed by the escape of a low
surrogate gives the character of the pair; any other surrogate gives U+FFFD. -/
def readEscape : List Char → Option (Char × List Char)
  | [] => none
  | e :: rest =>
    if e.toNat = 117 then
      match rest with
      | a :: b :: c :: d :: rest' =>
        match hexValue4 a b c d with
        | none => none
        | some n =>
          if 55296 ≤ n ∧ n < 56320 then
            match rest' with
            | b1 :: u1 :: a1 :: b2 :: c1 :: d1 :: rest'' =>
              if b1.toNat = 92 ∧ u1.toNat = 117 then
                match hexValue4 a1 b2 c1 d1 with
                | some lo =>
                  if 56320 ≤ lo ∧ lo < 57344 then
                    some (Char.ofNat (65536 + (n - 55296) * 1024 + (lo - 56320)), rest'')
                  else some (Char.ofNat 65533, rest')
                | none => some (Char.ofNat 65533, rest')
              else some (Char.ofNat 65533, rest')
            | _ => some (Char.ofNat 65533, rest')
          else if 56320 ≤ n ∧ n < 57344 then some (Char.ofNat 65533, rest')
          else some (Char.ofNat n, rest')
      | _ => none
    else
      match unescapeChar e with
      | some ch => some (ch, rest)
      | none => none

/-- Read a string, the opening quote already read: the characters up to the
closing quote, escapes resolved, and what follows the closing quote. A raw
character below the space is refused. `fuel` bounds the number of characters
read. -/
def parseStringBody : Nat → List Char → Option (List Char × List Char)
  | 0, _ => none
  | _ + 1, [] => none
  | fuel + 1, c :: rest =>
    if c.toNat = 34 then some ([], rest)
    else if c.toNat = 92 then
      match readEscape rest with
      | none => none
      | some (ch, rest') =>
        match parseStringBody fuel rest' with
        | none => none
        | some (s, r) => some (ch :: s, r)
    else if c.toNat < 32 then none
    else
      match parseStringBody fuel rest with
      | none => none
      | some (s, r) => some (c :: s, r)

/-- A character that can stand in a number or in one of the words `true`,
`false`, `null`: anything but a comma, a closing brace and white space. -/
def isWordChar (c : Char) : Bool :=
  !(decide (c.toNat = 44 ∨ c.toNat = 125) || isJSONSpace c)

/-- The value that a word stands for: `true`, `false`, `null` or a number. -/
def wordValue (tok : List Char) : Option JSONValue :=
  if tok = "true".data then some (JSONValue.bool true)
  else if tok = "false".data then some (JSONValue.bool false)
  else if tok = "null".data then some JSONValue.null
  else if isJSONNumber tok then some (JSONValue.num ⟨tok⟩)
  else none

/-- Read a value that is not an array or an object: a string, or a word, which
runs up to the next comma, closing brace or white space. The result is the
value and the rest of the text. -/
def parseValue (cs : List Char) : Option (JSONValue × List Char) :=
  match cs with
  | [] => none
  | c :: rest =>
    if c.toNat = 34 then
      match parseStringBody rest.length rest with
      | some (s, r) => some (JSONValue.str ⟨s⟩, r)
      | none => none
    else
      match wordValue (cs.takeWhile isWordChar) with
      | some v => some (v, cs.dropWhile isWordChar)
      | none => none

/-- Read the members of an object up to and including its closing brace, the
text standing at the first member: a key, a colon, a value, then a comma and
more members or the closing brace, with white space allowed between them.
`fuel` bounds the number of members. -/
def parseMembers : Nat → List Char → Option (List (String × JSONValue) × List Char)
  | 0, _ => none
  | _ + 1, [] => none
  | fuel + 1, c :: rest =>
    if c.toNat = 34 then
      match parseStringBody rest.length rest with
      | none => none
      | some (k, r1) =>
        match skipSpace r1 with
        | [] => none
        | colon :: r2 =>
          if colon.toNat = 58 then
            match parseValue (skipSpace r2) with
            | none => none
            | some (v, r3) =>
              match skipSpace r3 with
              | [] => none
              | d :: r4 =>
                if d.toNat = 125 then some ([(⟨k⟩, v)], r4)
                else if d.toNat = 44 then
                  match parseMembers fuel (skipSpace r4) with
                  | none => none
                  | some (ms, r5) => some ((⟨k⟩, v) :: ms, r5)
                else none
          else none
    else none

/-- Read a text as one JSON object whose members are not arrays or objects, as
`json.Unmarshal` into a `map[string]interface{}` reads the text of a flat
map: white space, an opening brace, the members, the closing brace, white
space, and nothing more. The result is the members in the order of the text;
`none` when the text is not such an object. -/
def parseObject (cs : List Char) : Option (List (String × JSONValue)) :=
  match skipSpace cs with
  | [] => none
  | c :: rest =>
    if c.toNat = 123 then
      match skipSpace rest with
      | [] => none
      | d :: r =>
        if d.toNat = 125 then (if skipSpace r = [] then some [] else none)
        else
          match parseMembers cs.length (d :: r) with
          | none => none
          | some (ms, r') => if skipSpace r' = [] then some ms else none
    else none

/-! ## The MQTT worker -/

/-- The part of `config.Global` that the worker reads. -/
structure GlobalConfig where
  TextFormat : String
  TextFormatDelimiter : String
  TextFormatBoundary : String
deriving DecidableEq, Repr

/-- The part of `config.Loggers.MQTT` that the worker reads; `QOS` is a byte. -/
structure MQTTConfig where
  RemoteAddress : String
  RemotePort : Nat
  Topic : String
  QOS : Nat
  ProtocolVersion : String
  Mode : String
  TextFormat : String
  TLSSupport : Bool
  TLSMinVersion : String
  BufferSize : Int
  FlushInterval : Int
  ConnectTimeout : Int
  RetryInterval : Int
deriving DecidableEq, Repr

/-- Modelled from the spec: the declaration of `pkgconfig.Config` lives outside
the files at hand; these are the global defaults and the MQTT logger options
that `workers/mqtt.go` reads. -/
structure Config where
  Global : GlobalConfig
  MQTT : MQTTConfig
deriving DecidableEq, Repr

/-- What the code takes from other packages: `netutils.IsValidTLS`, the rune
mapping `unicode.ToLower` and the constant `pkgconfig.PrefixLogWorker`. -/
structure Env where
  IsValidTLS : String → Bool
  unicodeToLower : Char → Char
  PrefixLogWorker : String

/-- The worker: the configuration and name held by the embedded
`GenericWorker`, and the fields of `MQTT` that the configuration determines. -/
structure MQTT where
  config : Config
  name : String
  textFormat : List String
  writerReady : Bool
deriving DecidableEq, Repr

/-- How a step of the worker ends: it goes on running, or `LogFatal` ended the
process, in the state reached and with the message logged. -/
inductive Outcome where
  | running (w : MQTT)
  | fatal (w : MQTT) (msg : String)
deriving DecidableEq, Repr

/-- Go `unicode.IsSpace`: the code points with the White_Space property. -/
def isSpace (c : Char) : Bool :=
  let n := c.toNat
  (9 ≤ n && n ≤ 13) || n = 32 || n = 0x85 || n = 0xA0 || n = 0x1680 ||
  (0x2000 ≤ n && n ≤ 0x200A) || n = 0x2028 || n = 0x2029 || n = 0x202F || n = 0x205F ||
  n = 0x3000

/-- Go `strings.Fields`: the maximal runs of non-space characters. -/
def Fields (s : String) : List String :=
  ((s.data.splitOnP isSpace).filter (fun f => !f.isEmpty)).map String.mk

/-- Go `strings.ToLower`: an ASCII string has its letters `A`..`Z` lowered,
any other string is mapped rune by rune through `unicode.ToLower`. -/
def ToLower (env : Env) (s : String) : String :=
  if s.data.all (fun c => c.toNat < 128) then
    ⟨s.data.map (fun c => if 65 ≤ c.toNat ∧ c.toNat ≤ 90 then Char.ofNat (c.toNat + 32) else c)⟩
  else ⟨s.data.map env.unicodeToLower⟩

/-- Modelled from the spec: `GenericWorker.GetConfig` lives outside the files
at hand; it returns the configuration the worker holds. -/
def MQTT.GetConfig (w : MQTT) : Config := w.config

/-- Modelled from the spec: `GenericWorker.SetConfig` lives outside the files
at hand; a reload installs the new configuration in place of the old one. -/
def MQTT.SetConfig (w : MQTT) (cfg : Config) : MQTT := { w with config := cfg }

/-- Modelled from the spec: `GenericWorker.GetName` lives outside the files at
hand; it returns the stable identifier of the worker. -/
def MQTT.GetName (w : MQTT) : String := w.name

/-- `MQTT.ReadConfig`. Each `LogFatal` ends the process (modelled from the
spec: a fatal configuration error makes the worker refuse to start and the
process exit), so a later check is reached only when the earlier ones pass. -/
def MQTT.ReadConfig (env : Env) (w : MQTT) : Outcome :=
  let w : MQTT :=
    if 0 < w.GetConfig.MQTT.TextFormat.utf8ByteSize then
      { w with textFormat := Fields w.GetConfig.MQTT.TextFormat }
    else
      { w with textFormat := Fields w.GetConfig.Global.TextFormat }
  if !env.IsValidTLS w.GetConfig.MQTT.TLSMinVersion then
    Outcome.fatal w (env.PrefixLogWorker ++ "[" ++ w.GetName ++ "]mqtt - invalid tls min version")
  else if w.GetConfig.MQTT.QOS > 2 then
    Outcome.fatal w
      (env.PrefixLogWorker ++ "[" ++ w.GetName ++ "]mqtt - invalid qos value, must be 0, 1, or 2")
  else
    let protocolVersion := ToLower env w.GetConfig.MQTT.ProtocolVersion
    if protocolVersion ≠ "v3" ∧ protocolVersion ≠ "v5" ∧ protocolVersion ≠ "auto" then
      Outcome.fatal w
        (env.PrefixLogWorker ++ "[" ++ w.GetName ++
          "]mqtt - invalid protocol version, must be v3, v5, or auto")
    else Outcome.running w

/-- The `NewConfig` case of `StartCollect`, up to the point where the
transformers are reloaded: `w.SetConfig(cfg); w.ReadConfig()`. -/
def MQTT.handleNewConfig (env : Env) (w : MQTT) (cfg : Config) : Outcome :=
  (w.SetConfig cfg).ReadConfig env

/-- Whether an outcome is a fatal error. -/
def Outcome.isFatal : Outcome → Bool
  | Outcome.fatal _ _ => true
  | Outcome.running _ => false

/-- The worker state in which a step ended. -/
def Outcome.worker : Outcome → MQTT
  | Outcome.fatal w _ => w
  | Outcome.running w => w

/-- Whether `ReadConfig` finds nothing to object to in a configuration. -/
def validConfig (env : Env) (c : Config) : Bool :=
  env.IsValidTLS c.MQTT.TLSMinVersion && decide (c.MQTT.QOS ≤ 2) &&
  decide (ToLower env c.MQTT.ProtocolVersion ∈ ["v3", "v5", "auto"])

/-- The text format that `ReadConfig` derives from a configuration. -/
def textFormatOf (c : Config) : List String :=
  if 0 < c.MQTT.TextFormat.utf8ByteSize then Fields c.MQTT.TextFormat
  else Fields c.Global.TextFormat

/-! ## The collector loop of the MQTT worker -/

/-- Modelled from the spec: the package `transformers` lives outside the files
at hand. The transform chain takes the message by pointer, may rewrite it, and
returns a verdict and an error; `ReturnDrop` is the verdict *drop*. -/
structure Transforms where
  ReturnDrop : Int
  ProcessMessage : DNSMessage → DNSMessage × Int × Option GoError

/-- What the collector loop has done: the two traffic counters, the errors
logged, and the messages pushed to the worker's output channel, handed to the
default routes and handed to the dropped routes, each in order. -/
structure CollectState where
  ingress : Nat
  egress : Nat
  logged : List String
  outputChannel : List DNSMessage
  forwarded : List DNSMessage
  dropped : List DNSMessage
deriving DecidableEq, Repr

/-- Modelled from the spec: `GenericWorker.CountIngressTraffic` lives outside
the files at hand; it counts one message of ingress. -/
def CollectState.CountIngressTraffic (s : CollectState) : CollectState :=
  { s with ingress := s.ingress + 1 }

/-- Modelled from the spec: `GenericWorker.CountEgressTraffic` lives outside
the files at hand; it counts one message of egress. -/
def CollectState.CountEgressTraffic (s : CollectState) : CollectState :=
  { s with egress := s.egress + 1 }

/-- Modelled from the spec: `GenericWorker.LogError` lives outside the files
at hand; it logs the message. -/
def CollectState.LogError (s : CollectState) (msg : String) : CollectState :=
  { s with logged := s.logged ++ [msg] }

/-- Modelled from the spec: `GenericWorker.SendDroppedTo` lives outside the
files at hand; it emits the message to every member of the dropped routes. -/
def CollectState.SendDroppedTo (s : CollectState) (dm : DNSMessage) : CollectState :=
  { s with dropped := s.dropped ++ [dm] }

/-- Modelled from the spec: `GenericWorker.SendForwardedTo` lives outside the
files at hand; it emits the message to every member of the default routes. -/
def CollectState.SendForwardedTo (s : CollectState) (dm : DNSMessage) : CollectState :=
  { s with forwarded := s.forwarded ++ [dm] }

/-- The send `w.GetOutputChannel() <- dm`. -/
def CollectState.pushOutput (s : CollectState) (dm : DNSMessage) : CollectState :=
  { s with outputChannel := s.outputChannel ++ [dm] }

/-- The case `dm, opened := <-w.GetInputChannel()` of `StartCollect`, for a
message read from the open channel. -/
def collectMessage (T : Transforms) (s : CollectState) (dm : DNSMessage) : CollectState :=
  let s := s.CountIngressTraffic
  match T.ProcessMessage dm with
  | (dm, transformResult, err) =>
    let s := match err with
      | some e => s.LogError e.msg
      | none => s
    if transformResult = T.ReturnDrop then
      s.SendDroppedTo dm
    else
      let s := s.CountEgressTraffic
      let s := s.pushOutput dm
      s.SendForwardedTo dm

/-! ## The logging loop of the MQTT worker -/

/-- Modelled from the spec: the constant `pkgconfig.ModeText` lives outside the
files at hand; the mode is written `text`. -/
def ModeText : String := "text"

/-- Modelled from the spec: the constant `pkgconfig.ModeJSON` lives outside the
files at hand; the mode is written `json`. -/
def ModeJSON : String := "json"

/-- Modelled from the spec: the constant `pkgconfig.ModeFlatJSON` lives outside
the files at hand; the mode is written `flat-json`. -/
def ModeFlatJSON : String := "flat-json"

/-- How a `Publish` call ends: `token.WaitTimeout(5 * time.Second)` gives up, or
the call completes and `token.Error()` is the error given, nil for success. -/
inductive PublishResult where
  | timeout
  | done (err : Option GoError)
deriving DecidableEq, Repr

/-- What the logging loop does to the outside, in order: a `Publish` call with
its four arguments, a line logged as an error (format and error argument) or as
information, the blocking receive `<-w.mqttReconnect`, the creation and the
reset of the flush timer with the duration given, and `Disconnect`. -/
inductive Event where
  | publish (topic : String) (qos : Nat) (retained : Bool) (payload : String)
  | logError (format : String) (err : Option GoError)
  | logInfo (msg : String)
  | waitReconnect
  | newTimer (d : Int)
  | timerReset (d : Int)
  | disconnect
deriving DecidableEq, Repr

/-- What `FlushBuffer` takes from elsewhere: the method `DNSMessage.String`
(format, delimiter, boundary), the contents of the buffer after
`json.NewEncoder(buffer).Encode(dm)`, the object text of `encoding/json` for a
flat map, and the method `ApplyRelabeling`. -/
structure Serializers where
  DNSMessageString : DNSMessage → List String → String → String → String
  encodeMessage : DNSMessage → String
  jsonText : FlatMap → String
  ApplyRelabeling : DNSMessage → FlatMap → FlatMap × Option GoError

/-- The `switch` on the mode at the head of the loop body of `FlushBuffer`:
the payload, or `none` when the body ends in `continue`, and what is logged.
A mode that matches no case leaves `payload` at its zero value. -/
def flushPayload (S : Serializers) (w : MQTT) (dm : DNSMessage) :
    Option String × List Event :=
  if w.GetConfig.MQTT.Mode = ModeText then
    (some (S.DNSMessageString dm w.textFormat w.GetConfig.Global.TextFormatDelimiter
      w.GetConfig.Global.TextFormatBoundary), [])
  else if w.GetConfig.MQTT.Mode = ModeJSON then
    (some (S.encodeMessage dm), [])
  else if w.GetConfig.MQTT.Mode = ModeFlatJSON then
    match Flatten S.ApplyRelabeling dm with
    | (_, some err) => (none, [Event.logError "flattening DNS message failed: %e" (some err)])
    | (some flat, none) => (some (encodeToBuffer S.jsonText flat), [])
    | (none, none) => (some "null\n", [])
  else (some "", [])

/-- The loop `for _, dm := range *buf` of `FlushBuffer`. `results k` is how the
`k`-th `Publish` call of the worker ends and `n` counts the calls made so far;
the result is the worker, the new count and the events, in order. -/
def flushLoop (S : Serializers) (results : Nat → PublishResult) (w : MQTT) (n : Nat) :
    List DNSMessage → MQTT × Nat × List Event
  | [] => (w, n, [])
  | dm :: rest =>
    match flushPayload S w dm with
    | (none, logged) =>
      match flushLoop S results w n rest with
      | (w', n', evs) => (w', n', logged ++ evs)
    | (some payload, logged) =>
      let token := Event.publish w.GetConfig.MQTT.Topic w.GetConfig.MQTT.QOS false payload
      match results n with
      | PublishResult.timeout =>
        ({ w with writerReady := false }, n + 1,
          logged ++ [token, Event.logError "publish timeout" none, Event.waitReconnect])
      | PublishResult.done (some err) =>
        ({ w with writerReady := false }, n + 1,
          logged ++ [token, Event.logError "publish failed: %s" (some err),
            Event.waitReconnect])
      | PublishResult.done none =>
        match flushLoop S results w (n + 1) rest with
        | (w', n', evs) => (w', n', logged ++ token :: evs)

/-- `MQTT.FlushBuffer`: the loop, then `*buf = nil`. The result is the worker,
the count of `Publish` calls, the buffer and the events. -/
def FlushBuffer (S : Serializers) (results : Nat → PublishResult) (w : MQTT) (n : Nat)
    (buf : List DNSMessage) : MQTT × Nat × List DNSMessage × List Event :=
  match flushLoop S results w n buf with
  | (w', n', evs) => (w', n', [], evs)

/-- A Go `time.Duration` of `n` seconds: `time.Duration(n) * time.Second`, in
nanoseconds, wrapped to 64 bits. -/
def secondsDuration (n : Int) : Int := (n * 1000000000 + 2 ^ 63) % 2 ^ 64 - 2 ^ 63

/-- The state of `StartLogging`: the worker, the buffer `bufferDm`, the
duration `flushInterval` computed before the loop, the number of `Publish`
calls made, the events so far, and whether the function has returned. -/
structure LoggingState where
  w : MQTT
  bufferDm : List DNSMessage
  flushInterval : Int
  publishCalls : Nat
  trace : List Event
  returned : Bool
deriving DecidableEq, Repr

/-- What wakes the logging loop, the five cases of its `select` (the output
channel yields a message or is closed), and the two handlers that the MQTT
client runs on its own: `OnConnect` and `ConnectionLost`. -/
inductive LoopInput where
  | loggerStopped
  | mqttReady
  | output (dm : DNSMessage)
  | outputClosed
  | flushTimer
  | onConnect
  | connectionLost (err : GoError)
deriving DecidableEq, Repr

/-- `StartLogging` up to the loop: the empty buffer, the flush interval read
from the configuration, and the timer. -/
def startLogging (w : MQTT) : LoggingState where
  w := w
  bufferDm := []
  flushInterval := secondsDuration w.GetConfig.MQTT.FlushInterval
  publishCalls := 0
  trace := [Event.logInfo "logging has started",
    Event.newTimer (secondsDuration w.GetConfig.MQTT.FlushInterval)]
  returned := false

/-- The call `w.FlushBuffer(&bufferDm)` inside the loop. -/
def LoggingState.flush (S : Serializers) (results : Nat → PublishResult)
    (st : LoggingState) : LoggingState :=
  match FlushBuffer S results st.w st.publishCalls st.bufferDm with
  | (w', n', buf', evs) =>
    { st with w := w', publishCalls := n', bufferDm := buf', trace := st.trace ++ evs }

/-- One turn of the loop of `StartLogging`, or one run of a handler set up by
`ConnectToMQTT`. Once the function has returned nothing more happens. -/
def loggingStep (S : Serializers) (results : Nat → PublishResult) (st : LoggingState) :
    LoopInput → LoggingState
  | LoopInput.loggerStopped =>
    if st.returned then st
    else { st with trace := st.trace ++ [Event.disconnect], returned := true }
  | LoopInput.mqttReady =>
    if st.returned then st
    else { st with trace := st.trace ++ [Event.logInfo "mqtt client connected with success"] }
  | LoopInput.outputClosed =>
    if st.returned then st
    else { st with trace := st.trace ++ [Event.logInfo "output channel closed!"],
                   returned := true }
  | LoopInput.output dm =>
    if st.returned then st
    else if !st.w.writerReady then st
    else
      let st := { st with bufferDm := st.bufferDm ++ [dm] }
      if (st.bufferDm.length : Int) ≥ st.w.GetConfig.MQTT.BufferSize then st.flush S results
      else st
  | LoopInput.flushTimer =>
    if st.returned then st
    else
      let st := if !st.w.writerReady then { st with bufferDm := [] } else st
      let st := if st.bufferDm.length > 0 then st.flush S results else st
      { st with trace := st.trace ++ [Event.timerReset st.flushInterval] }
  | LoopInput.onConnect =>
    { st with w := { st.w with writerReady := true },
              trace := st.trace ++ [Event.logInfo "mqtt broker connected"] }
  | LoopInput.connectionLost err =>
    { st with w := { st.w with writerReady := false },
              trace := st.trace ++ [Event.logError "mqtt connection lost: %s" (some err)] }

/-- A run of the logging loop over a sequence of wake-ups. -/
def runLogging (S : Serializers) (results : Nat → PublishResult) (st : LoggingState)
    (inputs : List LoopInput) : LoggingState :=
  inputs.foldl (loggingStep S results) st

/-- The payloads of the `Publish` calls among some events, in order. -/
def publishedPayloads : List Event → List String
  | [] => []
  | Event.publish _ _ _ payload :: rest => payload :: publishedPayloads rest
  | _ :: rest => publishedPayloads rest

/-- Whether an event is a reset of the flush timer. -/
def Event.isTimerReset : Event → Bool
  | Event.timerReset _ => true
  | _ => false

/-- Whether an event is a `Publish` call. -/
def Event.isPublish : Event → Bool
  | Event.publish _ _ _ _ => true
  | _ => false

/-! ## The connection loop of the MQTT worker -/

/-- What one turn of the loop of `ConnectToMQTT` meets, with durations in
seconds: whether `netutils.TLSClientConfig` fails (asked only with TLS
support), how long the connect token takes to complete and whether it then
carries an error, how long the send on `mqttReady` waits for its receiver, and
how long after that the signal on `mqttReconnect` arrives. -/
structure Attempt where
  tlsConfigError : Bool
  connectElapsed : Nat
  connectError : Bool
  readyTaken : Nat
  lostAfter : Nat
deriving DecidableEq, Repr

/-- How far a run of `ConnectToMQTT` got: it returned at the time given, or it
is still in its loop at the time given. -/
inductive ConnectEnd where
  | returned (t : Nat)
  | looping (t : Nat)
deriving DecidableEq, Repr

/-- Whether the channel `stopReconnect`, closed at `stopAt` if ever, can be
received from at time `now`. -/
def stopSignalled (stopAt : Option Nat) (now : Nat) : Bool :=
  match stopAt with
  | none => false
  | some t => decide (t ≤ now)

/-- A blocking `select` between an event due at time `due` and the channel
`stopReconnect`, entered at time `now`: the time at which the stop case is
taken, if it is the one taken. -/
def selectStop (stopAt : Option Nat) (now due : Nat) : Option Nat :=
  match stopAt with
  | none => none
  | some t => if t ≤ now then some now else if t < due then some t else none

/-- `MQTT.ConnectToMQTT` against a clock: the loop entered at time `now`, the
turns meeting the attempts given in order. `time.Sleep` blocks for the whole
`RetryInterval`; the stop channel is looked at in the `select` at the head of
the loop and in the two at its foot. -/
def ConnectToMQTT (cfg : MQTTConfig) (stopAt : Option Nat) :
    Nat → List Attempt → ConnectEnd
  | now, [] => if stopSignalled stopAt now then ConnectEnd.returned now
               else ConnectEnd.looping now
  | now, a :: rest =>
    if stopSignalled stopAt now then ConnectEnd.returned now
    else if cfg.TLSSupport && a.tlsConfigError then
      ConnectToMQTT cfg stopAt (now + cfg.RetryInterval.toNat) rest
    else if a.connectElapsed ≤ cfg.ConnectTimeout.toNat then
      if a.connectError then
        ConnectToMQTT cfg stopAt (now + a.connectElapsed + cfg.RetryInterval.toNat) rest
      else
        let connected := now + a.connectElapsed
        match selectStop stopAt connected (connected + a.readyTaken) with
        | some t => ConnectEnd.returned t
        | none =>
          let ready := connected + a.readyTaken
          match selectStop stopAt ready (ready + a.lostAfter) with
          | some t => ConnectEnd.returned t
          | none => ConnectToMQTT cfg stopAt (ready + a.lostAfter) rest
    else
      ConnectToMQTT cfg stopAt (now + cfg.ConnectTimeout.toNat + cfg.RetryInterval.toNat) rest

/-! ## Reference notions used in the statements -/

/-- The value last assigned to `k` by a run of assignments, if any. -/
def lastWrite (k : String) : List (String × Value) → Option Value
  | [] => none
  | (k', v) :: rest => (lastWrite k rest).or (if k' = k then some v else none)

/-- The fixed assignments of `Flatten`, made for every message. -/
def fixedFields (dm : DNSMessage) : List (String × Value) :=
  coreFields dm ++ anFields dm.DNS.DNSRRs.Answers ++ nsFields dm.DNS.DNSRRs.Nameservers ++
    arFields dm.DNS.DNSRRs.Records ++ ednsOptionFields dm.EDNS.Options

/-- The assignments of `Flatten` that depend on an optional sub-record. -/
def optionalFields (dm : DNSMessage) : List (String × Value) :=
  geoFields dm.Geo ++ suspiciousFields dm.Suspicious ++ publicSuffixFields dm.PublicSuffix ++
    extractedFields dm.Extracted ++ reducerFields dm.Reducer ++ filteringFields dm.Filtering ++
    mlFields dm.MachineLearning ++ atagsFields dm.ATags ++ powerDNSFields dm.PowerDNS

/-- The text of a list-valued field as the specification words it: the dash
for the empty list, otherwise the elements with one `|` between neighbours. -/
def summarySpec (xs : List String) : String :=
  if xs = [] then "-" else ⟨List.intercalate ['|'] (xs.map String.data)⟩

/-- The eighteen summary keys with the text the specification gives each. -/
def expectedSummaries (dm : DNSMessage) : List (String × String) :=
  [ ("dns.resource-records.an.names", summarySpec (dm.DNS.DNSRRs.Answers.map (fun rr => rr.Name))),
    ("dns.resource-records.an.rdatatypes",
      summarySpec (dm.DNS.DNSRRs.Answers.map (fun rr => rr.Rdatatype))),
    ("dns.resource-records.an.rdatas", summarySpec (dm.DNS.DNSRRs.Answers.map (fun rr => rr.Rdata))),
    ("dns.resource-records.an.ttls",
      summarySpec (dm.DNS.DNSRRs.Answers.map (fun rr => Itoa rr.TTL))),
    ("dns.resource-records.an.classes", summarySpec (dm.DNS.DNSRRs.Answers.map (fun rr => rr.Class))),
    ("dns.resource-records.ns.names",
      summarySpec (dm.DNS.DNSRRs.Nameservers.map (fun rr => rr.Name))),
    ("dns.resource-records.ns.rdatatypes",
      summarySpec (dm.DNS.DNSRRs.Nameservers.map (fun rr => rr.Rdatatype))),
    ("dns.resource-records.ns.rdatas",
      summarySpec (dm.DNS.DNSRRs.Nameservers.map (fun rr => rr.Rdata))),
    ("dns.resource-records.ns.ttls",
      summarySpec (dm.DNS.DNSRRs.Nameservers.map (fun rr => Itoa rr.TTL))),
    ("dns.resource-records.ns.classes",
      summarySpec (dm.DNS.DNSRRs.Nameservers.map (fun rr => rr.Class))),
    ("dns.resource-records.ar.names", summarySpec (dm.DNS.DNSRRs.Records.map (fun rr => rr.Name))),
    ("dns.resource-records.ar.rdatatypes",
      summarySpec (dm.DNS.DNSRRs.Records.map (fun rr => rr.Rdatatype))),
    ("dns.resource-records.ar.rdatas", summarySpec (dm.DNS.DNSRRs.Records.map (fun rr => rr.Rdata))),
    ("dns.resource-records.ar.ttls",
      summarySpec (dm.DNS.DNSRRs.Records.map (fun rr => Itoa rr.TTL))),
    ("dns.resource-records.ar.classes", summarySpec (dm.DNS.DNSRRs.Records.map (fun rr => rr.Class))),
    ("edns.options.codes", summarySpec (dm.EDNS.Options.map (fun opt => Itoa opt.Code))),
    ("edns.options.datas", summarySpec (dm.EDNS.Options.map (fun opt => opt.Data))),
    ("edns.options.names", summarySpec (dm.EDNS.Options.map (fun opt => opt.Name))) ]

/-- No key of an optional sub-record starts like `k`: `k` carries none of the
nine prefixes. -/
def noOptionalPrefix (k : String) : Bool :=
  !hasPrefix "geoip." k && !hasPrefix "suspicious." k && !hasPrefix "publicsuffix." k &&
  !hasPrefix "extracted." k && !hasPrefix "reducer." k && !hasPrefix "filtering." k &&
  !hasPrefix "ml." k && !hasPrefix "atags." k && !hasPrefix "powerdns." k

/-- The 45 scalar keys of the DNS, DNSTap, EDNS and NetworkInfo sections. -/
def scalarKeys : List String :=
  [ "dns.flags.aa", "dns.flags.ad", "dns.flags.qr", "dns.flags.ra", "dns.flags.tc",
    "dns.flags.rd", "dns.flags.cd", "dns.length", "dns.malformed-packet", "dns.id",
    "dns.opcode", "dns.qname", "dns.qtype", "dns.qclass", "dns.rcode", "dns.qdcount",
    "dns.ancount", "dns.arcount", "dns.nscount", "dnstap.identity", "dnstap.latency",
    "dnstap.operation", "dnstap.timestamp-rfc3339ns", "dnstap.version", "dnstap.extra",
    "dnstap.policy-rule", "dnstap.policy-type", "dnstap.policy-action", "dnstap.policy-match",
    "dnstap.policy-value", "dnstap.peer-name", "dnstap.query-zone", "edns.optionscount",
    "edns.dnssec-ok", "edns.rcode", "edns.udp-size", "edns.version", "network.family",
    "network.ip-defragmented", "network.protocol", "network.query-ip", "network.query-port",
    "network.response-ip", "network.response-port", "network.tcp-reassembled" ]

/-- The 15 summary keys of the three resource-record sections. -/
def rrKeys : List String :=
  [ "dns.resource-records.an.names", "dns.resource-records.an.rdatatypes",
    "dns.resource-records.an.rdatas", "dns.resource-records.an.ttls",
    "dns.resource-records.an.classes",
    "dns.resource-records.ns.names", "dns.resource-records.ns.rdatatypes",
    "dns.resource-records.ns.rdatas", "dns.resource-records.ns.ttls",
    "dns.resource-records.ns.classes",
    "dns.resource-records.ar.names", "dns.resource-records.ar.rdatatypes",
    "dns.resource-records.ar.rdatas", "dns.resource-records.ar.ttls",
    "dns.resource-records.ar.classes" ]

/-- The 3 summary keys of the EDNS options. -/
def ednsOptionKeys : List String :=
  [ "edns.options.codes", "edns.options.datas", "edns.options.names" ]

/-- The 63 fixed core keys. -/
def coreKeys : List String := scalarKeys ++ rrKeys ++ ednsOptionKeys

/-- The keys of the Geo sub-record. -/
def geoKeys : List String :=
  [ "geoip.city", "geoip.continent", "geoip.country-isocode", "geoip.as-number",
    "geoip.as-owner" ]

/-- The keys of the Suspicious sub-record. -/
def suspiciousKeys : List String :=
  [ "suspicious.score", "suspicious.malformed-pkt", "suspicious.large-pkt",
    "suspicious.long-domain", "suspicious.slow-domain", "suspicious.unallowed-chars",
    "suspicious.uncommon-qtypes", "suspicious.excessive-number-labels", "suspicious.domain" ]

/-- The keys of the PublicSuffix sub-record. -/
def publicSuffixKeys : List String :=
  [ "publicsuffix.tld", "publicsuffix.etld+1", "publicsuffix.managed-icann" ]

/-- The key of the Extracted sub-record. -/
def extractedKeys : List String := [ "extracted.dns_payload" ]

/-- The keys of the Reducer sub-record. -/
def reducerKeys : List String := [ "reducer.occurrences", "reducer.cumulative-length" ]

/-- The key of the Filtering sub-record. -/
def filteringKeys : List String := [ "filtering.sample-rate" ]

/-- The keys of the MachineLearning sub-record. -/
def mlKeys : List String :=
  [ "ml.entropy", "ml.length", "ml.labels", "ml.digits", "ml.lowers", "ml.uppers",
    "ml.specials", "ml.others", "ml.ratio-digits", "ml.ratio-letters", "ml.ratio-specials",
    "ml.ratio-others", "ml.consecutive-chars", "ml.consecutive-vowels",
    "ml.consecutive-digits", "ml.consecutive-consonants", "ml.size", "ml.occurrences",
    "ml.uncommon-qtypes" ]

/-- The keys of a tag list: the bare key when the list is empty, otherwise one
indexed key per position. -/
def tagKeys (key pfx : String) (tags : List String) : List String :=
  if tags = [] then [key] else (List.range tags.length).map (fun (i : Nat) => pfx ++ Itoa (i : Int))

/-- The keys of the ATags sub-record. -/
def atagsKeys (a : TransformATags) : List String := tagKeys "atags.tags" "atags.tags." a.Tags

/-- The keys of the PowerDNS sub-record. -/
def powerDNSKeys (p : PowerDNS) : List String :=
  tagKeys "powerdns.tags" "powerdns.tags." p.Tags ++
  [ "powerdns.original-request-subnet", "powerdns.applied-policy",
    "powerdns.applied-policy-hit", "powerdns.applied-policy-kind",
    "powerdns.applied-policy-trigger", "powerdns.applied-policy-type" ] ++
  p.Metadata.map (fun e => "powerdns.metadata." ++ e.1) ++
  [ "powerdns.http-version", "powerdns.message-id", "powerdns.requestor-id",
    "powerdns.device-id", "powerdns.device-name", "powerdns.initial-requestor-id" ]

/-- The nine optional sub-records that contribute keys. -/
inductive OptSection where
  | geo | suspicious | publicSuffix | extracted | reducer | filtering | ml | atags | powerdns
deriving DecidableEq, Repr

/-- The keys a sub-record contributes to the schema: none when it is absent. -/
def sectionKeys (s : OptSection) (dm : DNSMessage) : List String :=
  match s with
  | .geo => match dm.Geo with | none => [] | some _ => geoKeys
  | .suspicious => match dm.Suspicious with | none => [] | some _ => suspiciousKeys
  | .publicSuffix => match dm.PublicSuffix with | none => [] | some _ => publicSuffixKeys
  | .extracted => match dm.Extracted with | none => [] | some _ => extractedKeys
  | .reducer => match dm.Reducer with | none => [] | some _ => reducerKeys
  | .filtering => match dm.Filtering with | none => [] | some _ => filteringKeys
  | .ml => match dm.MachineLearning with | none => [] | some _ => mlKeys
  | .atags => match dm.ATags with | none => [] | some a => atagsKeys a
  | .powerdns => match dm.PowerDNS with | none => [] | some p => powerDNSKeys p

/-- The same message with one optional sub-record made absent. -/
def dropSection (s : OptSection) (dm : DNSMessage) : DNSMessage :=
  match s with
  | .geo => { dm with Geo := none }
  | .suspicious => { dm with Suspicious := none }
  | .publicSuffix => { dm with PublicSuffix := none }
  | .extracted => { dm with Extracted := none }
  | .reducer => { dm with Reducer := none }
  | .filtering => { dm with Filtering := none }
  | .ml => { dm with MachineLearning := none }
  | .atags => { dm with ATags := none }
  | .powerdns => { dm with PowerDNS := none }

/-- The prefix shared by the keys of a sub-record. -/
def sectionPrefix : OptSection → String
  | .geo => "geoip."
  | .suspicious => "suspicious."
  | .publicSuffix => "publicsuffix."
  | .extracted => "extracted."
  | .reducer => "reducer."
  | .filtering => "filtering."
  | .ml => "ml."
  | .atags => "atags."
  | .powerdns => "powerdns."

/-- The assignments that `Flatten` makes for a sub-record. -/
def sectionFields (s : OptSection) (dm : DNSMessage) : List (String × Value) :=
  match s with
  | .geo => geoFields dm.Geo
  | .suspicious => suspiciousFields dm.Suspicious
  | .publicSuffix => publicSuffixFields dm.PublicSuffix
  | .extracted => extractedFields dm.Extracted
  | .reducer => reducerFields dm.Reducer
  | .filtering => filteringFields dm.Filtering
  | .ml => mlFields dm.MachineLearning
  | .atags => atagsFields dm.ATags
  | .powerdns => powerDNSFields dm.PowerDNS

/-- The number a string of decimal digits denotes. -/
def decodeDigits (cs : List Char) : Nat :=
  cs.foldl (fun acc c => 10 * acc + (c.toNat - 48)) 0

/-- The layout of an ordered tag list in a flat map, as the specification gives
it: for the empty list the bare key holds the dash and no key starts with the
indexed prefix; for a list of `n ≥ 1` tags the key `pfx ++ i` holds the `i`-th
tag for every `i < n`, the keys that start with the prefix are these `n` keys
and no others, and the bare key is absent. -/
def TagsLaidOut (m : FlatMap) (key pfx : String) (tags : List String) : Prop :=
  (tags = [] →
    m.get key = some (Value.str "-") ∧ ∀ k ∈ m.keys, hasPrefix pfx k = false) ∧
  (tags ≠ [] →
    (∀ (i : Nat) (t : String), tags[i]? = some t →
      m.get (pfx ++ Itoa (i : Int)) = some (Value.str t)) ∧
    (∀ k ∈ m.keys, hasPrefix pfx k = true →
      ∃ i : Nat, i < tags.length ∧ k = pfx ++ Itoa (i : Int)) ∧
    (m.keys.toFinset.filter (fun k => hasPrefix pfx k = true)).card = tags.length ∧
    key ∉ m.keys)

/-- The payloads that a buffer gives rise to, in order: one per message that
the mode can serialize. -/
def payloads (S : Serializers) (w : MQTT) (buf : List DNSMessage) : List String :=
  buf.filterMap (fun dm => (flushPayload S w dm).1)

/-- The flat-JSON text of a message, when `ToFlatJSON` returns one without an
error. -/
def flatJSONOf (S : Serializers) (dm : DNSMessage) : Option String :=
  match ToFlatJSON S.ApplyRelabeling S.jsonText dm with
  | (text, none) => some text
  | (_, some _) => none

/-- Whether a piece of text is a non-empty run of decimal digits. -/
def digitsOk (cs : List Char) : Bool := !cs.isEmpty && cs.all Char.isDigit

/-- The integer that a piece of text denotes in decimal: an optional sign and
then digits; `none` for anything else. -/
def parseDecimal (cs : List Char) : Option Int :=
  match cs with
  | [] => none
  | c :: ds =>
    if c = '-' then (if digitsOk ds then some (-(decodeDigits ds : Int)) else none)
    else if c = '+' then (if digitsOk ds then some (decodeDigits ds : Int) else none)
    else if digitsOk (c :: ds) then some (decodeDigits (c :: ds) : Int)
    else none

/-- The four integer-valued summary keys, each with the integers that
`Flatten` renders under it: the TTLs of the three resource-record sections and
the codes of the EDNS options. -/
def intSummaries (dm : DNSMessage) : List (String × List Int) :=
  [ ("dns.resource-records.an.ttls", dm.DNS.DNSRRs.Answers.map (fun rr => rr.TTL)),
    ("dns.resource-records.ns.ttls", dm.DNS.DNSRRs.Nameservers.map (fun rr => rr.TTL)),
    ("dns.resource-records.ar.ttls", dm.DNS.DNSRRs.Records.map (fun rr => rr.TTL)),
    ("edns.options.codes", dm.EDNS.Options.map (fun opt => opt.Code)) ]

/-- All the assignments that `Flatten` executes, in order. -/
def flattenWrites (dm : DNSMessage) : List (String × Value) :=
  fixedFields dm ++ optionalFields dm

/-- The nine optional sub-records in the order in which `Flatten` visits
them. -/
def sectionsInOrder : List OptSection :=
  [ OptSection.geo, OptSection.suspicious, OptSection.publicSuffix, OptSection.extracted,
    OptSection.reducer, OptSection.filtering, OptSection.ml, OptSection.atags,
    OptSection.powerdns ]

/-- The same message with the entries of the PowerDNS metadata map visited in
the order given. -/
def withMetadataOrder (dm : DNSMessage) (md : List (String × String)) : DNSMessage :=
  match dm.PowerDNS with
  | none => dm
  | some p => { dm with PowerDNS := some { p with Metadata := md } }

/-! ## Sample inputs -/

/-- A relabeling method that leaves the map as it is and reports no error. -/
def identityRelabeling : DNSMessage → FlatMap → FlatMap × Option GoError :=
  fun _ m => (m, none)

/-- A relabeling method that always fails. -/
def failingRelabeling : DNSMessage → FlatMap → FlatMap × Option GoError :=
  fun _ m => (m.set "dns.qname" (Value.str "renamed"), some ⟨"invalid relabeling rule"⟩)

/-- A query for `dns.collector` with two answers, one EDNS option, two ATags
tags and a PowerDNS section carrying one metadata entry. -/
def sampleMessage : DNSMessage where
  NetworkInfo :=
    { Family := Value.str "INET", Protocol := Value.str "UDP", QueryIP := Value.str "1.2.3.4",
      QueryPort := Value.str "1234", ResponseIP := Value.str "4.3.2.1",
      ResponsePort := Value.str "53", IPDefragmented := Value.bool false,
      TCPReassembled := Value.bool false }
  DNS :=
    { ID := Value.int 0, Length := Value.int 160, Opcode := Value.int 0,
      Rcode := Value.str "NOERROR", Qname := Value.str "dns.collector",
      Qtype := Value.str "A", Qclass := Value.str "IN", QdCount := Value.int 1,
      AnCount := Value.int 2, NsCount := Value.int 0, ArCount := Value.int 0,
      Flags :=
        { QR := Value.bool true, TC := Value.bool false, AA := Value.bool false,
          RA := Value.bool true, AD := Value.bool false, RD := Value.bool true,
          CD := Value.bool false }
      DNSRRs :=
        { Answers :=
            [ { Name := "dns.collector", Rdatatype := "A", Class := "IN", TTL := 300,
                Rdata := "192.0.2.1" },
              { Name := "dns.collector", Rdatatype := "A", Class := "IN", TTL := 60,
                Rdata := "192.0.2.2" } ]
          Nameservers := []
          Records := [] }
      MalformedPacket := Value.bool false }
  EDNS :=
    { UDPSize := Value.int 1232, ExtendedRcode := Value.int 0, Version := Value.int 0,
      Do := Value.int 0, Options := [ { Code := 10, Name := "COOKIE", Data := "-" } ] }
  DNSTap :=
    { Operation := Value.str "CLIENT_QUERY", Identity := Value.str "collector",
      Version := Value.str "dnscollector 1.0.0",
      TimestampRFC3339 := Value.str "2024-01-01T00:00:00Z", Latency := Value.float 0,
      Extra := Value.str "-", PolicyRule := Value.str "-", PolicyType := Value.str "-",
      PolicyAction := Value.str "-", PolicyMatch := Value.str "-",
      PolicyValue := Value.str "-", PeerName := Value.str "localhost",
      QueryZone := Value.str "-" }
  Geo := none
  PowerDNS := some
    { Tags := [], OriginalRequestSubnet := Value.str "", AppliedPolicy := Value.str "",
      AppliedPolicyHit := Value.str "", AppliedPolicyKind := Value.str "",
      AppliedPolicyTrigger := Value.str "", AppliedPolicyType := Value.str "",
      Metadata := [("agent", "recursor")], HTTPVersion := Value.str "",
      MessageID := Value.str "", RequestorID := Value.str "", DeviceID := Value.str "",
      DeviceName := Value.str "", InitialRequestorID := Value.str "" }
  Suspicious := none
  PublicSuffix := none
  Extracted := none
  Reducer := none
  MachineLearning := none
  Filtering := none
  ATags := some { Tags := ["internal", "lab"] }
  Relabeling := none

/-- The sample message with a relabeling configuration attached. -/
def relabeledMessage : DNSMessage :=
  { sampleMessage with
    Relabeling := some { Rules := [ { Regex := "dns.qname", Replacement := "qname",
                                      Action := "rename" } ] } }

/-- The sample message with a NaN latency (bit pattern `0x7FF8000000000000`). -/
def nanLatencyMessage : DNSMessage :=
  { sampleMessage with
    DNSTap := { sampleMessage.DNSTap with Latency := Value.float 0x7FF8000000000000 } }

/-- An environment: TLS versions 1.0 to 1.3 are valid. -/
def sampleEnv : Env where
  IsValidTLS := fun v => v ∈ ["1.0", "1.1", "1.2", "1.3"]
  unicodeToLower := fun c => c
  PrefixLogWorker := "worker - "

/-- A configuration in the shape of the defaults. -/
def sampleConfig : Config where
  Global :=
    { TextFormat := "timestamp identity qname qtype", TextFormatDelimiter := " ",
      TextFormatBoundary := "\"" }
  MQTT :=
    { RemoteAddress := "127.0.0.1", RemotePort := 1883, Topic := "dns/logs", QOS := 0,
      ProtocolVersion := "auto", Mode := "flat-json", TextFormat := "", TLSSupport := false,
      TLSMinVersion := "1.2", BufferSize := 100, FlushInterval := 30, ConnectTimeout := 5,
      RetryInterval := 10 }

/-- A running worker holding the sample configuration. -/
def sampleWorker : MQTT where
  config := sampleConfig
  name := "test-mqtt"
  textFormat := ["timestamp", "identity", "qname", "qtype"]
  writerReady := false

/-- The sample configuration with the protocol version in capitals. -/
def upperCaseConfig : Config :=
  { sampleConfig with MQTT := { sampleConfig.MQTT with ProtocolVersion := "V5" } }

/-- A reloaded configuration with an invalid QOS and its own text format. -/
def badQosConfig : Config :=
  { sampleConfig with
    MQTT := { sampleConfig.MQTT with QOS := 3, Topic := "dns/updated", TextFormat := "qname" } }

/-- A transform chain that drops every message whose qname is `drop.me`,
reports an error for every message without ATags, and tags what it keeps. -/
def sampleTransforms : Transforms where
  ReturnDrop := 2
  ProcessMessage := fun dm =>
    ({ dm with Filtering := some { SampleRate := Value.int 1 } },
      if dm.DNS.Qname = Value.str "drop.me" then 2 else 1,
      if dm.ATags = none then some ⟨"atags: no tags"⟩ else none)

/-- A message without ATags: the sample transform chain keeps it and reports
an error. -/
def untaggedMessage : DNSMessage := { sampleMessage with ATags := none }

/-- The collector loop before any message. -/
def emptyCollectState : CollectState where
  ingress := 0
  egress := 0
  logged := []
  outputChannel := []
  forwarded := []
  dropped := []

/-- Serializers for the examples: the text rendering joins the format with the
delimiter, the JSON texts are fixed. -/
def sampleSerializers : Serializers where
  DNSMessageString := fun _ format delimiter _ => delimiter.intercalate format
  encodeMessage := fun _ => "\x7b\"dns\":\x7b\x7d\x7d\n"
  jsonText := fun _ => "\x7b\x7d"
  ApplyRelabeling := failingRelabeling

/-- The sample worker with the writer ready. -/
def readyWorker : MQTT := { sampleWorker with writerReady := true }

/-- An attempt whose connect token fails at once. -/
def refusedAttempt : Attempt where
  tlsConfigError := false
  connectElapsed := 0
  connectError := true
  readyTaken := 0
  lostAfter := 0

/-- The sample configuration in mode `json` with a buffer of one message. -/
def smallBufferConfig : Config :=
  { sampleConfig with MQTT := { sampleConfig.MQTT with Mode := "json", BufferSize := 1 } }

/-- The sample configuration with a negative buffer size. -/
def negativeBufferConfig : Config :=
  { sampleConfig with MQTT := { sampleConfig.MQTT with BufferSize := -1 } }

/-- The sample message with an answer section given. -/
def withAnswers (answers : List DNSAnswer) : DNSMessage :=
  { sampleMessage with
    DNS := { sampleMessage.DNS with
      DNSRRs := { sampleMessage.DNS.DNSRRs with Answers := answers } } }

/-- One record whose string fields are all the dash. -/
def dashRecord : DNSAnswer where
  Name := "-"
  Rdatatype := "-"
  Class := "-"
  TTL := 0
  Rdata := "-"

/-- A record with the name given and the other fields fixed. -/
def namedRecord (name : String) : DNSAnswer where
  Name := name
  Rdatatype := "TXT"
  Class := "IN"
  TTL := 30
  Rdata := name

/-- The sample configuration with a mode that is none of the three. -/
def unknownModeConfig : Config :=
  { sampleConfig with MQTT := { sampleConfig.MQTT with Mode := "xml" } }

/-- The sample message with two metadata entries. -/
def twoMetadataMessage : DNSMessage :=
  withMetadataOrder sampleMessage [("agent", "recursor"), ("zone", "rpz")]

/-- The sample configuration in mode `json` with a buffer of two messages. -/
def pairBufferConfig : Config :=
  { sampleConfig with MQTT := { sampleConfig.MQTT with Mode := "json", BufferSize := 2 } }

/-- The sample configuration in mode `text` with a text format of its own. -/
def textModeConfig : Config :=
  { sampleConfig with MQTT := { sampleConfig.MQTT with Mode := "text", TextFormat := "qname qtype" } }

/-- The sample message asked for another name. -/
def otherMessage : DNSMessage :=
  { sampleMessage with DNS := { sampleMessage.DNS with Qname := Value.str "example.org" } }

/-- What a directive of a text format shows of a message, in the examples: the
name and the type asked for, the dash for any other directive. -/
def directiveText (dm : DNSMessage) (d : String) : String :=
  if d = "qname" then (match dm.DNS.Qname with | Value.str s => s | _ => "-")
  else if d = "qtype" then (match dm.DNS.Qtype with | Value.str s => s | _ => "-")
  else "-"

/-- Serializers for the examples whose texts show the message: the text
rendering joins what the directives show with the delimiter, the JSON text
carries the name asked for. -/
def showingSerializers : Serializers where
  DNSMessageString := fun dm format delimiter _ =>
    delimiter.intercalate (format.map (directiveText dm))
  encodeMessage := fun dm => "\x7b\"qname\":\"" ++ directiveText dm "qname" ++ "\"\x7d\n"
  jsonText := fun _ => "\x7b\x7d"
  ApplyRelabeling := failingRelabeling

/-! ## Facts about the flat map -/

namespace FlatMap

theorem getEntries_setEntries_self (k : String) (v : Value) (l : List (String × Value)) :
    getEntries k (setEntries k v l) = some v := by
  induction l with
  | nil => simp [setEntries, getEntries]
  | cons hd tl ih =>
    obtain ⟨k', v'⟩ := hd
    by_cases h : k' = k
    · simp [setEntries, getEntries, h]
    · simp [setEntries, getEntries, h, ih]

theorem getEntries_setEntries_ne {k k' : String} (h : k' ≠ k) (v : Value)
    (l : List (String × Value)) : getEntries k' (setEntries k v l) = getEntries k' l := by
  induction l with
  | nil => simp [setEntries, getEntries, Ne.symm h]
  | cons hd tl ih =>
    obtain ⟨k₀, v₀⟩ := hd
    by_cases h₀ : k₀ = k
    · subst h₀
      simp [setEntries, getEntries, Ne.symm h]
    · by_cases h₁ : k₀ = k'
      · subst h₁
        simp [setEntries, getEntries, h₀]
      · simp [setEntries, getEntries, h₀, h₁, ih]

theorem mem_keys_setEntries (k k' : String) (v : Value) (l : List (String × Value)) :
    k' ∈ (setEntries k v l).map Prod.fst ↔ k' = k ∨ k' ∈ l.map Prod.fst := by
  induction l with
  | nil => simp [setEntries]
  | cons hd tl ih =>
    obtain ⟨k₀, v₀⟩ := hd
    by_cases h₀ : k₀ = k
    · subst h₀
      simp [setEntries]
    · simp only [setEntries, h₀, if_false, List.map_cons, List.mem_cons, ih]
      tauto

theorem get_set_self (m : FlatMap) (k : String) (v : Value) : (m.set k v).get k = some v :=
  getEntries_setEntries_self k v m.entries

theorem get_set_ne (m : FlatMap) {k k' : String} (h : k' ≠ k) (v : Value) :
    (m.set k v).get k' = m.get k' :=
  getEntries_setEntries_ne h v m.entries

theorem mem_keys_set (m : FlatMap) (k k' : String) (v : Value) :
    k' ∈ (m.set k v).keys ↔ k' = k ∨ k' ∈ m.keys :=
  mem_keys_setEntries k k' v m.entries

theorem assignAll_nil (m : FlatMap) : m.assignAll [] = m := rfl

theorem assignAll_cons (m : FlatMap) (kv : String × Value) (ws : List (String × Value)) :
    m.assignAll (kv :: ws) = (m.set kv.1 kv.2).assignAll ws := rfl

theorem assignAll_append (m : FlatMap) (a b : List (String × Value)) :
    m.assignAll (a ++ b) = (m.assignAll a).assignAll b := by
  simp [assignAll, List.foldl_append]

theorem get_assignAll (k : String) (ws : List (String × Value)) (m : FlatMap) :
    (m.assignAll ws).get k = (lastWrite k ws).or (m.get k) := by
  induction ws generalizing m with
  | nil => simp [assignAll_nil, lastWrite]
  | cons hd tl ih =>
    obtain ⟨k', v⟩ := hd
    rw [assignAll_cons, ih, lastWrite]
    cases lastWrite k tl with
    | some x => simp
    | none =>
      by_cases h : k' = k
      · subst h
        simp [get_set_self]
      · simp [h, get_set_ne m (Ne.symm h)]

theorem mem_keys_assignAll (k : String) (ws : List (String × Value)) (m : FlatMap) :
    k ∈ (m.assignAll ws).keys ↔ k ∈ ws.map Prod.fst ∨ k ∈ m.keys := by
  induction ws generalizing m with
  | nil => simp [assignAll_nil]
  | cons hd tl ih =>
    rw [assignAll_cons, ih, mem_keys_set]
    simp only [List.map_cons, List.mem_cons]
    tauto

theorem get_empty (k : String) : FlatMap.empty.get k = none := rfl

theorem keys_empty : FlatMap.empty.keys = [] := rfl

end FlatMap

theorem lastWrite_append (k : String) (a b : List (String × Value)) :
    lastWrite k (a ++ b) = (lastWrite k b).or (lastWrite k a) := by
  induction a with
  | nil => simp [lastWrite]
  | cons hd tl ih =>
    obtain ⟨k', v⟩ := hd
    rw [List.cons_append, lastWrite, lastWrite, ih]
    cases lastWrite k b <;> simp

theorem lastWrite_eq_none_iff (k : String) (ws : List (String × Value)) :
    lastWrite k ws = none ↔ k ∉ ws.map Prod.fst := by
  induction ws with
  | nil => simp [lastWrite]
  | cons hd tl ih =>
    obtain ⟨k', v⟩ := hd
    rw [lastWrite, List.map_cons, List.mem_cons, not_or]
    cases hl : lastWrite k tl with
    | some x =>
      have hmem : ¬ (k ∉ tl.map Prod.fst) := fun hn => by simp [ih.mpr hn] at hl
      constructor
      · intro h
        simp at h
      · intro h
        exact absurd h.2 hmem
    | none =>
      have hnot := ih.mp hl
      by_cases h : k' = k
      · simp [h]
      · simp only [Option.none_or, h, if_false, true_iff]
        exact ⟨fun e => h e.symm, hnot⟩

theorem lastWrite_eq_none_of_pfx (p k : String) (ws : List (String × Value))
    (hws : ∀ kv ∈ ws, hasPrefix p kv.1 = true) (hk : hasPrefix p k = false) :
    lastWrite k ws = none := by
  rw [lastWrite_eq_none_iff]
  intro hmem
  obtain ⟨kv, hkv, rfl⟩ := List.mem_map.mp hmem
  rw [hws kv hkv] at hk
  exact Bool.noConfusion hk

theorem hasPrefix_append (p s : String) : hasPrefix p (p ++ s) = true := by
  simp [hasPrefix, String.data_append]

theorem hasPrefix_trans {p q k : String} (hpq : hasPrefix p q = true)
    (hqk : hasPrefix q k = true) : hasPrefix p k = true := by
  simp only [hasPrefix, List.isPrefixOf_iff_prefix] at *
  exact hpq.trans hqk

/-! ## Facts about the blocks of `Flatten` -/

theorem flattenFields_eq (dm : DNSMessage) :
    flattenFields dm = FlatMap.empty.assignAll (fixedFields dm ++ optionalFields dm) := by
  simp only [flattenFields, fixedFields, optionalFields, FlatMap.assignAll_append]

theorem Flatten_of_no_relabeling (R : DNSMessage → FlatMap → FlatMap × Option GoError)
    (dm : DNSMessage) (hR : dm.Relabeling = none) :
    Flatten R dm = (some (flattenFields dm), none) := by
  simp [Flatten, hR]

theorem keys_fixedFields (dm : DNSMessage) : (fixedFields dm).map Prod.fst = coreKeys := rfl

theorem keys_geoFields (g : TransformDNSGeo) : (geoFields (some g)).map Prod.fst = geoKeys := rfl

theorem keys_suspiciousFields (x : TransformSuspicious) :
    (suspiciousFields (some x)).map Prod.fst = suspiciousKeys := rfl

theorem keys_publicSuffixFields (x : TransformPublicSuffix) :
    (publicSuffixFields (some x)).map Prod.fst = publicSuffixKeys := rfl

theorem keys_extractedFields (x : TransformExtracted) :
    (extractedFields (some x)).map Prod.fst = extractedKeys := rfl

theorem keys_reducerFields (x : TransformReducer) :
    (reducerFields (some x)).map Prod.fst = reducerKeys := rfl

theorem keys_filteringFields (x : TransformFiltering) :
    (filteringFields (some x)).map Prod.fst = filteringKeys := rfl

theorem keys_mlFields (x : TransformML) : (mlFields (some x)).map Prod.fst = mlKeys := rfl

theorem keys_indexedTagFields (pfx : String) (tags : List String) (i : Nat) :
    (indexedTagFields pfx i tags).map Prod.fst =
      (List.range tags.length).map (fun j => pfx ++ Itoa ((i + j : Nat) : Int)) := by
  induction tags generalizing i with
  | nil => simp [indexedTagFields]
  | cons t rest ih =>
    simp only [indexedTagFields, List.map_cons, ih, List.length_cons, List.range_succ_eq_map,
      List.map_map, Nat.add_zero]
    congr 1
    apply List.map_congr_left
    intro j _
    simp only [Function.comp]
    congr 3
    omega

theorem keys_tagFields (key pfx : String) (tags : List String) :
    (tagFields key pfx tags).map Prod.fst = tagKeys key pfx tags := by
  cases tags with
  | nil => simp [tagFields, tagKeys, indexedTagFields]
  | cons t rest =>
    have h := keys_indexedTagFields pfx (t :: rest) 0
    simp only [Nat.zero_add] at h
    simp [tagFields, tagKeys, h]

theorem keys_atagsFields (a : TransformATags) :
    (atagsFields (some a)).map Prod.fst = atagsKeys a :=
  keys_tagFields _ _ _

theorem keys_powerDNSFields (p : PowerDNS) :
    (powerDNSFields (some p)).map Prod.fst = powerDNSKeys p := by
  simp [powerDNSFields, powerDNSKeys, keys_tagFields, metadataFields]

theorem pfx_geoFields (g : Option TransformDNSGeo) :
    ∀ k ∈ (geoFields g).map Prod.fst, hasPrefix "geoip." k = true := by
  cases g with
  | none => simp [geoFields]
  | some g => rw [keys_geoFields]; decide

theorem pfx_suspiciousFields (x : Option TransformSuspicious) :
    ∀ k ∈ (suspiciousFields x).map Prod.fst, hasPrefix "suspicious." k = true := by
  cases x with
  | none => simp [suspiciousFields]
  | some x => rw [keys_suspiciousFields]; decide

theorem pfx_publicSuffixFields (x : Option TransformPublicSuffix) :
    ∀ k ∈ (publicSuffixFields x).map Prod.fst, hasPrefix "publicsuffix." k = true := by
  cases x with
  | none => simp [publicSuffixFields]
  | some x => rw [keys_publicSuffixFields]; decide

theorem pfx_extractedFields (x : Option TransformExtracted) :
    ∀ k ∈ (extractedFields x).map Prod.fst, hasPrefix "extracted." k = true := by
  cases x with
  | none => simp [extractedFields]
  | some x => rw [keys_extractedFields]; decide

theorem pfx_reducerFields (x : Option TransformReducer) :
    ∀ k ∈ (reducerFields x).map Prod.fst, hasPrefix "reducer." k = true := by
  cases x with
  | none => simp [reducerFields]
  | some x => rw [keys_reducerFields]; decide

theorem pfx_filteringFields (x : Option TransformFiltering) :
    ∀ k ∈ (filteringFields x).map Prod.fst, hasPrefix "filtering." k = true := by
  cases x with
  | none => simp [filteringFields]
  | some x => rw [keys_filteringFields]; decide

theorem pfx_mlFields (x : Option TransformML) :
    ∀ k ∈ (mlFields x).map Prod.fst, hasPrefix "ml." k = true := by
  cases x with
  | none => simp [mlFields]
  | some x => rw [keys_mlFields]; decide

theorem pfx_tagKeys (q key pfx : String) (tags : List String)
    (hkey : hasPrefix q key = true) (hpfx : hasPrefix q pfx = true) :
    ∀ k ∈ tagKeys key pfx tags, hasPrefix q k = true := by
  intro k hk
  unfold tagKeys at hk
  split at hk
  · rw [List.mem_singleton] at hk
    rw [hk]; exact hkey
  · obtain ⟨i, _, rfl⟩ := List.mem_map.mp hk
    exact hasPrefix_trans hpfx (hasPrefix_append _ _)

theorem pfx_atagsFields (x : Option TransformATags) :
    ∀ k ∈ (atagsFields x).map Prod.fst, hasPrefix "atags." k = true := by
  cases x with
  | none => simp [atagsFields]
  | some a =>
    rw [keys_atagsFields]
    exact pfx_tagKeys _ _ _ _ (by decide) (by decide)

theorem pfx_powerDNSKeys (p : PowerDNS) :
    ∀ k ∈ powerDNSKeys p, hasPrefix "powerdns." k = true := by
  intro k hk
  simp only [powerDNSKeys, List.mem_append] at hk
  rcases hk with ((hk | hk) | hk) | hk
  · exact pfx_tagKeys _ _ _ _ (by decide) (by decide) k hk
  · revert k; decide
  · obtain ⟨e, _, rfl⟩ := List.mem_map.mp hk
    exact hasPrefix_trans (by decide) (hasPrefix_append _ _)
  · revert k; decide

theorem pfx_powerDNSFields (x : Option PowerDNS) :
    ∀ k ∈ (powerDNSFields x).map Prod.fst, hasPrefix "powerdns." k = true := by
  cases x with
  | none => simp [powerDNSFields]
  | some p => rw [keys_powerDNSFields]; exact pfx_powerDNSKeys p

theorem optionalFields_pfx (dm : DNSMessage) :
    ∀ k ∈ (optionalFields dm).map Prod.fst, noOptionalPrefix k = false := by
  intro k hk
  simp only [optionalFields, List.map_append, List.mem_append] at hk
  rcases hk with (((((((hk | hk) | hk) | hk) | hk) | hk) | hk) | hk) | hk
  · simp [noOptionalPrefix, pfx_geoFields _ k hk]
  · simp [noOptionalPrefix, pfx_suspiciousFields _ k hk]
  · simp [noOptionalPrefix, pfx_publicSuffixFields _ k hk]
  · simp [noOptionalPrefix, pfx_extractedFields _ k hk]
  · simp [noOptionalPrefix, pfx_reducerFields _ k hk]
  · simp [noOptionalPrefix, pfx_filteringFields _ k hk]
  · simp [noOptionalPrefix, pfx_mlFields _ k hk]
  · simp [noOptionalPrefix, pfx_atagsFields _ k hk]
  · simp [noOptionalPrefix, pfx_powerDNSFields _ k hk]

theorem lastWrite_optionalFields (dm : DNSMessage) (k : String)
    (hk : noOptionalPrefix k = true) : lastWrite k (optionalFields dm) = none := by
  rw [lastWrite_eq_none_iff]
  intro hmem
  rw [optionalFields_pfx dm k hmem] at hk
  exact Bool.noConfusion hk

theorem get_flattenFields_fixed (dm : DNSMessage) (k : String)
    (hk : noOptionalPrefix k = true) :
    (flattenFields dm).get k = lastWrite k (fixedFields dm) := by
  rw [flattenFields_eq, FlatMap.get_assignAll, lastWrite_append, lastWrite_optionalFields dm k hk]
  simp [FlatMap.get_empty]

theorem mem_keys_flattenFields (dm : DNSMessage) (k : String) :
    k ∈ (flattenFields dm).keys ↔ k ∈ coreKeys ∨ k ∈ (optionalFields dm).map Prod.fst := by
  rw [flattenFields_eq, FlatMap.mem_keys_assignAll, List.map_append, List.mem_append,
    keys_fixedFields, FlatMap.keys_empty]
  simp

theorem mem_keys_optionalFields (dm : DNSMessage) (k : String) :
    k ∈ (optionalFields dm).map Prod.fst ↔ ∃ s, k ∈ sectionKeys s dm := by
  have hgeo : (geoFields dm.Geo).map Prod.fst = sectionKeys .geo dm := by
    unfold sectionKeys; cases dm.Geo <;> rfl
  have hsus : (suspiciousFields dm.Suspicious).map Prod.fst = sectionKeys .suspicious dm := by
    unfold sectionKeys; cases dm.Suspicious <;> rfl
  have hpub : (publicSuffixFields dm.PublicSuffix).map Prod.fst =
      sectionKeys .publicSuffix dm := by
    unfold sectionKeys; cases dm.PublicSuffix <;> rfl
  have hext : (extractedFields dm.Extracted).map Prod.fst = sectionKeys .extracted dm := by
    unfold sectionKeys; cases dm.Extracted <;> rfl
  have hred : (reducerFields dm.Reducer).map Prod.fst = sectionKeys .reducer dm := by
    unfold sectionKeys; cases dm.Reducer <;> rfl
  have hfil : (filteringFields dm.Filtering).map Prod.fst = sectionKeys .filtering dm := by
    unfold sectionKeys; cases dm.Filtering <;> rfl
  have hml : (mlFields dm.MachineLearning).map Prod.fst = sectionKeys .ml dm := by
    unfold sectionKeys; cases dm.MachineLearning <;> rfl
  have hat : (atagsFields dm.ATags).map Prod.fst = sectionKeys .atags dm := by
    unfold sectionKeys
    cases dm.ATags with
    | none => rfl
    | some a => exact keys_atagsFields a
  have hpd : (powerDNSFields dm.PowerDNS).map Prod.fst = sectionKeys .powerdns dm := by
    unfold sectionKeys
    cases dm.PowerDNS with
    | none => rfl
    | some p => exact keys_powerDNSFields p
  simp only [optionalFields, List.map_append, List.mem_append, hgeo, hsus, hpub, hext, hred,
    hfil, hml, hat, hpd]
  constructor
  · rintro ((((((((h | h) | h) | h) | h) | h) | h) | h) | h)
    exacts [⟨_, h⟩, ⟨_, h⟩, ⟨_, h⟩, ⟨_, h⟩, ⟨_, h⟩, ⟨_, h⟩, ⟨_, h⟩, ⟨_, h⟩, ⟨_, h⟩]
  · rintro ⟨s, h⟩
    cases s <;> simp [h]

theorem sectionKeys_pfx (s : OptSection) (dm : DNSMessage) :
    ∀ k ∈ sectionKeys s dm, hasPrefix (sectionPrefix s) k = true := by
  intro k hk
  cases s <;> simp only [sectionKeys] at hk
  · cases hg : dm.Geo with
    | none => simp [hg] at hk
    | some g => exact pfx_geoFields (some g) k (by simpa [hg, keys_geoFields] using hk)
  · cases hg : dm.Suspicious with
    | none => simp [hg] at hk
    | some g =>
      exact pfx_suspiciousFields (some g) k (by simpa [hg, keys_suspiciousFields] using hk)
  · cases hg : dm.PublicSuffix with
    | none => simp [hg] at hk
    | some g =>
      exact pfx_publicSuffixFields (some g) k
        (by simpa [hg, keys_publicSuffixFields] using hk)
  · cases hg : dm.Extracted with
    | none => simp [hg] at hk
    | some g =>
      exact pfx_extractedFields (some g) k (by simpa [hg, keys_extractedFields] using hk)
  · cases hg : dm.Reducer with
    | none => simp [hg] at hk
    | some g => exact pfx_reducerFields (some g) k (by simpa [hg, keys_reducerFields] using hk)
  · cases hg : dm.Filtering with
    | none => simp [hg] at hk
    | some g =>
      exact pfx_filteringFields (some g) k (by simpa [hg, keys_filteringFields] using hk)
  · cases hg : dm.MachineLearning with
    | none => simp [hg] at hk
    | some g => exact pfx_mlFields (some g) k (by simpa [hg, keys_mlFields] using hk)
  · cases hg : dm.ATags with
    | none => simp [hg] at hk
    | some g => exact pfx_atagsFields (some g) k (by simpa [hg, keys_atagsFields] using hk)
  · cases hg : dm.PowerDNS with
    | none => simp [hg] at hk
    | some g =>
      exact pfx_powerDNSFields (some g) k (by simpa [hg, keys_powerDNSFields] using hk)

theorem sectionPrefix_exclusive (s t : OptSection) (hst : s ≠ t) (k : String)
    (hs : hasPrefix (sectionPrefix s) k = true) : hasPrefix (sectionPrefix t) k = false := by
  by_contra ht
  rw [Bool.not_eq_false] at ht
  simp only [hasPrefix, List.isPrefixOf_iff_prefix] at hs ht
  have hcmp : ¬ ((sectionPrefix s).data <+: (sectionPrefix t).data) ∧
      ¬ ((sectionPrefix t).data <+: (sectionPrefix s).data) := by
    cases s <;> cases t <;> first | exact absurd rfl hst | decide
  rcases List.prefix_or_prefix_of_prefix hs ht with h | h
  · exact hcmp.1 h
  · exact hcmp.2 h

theorem coreKeys_noOptionalPrefix : ∀ k ∈ coreKeys, noOptionalPrefix k = true := by decide

theorem noOptionalPrefix_section (s : OptSection) (k : String)
    (hk : noOptionalPrefix k = true) : hasPrefix (sectionPrefix s) k = false := by
  simp only [noOptionalPrefix, Bool.and_eq_true, Bool.not_eq_true'] at hk
  cases s <;> simp only [sectionPrefix] <;> tauto

theorem sectionKeys_dropSection (s t : OptSection) (dm : DNSMessage) :
    sectionKeys t (dropSection s dm) = if t = s then [] else sectionKeys t dm := by
  cases s <;> cases t <;> simp [sectionKeys, dropSection]

theorem mem_optionalFields (dm : DNSMessage) (kv : String × Value) :
    kv ∈ optionalFields dm ↔ ∃ s, kv ∈ sectionFields s dm := by
  simp only [optionalFields, List.mem_append]
  constructor
  · rintro ((((((((h | h) | h) | h) | h) | h) | h) | h) | h)
    exacts [⟨.geo, h⟩, ⟨.suspicious, h⟩, ⟨.publicSuffix, h⟩, ⟨.extracted, h⟩, ⟨.reducer, h⟩,
      ⟨.filtering, h⟩, ⟨.ml, h⟩, ⟨.atags, h⟩, ⟨.powerdns, h⟩]
  · rintro ⟨s, h⟩
    cases s <;> simp only [sectionFields] at h <;> simp [h]

theorem sectionFields_pfx (s : OptSection) (dm : DNSMessage) :
    ∀ kv ∈ sectionFields s dm, hasPrefix (sectionPrefix s) kv.1 = true := by
  intro kv hkv
  have hk : kv.1 ∈ (sectionFields s dm).map Prod.fst := List.mem_map.mpr ⟨kv, hkv, rfl⟩
  cases s
  · exact pfx_geoFields _ _ hk
  · exact pfx_suspiciousFields _ _ hk
  · exact pfx_publicSuffixFields _ _ hk
  · exact pfx_extractedFields _ _ hk
  · exact pfx_reducerFields _ _ hk
  · exact pfx_filteringFields _ _ hk
  · exact pfx_mlFields _ _ hk
  · exact pfx_atagsFields _ _ hk
  · exact pfx_powerDNSFields _ _ hk

theorem lastWrite_eq_some_of_unique (k : String) (v : Value) (ws : List (String × Value))
    (hmem : (k, v) ∈ ws) (huniq : ∀ v', (k, v') ∈ ws → v' = v) :
    lastWrite k ws = some v := by
  induction ws with
  | nil => simp at hmem
  | cons hd tl ih =>
    obtain ⟨k', v₀⟩ := hd
    rw [lastWrite]
    by_cases hk : k ∈ tl.map Prod.fst
    · obtain ⟨⟨k₁, v₁⟩, h₁, hk₁⟩ := List.mem_map.mp hk
      simp only at hk₁
      subst hk₁
      have hv : v₁ = v := huniq v₁ (List.mem_cons_of_mem _ h₁)
      subst hv
      rw [ih h₁ (fun v' hv' => huniq v' (List.mem_cons_of_mem _ hv'))]
      rfl
    · rw [(lastWrite_eq_none_iff k tl).mpr hk]
      rcases List.mem_cons.mp hmem with h | h
      · have h1 : k = k' := congrArg Prod.fst h
        have h2 : v = v₀ := congrArg Prod.snd h
        simp [h1, h2]
      · exact absurd (List.mem_map.mpr ⟨(k, v), h, rfl⟩) hk

theorem get_flattenFields_section (dm : DNSMessage) (s : OptSection) (k : String) (v : Value)
    (hmem : (k, v) ∈ sectionFields s dm)
    (huniq : ∀ v', (k, v') ∈ sectionFields s dm → v' = v) :
    (flattenFields dm).get k = some v := by
  have hp : hasPrefix (sectionPrefix s) k = true := sectionFields_pfx s dm (k, v) hmem
  rw [flattenFields_eq, FlatMap.get_assignAll, FlatMap.get_empty, Option.or_none]
  apply lastWrite_eq_some_of_unique
  · exact List.mem_append_right _ ((mem_optionalFields dm _).mpr ⟨s, hmem⟩)
  · intro v' hv'
    rcases List.mem_append.mp hv' with h | h
    · have hk : k ∈ coreKeys := by
        rw [← keys_fixedFields dm]
        exact List.mem_map.mpr ⟨(k, v'), h, rfl⟩
      rw [noOptionalPrefix_section s k (coreKeys_noOptionalPrefix k hk)] at hp
      exact Bool.noConfusion hp
    · obtain ⟨t, ht⟩ := (mem_optionalFields dm _).mp h
      by_cases hts : t = s
      · subst hts
        exact huniq v' ht
      · have h1 := sectionFields_pfx t dm (k, v') ht
        rw [sectionPrefix_exclusive s t (Ne.symm hts) k hp] at h1
        exact Bool.noConfusion h1

/-! ## Decimal rendering -/

theorem digitChar_toNat (d : Nat) : (digitChar d).toNat = 48 + d % 10 := by
  have h : d % 10 < 10 := Nat.mod_lt _ (by decide)
  unfold digitChar
  generalize d % 10 = r at h
  interval_cases r <;> rfl

theorem decodeDigits_append_singleton (cs : List Char) (c : Char) :
    decodeDigits (cs ++ [c]) = 10 * decodeDigits cs + (c.toNat - 48) := by
  simp [decodeDigits, List.foldl_append]

theorem decodeDigits_natDigitsAux (fuel n : Nat) (h : n ≤ fuel) :
    decodeDigits (natDigitsAux fuel n) = n := by
  induction fuel generalizing n with
  | zero =>
    have hn : n = 0 := by omega
    subst hn
    rfl
  | succ fuel ih =>
    rw [natDigitsAux]
    split
    · simp only [decodeDigits, List.foldl_cons, List.foldl_nil, digitChar_toNat]
      omega
    · rw [decodeDigits_append_singleton, ih (n / 10) (by omega), digitChar_toNat]
      omega

theorem decodeDigits_natDigits (n : Nat) : decodeDigits (natDigits n) = n :=
  decodeDigits_natDigitsAux n n (Nat.le_refl n)

theorem natDigits_injective {a b : Nat} (h : natDigits a = natDigits b) : a = b := by
  rw [← decodeDigits_natDigits a, ← decodeDigits_natDigits b, h]

theorem Itoa_natCast (n : Nat) : Itoa (n : Int) = ⟨natDigits n⟩ := by
  simp [Itoa]

theorem Itoa_natCast_injective {a b : Nat} (h : Itoa (a : Int) = Itoa (b : Int)) : a = b := by
  rw [Itoa_natCast, Itoa_natCast] at h
  exact natDigits_injective (congrArg String.data h)

theorem append_left_cancel_string {p a b : String} (h : p ++ a = p ++ b) : a = b := by
  have h' := congrArg String.data h
  simp only [String.data_append] at h'
  exact String.ext (List.append_cancel_left h')

/-! ## Tag lists -/

theorem mem_indexedTagFields (pfx : String) (tags : List String) (s : Nat)
    (kv : String × Value) :
    kv ∈ indexedTagFields pfx s tags ↔
      ∃ (j : Nat) (t : String), tags[j]? = some t ∧
        kv = (pfx ++ Itoa ((s + j : Nat) : Int), Value.str t) := by
  induction tags generalizing s with
  | nil => simp [indexedTagFields]
  | cons hd tl ih =>
    rw [indexedTagFields, List.mem_cons, ih]
    constructor
    · rintro (h | ⟨j, t, hj, h⟩)
      · exact ⟨0, hd, by simp, by simpa using h⟩
      · refine ⟨j + 1, t, by simpa using hj, ?_⟩
        rw [h]
        congr 4
        omega
    · rintro ⟨j, t, hj, h⟩
      cases j with
      | zero =>
        left
        simp only [List.getElem?_cons_zero, Option.some.injEq] at hj
        simpa [hj] using h
      | succ j =>
        right
        refine ⟨j, t, by simpa using hj, ?_⟩
        rw [h]
        congr 4
        omega

theorem mem_tagFields_nil (key pfx : String) (kv : String × Value) :
    kv ∈ tagFields key pfx [] ↔ kv = (key, Value.str "-") := by
  simp [tagFields, indexedTagFields]

theorem mem_tagFields_cons (key pfx : String) (hd : String) (tl : List String)
    (kv : String × Value) :
    kv ∈ tagFields key pfx (hd :: tl) ↔
      ∃ (j : Nat) (t : String), (hd :: tl)[j]? = some t ∧
        kv = (pfx ++ Itoa (j : Int), Value.str t) := by
  have h := mem_indexedTagFields pfx (hd :: tl) 0 kv
  simp only [Nat.zero_add] at h
  simp only [tagFields, List.length_cons, Nat.succ_ne_zero, if_false, List.nil_append]
  exact h

theorem keys_sectionFields (s : OptSection) (dm : DNSMessage) :
    (sectionFields s dm).map Prod.fst = sectionKeys s dm := by
  cases s <;> simp only [sectionFields, sectionKeys]
  · cases dm.Geo <;> rfl
  · cases dm.Suspicious <;> rfl
  · cases dm.PublicSuffix <;> rfl
  · cases dm.Extracted <;> rfl
  · cases dm.Reducer <;> rfl
  · cases dm.Filtering <;> rfl
  · cases dm.MachineLearning <;> rfl
  · cases dm.ATags with
    | none => rfl
    | some a => exact keys_atagsFields a
  · cases dm.PowerDNS with
    | none => rfl
    | some p => exact keys_powerDNSFields p

theorem mem_keys_flattenFields_pfx (dm : DNSMessage) (s : OptSection) (k : String)
    (hk : k ∈ (flattenFields dm).keys) (hp : hasPrefix (sectionPrefix s) k = true) :
    ∃ v, (k, v) ∈ sectionFields s dm := by
  rw [mem_keys_flattenFields, mem_keys_optionalFields] at hk
  rcases hk with hc | ⟨t, ht⟩
  · rw [noOptionalPrefix_section s k (coreKeys_noOptionalPrefix k hc)] at hp
    exact Bool.noConfusion hp
  · by_cases hts : t = s
    · subst hts
      rw [← keys_sectionFields] at ht
      obtain ⟨⟨k', v⟩, hkv, rfl⟩ := List.mem_map.mp ht
      exact ⟨v, hkv⟩
    · have h1 := sectionKeys_pfx t dm k ht
      rw [sectionPrefix_exclusive s t (Ne.symm hts) k hp] at h1
      exact Bool.noConfusion h1

theorem tagsLaidOut_flattenFields (dm : DNSMessage) (s : OptSection) (key pfx : String)
    (tags : List String)
    (hkey : hasPrefix (sectionPrefix s) key = true)
    (hpfx : hasPrefix (sectionPrefix s) pfx = true)
    (hkp : hasPrefix pfx key = false)
    (hsub : ∀ kv ∈ tagFields key pfx tags, kv ∈ sectionFields s dm)
    (honly : ∀ kv ∈ sectionFields s dm, (kv.1 = key ∨ hasPrefix pfx kv.1 = true) →
      kv ∈ tagFields key pfx tags) :
    TagsLaidOut (flattenFields dm) key pfx tags := by
  have hsec : ∀ k, (k = key ∨ hasPrefix pfx k = true) →
      hasPrefix (sectionPrefix s) k = true := by
    rintro k (rfl | h)
    · exact hkey
    · exact hasPrefix_trans hpfx h
  have hfrom : ∀ k ∈ (flattenFields dm).keys, (k = key ∨ hasPrefix pfx k = true) →
      ∃ v, (k, v) ∈ tagFields key pfx tags := by
    intro k hk hcase
    obtain ⟨v, hv⟩ := mem_keys_flattenFields_pfx dm s k hk (hsec k hcase)
    exact ⟨v, honly (k, v) hv hcase⟩
  constructor
  · rintro rfl
    constructor
    · apply get_flattenFields_section dm s
      · exact hsub _ ((mem_tagFields_nil key pfx _).mpr rfl)
      · intro v' hv'
        have := (mem_tagFields_nil key pfx _).mp (honly _ hv' (Or.inl rfl))
        exact congrArg Prod.snd this
    · intro k hk
      by_contra hcon
      rw [Bool.not_eq_false] at hcon
      obtain ⟨v, hv⟩ := hfrom k hk (Or.inr hcon)
      have hkk : k = key := congrArg Prod.fst ((mem_tagFields_nil key pfx _).mp hv)
      rw [hkk, hkp] at hcon
      exact Bool.noConfusion hcon
  · intro hne
    obtain ⟨hd, tl, rfl⟩ := List.exists_cons_of_ne_nil hne
    have hform : ∀ k ∈ (flattenFields dm).keys, hasPrefix pfx k = true →
        ∃ i : Nat, i < (hd :: tl).length ∧ k = pfx ++ Itoa (i : Int) := by
      intro k hk hp
      obtain ⟨v, hv⟩ := hfrom k hk (Or.inr hp)
      obtain ⟨j, t, hj, hkv⟩ := (mem_tagFields_cons key pfx hd tl _).mp hv
      exact ⟨j, (List.getElem?_eq_some_iff.mp hj).1, congrArg Prod.fst hkv⟩
    have hget : ∀ (i : Nat) (t : String), (hd :: tl)[i]? = some t →
        (flattenFields dm).get (pfx ++ Itoa (i : Int)) = some (Value.str t) := by
      intro i t hi
      apply get_flattenFields_section dm s
      · exact hsub _ ((mem_tagFields_cons key pfx hd tl _).mpr ⟨i, t, hi, rfl⟩)
      · intro v' hv'
        have hin := honly _ hv' (Or.inr (hasPrefix_append _ _))
        obtain ⟨j, t', hj, hkv⟩ := (mem_tagFields_cons key pfx hd tl _).mp hin
        have hij : i = j :=
          Itoa_natCast_injective (append_left_cancel_string (congrArg Prod.fst hkv))
        subst hij
        rw [hi] at hj
        have hv2 : v' = Value.str t' := congrArg Prod.snd hkv
        rw [hv2, Option.some.inj hj]
    refine ⟨hget, hform, ?_, ?_⟩
    · have himg : (flattenFields dm).keys.toFinset.filter (fun k => hasPrefix pfx k = true) =
          (Finset.range (hd :: tl).length).image (fun i : Nat => pfx ++ Itoa (i : Int)) := by
        ext k
        simp only [Finset.mem_filter, List.mem_toFinset, Finset.mem_image, Finset.mem_range]
        constructor
        · rintro ⟨hk, hp⟩
          obtain ⟨i, hi, rfl⟩ := hform k hk hp
          exact ⟨i, hi, rfl⟩
        · rintro ⟨i, hi, rfl⟩
          refine ⟨?_, hasPrefix_append _ _⟩
          have hsome : (hd :: tl)[i]? = some ((hd :: tl).get ⟨i, hi⟩) :=
            List.getElem?_eq_getElem hi
          have hv := hsub _ ((mem_tagFields_cons key pfx hd tl _).mpr ⟨i, _, hsome, rfl⟩)
          rw [mem_keys_flattenFields]
          right
          exact List.mem_map.mpr ⟨_, (mem_optionalFields dm _).mpr ⟨s, hv⟩, rfl⟩
      rw [himg, Finset.card_image_of_injective, Finset.card_range]
      intro a b hab
      exact Itoa_natCast_injective (append_left_cancel_string hab)
    · intro hk
      obtain ⟨v, hv⟩ := hfrom key hk (Or.inl rfl)
      obtain ⟨j, t, _, hkv⟩ := (mem_tagFields_cons key pfx hd tl _).mp hv
      have hkk : key = pfx ++ Itoa (j : Int) := congrArg Prod.fst hkv
      have := hasPrefix_append pfx (Itoa (j : Int))
      rw [← hkk, hkp] at this
      exact Bool.noConfusion this

theorem hasPrefix_exclusive (p q k : String) (h1 : ¬ p.data <+: q.data)
    (h2 : ¬ q.data <+: p.data) (hp : hasPrefix p k = true) : hasPrefix q k = false := by
  by_contra hq
  rw [Bool.not_eq_false] at hq
  simp only [hasPrefix, List.isPrefixOf_iff_prefix] at hp hq
  rcases List.prefix_or_prefix_of_prefix hp hq with h | h
  · exact h1 h
  · exact h2 h

theorem powerDNSFields_tag_only (p : PowerDNS) :
    ∀ kv ∈ powerDNSFields (some p),
      (kv.1 = "powerdns.tags" ∨ hasPrefix "powerdns.tags." kv.1 = true) →
      kv ∈ tagFields "powerdns.tags" "powerdns.tags." p.Tags := by
  intro kv hkv hcase
  simp only [powerDNSFields, List.mem_append] at hkv
  rcases hkv with ((h | h) | h) | h
  · exact h
  · exfalso
    simp only [List.mem_cons, List.mem_singleton, List.not_mem_nil, or_false] at h
    rcases h with rfl | rfl | rfl | rfl | rfl | rfl <;>
      rcases hcase with hc | hc <;> dsimp only at hc <;> revert hc <;> decide
  · exfalso
    obtain ⟨e, _, rfl⟩ := List.mem_map.mp h
    have hm : hasPrefix "powerdns.metadata." ("powerdns.metadata." ++ e.1) = true :=
      hasPrefix_append _ _
    rcases hcase with hc | hc
    · simp only at hc
      rw [hc] at hm
      revert hm
      decide
    · simp only at hc
      rw [hasPrefix_exclusive _ _ _ (by decide) (by decide) hm] at hc
      exact Bool.noConfusion hc
  · exfalso
    simp only [List.mem_cons, List.mem_singleton, List.not_mem_nil, or_false] at h
    rcases h with rfl | rfl | rfl | rfl | rfl | rfl <;>
      rcases hcase with hc | hc <;> dsimp only at hc <;> revert hc <;> decide

/-! ## PowerDNS metadata -/

theorem pfx_tagFields_keys (q key pfx : String) (tags : List String)
    (hkey : hasPrefix q key = true) (hpfx : hasPrefix q pfx = true) :
    ∀ kv ∈ tagFields key pfx tags, hasPrefix q kv.1 = true := by
  intro kv hkv
  apply pfx_tagKeys q key pfx tags hkey hpfx
  rw [← keys_tagFields]
  exact List.mem_map.mpr ⟨kv, hkv, rfl⟩

theorem powerDNSFields_metadata_only (p : PowerDNS) :
    ∀ kv ∈ powerDNSFields (some p), hasPrefix "powerdns.metadata." kv.1 = true →
      kv ∈ metadataFields p.Metadata := by
  intro kv hkv hcase
  simp only [powerDNSFields, List.mem_append] at hkv
  rcases hkv with ((h | h) | h) | h
  · exfalso
    have ht := pfx_tagFields_keys "powerdns.tags" _ _ _ (by decide) (by decide) kv h
    rw [hasPrefix_exclusive _ _ _ (by decide) (by decide) ht] at hcase
    exact Bool.noConfusion hcase
  · exfalso
    simp only [List.mem_cons, List.mem_singleton, List.not_mem_nil, or_false] at h
    rcases h with rfl | rfl | rfl | rfl | rfl | rfl <;> dsimp only at hcase <;>
      revert hcase <;> decide
  · exact h
  · exfalso
    simp only [List.mem_cons, List.mem_singleton, List.not_mem_nil, or_false] at h
    rcases h with rfl | rfl | rfl | rfl | rfl | rfl <;> dsimp only at hcase <;>
      revert hcase <;> decide

theorem mem_metadataFields (md : List (String × String)) (kv : String × Value) :
    kv ∈ metadataFields md ↔
      ∃ e ∈ md, kv = ("powerdns.metadata." ++ e.1, Value.str e.2) := by
  simp only [metadataFields, List.mem_map]
  constructor
  · rintro ⟨e, he, rfl⟩
    exact ⟨e, he, rfl⟩
  · rintro ⟨e, he, rfl⟩
    exact ⟨e, he, rfl⟩

theorem eq_of_nodup_keys {md : List (String × String)} (hmd : (md.map Prod.fst).Nodup)
    {e e' : String × String} (he : e ∈ md) (he' : e' ∈ md) (h : e.1 = e'.1) : e = e' :=
  List.inj_on_of_nodup_map hmd he he' h

theorem count_metadata_key (p : PowerDNS) (hmd : (p.Metadata.map Prod.fst).Nodup)
    (e : String × String) (he : e ∈ p.Metadata) :
    (powerDNSKeys p).count ("powerdns.metadata." ++ e.1) = 1 := by
  have hm : hasPrefix "powerdns.metadata." ("powerdns.metadata." ++ e.1) = true :=
    hasPrefix_append _ _
  have hnd : (p.Metadata.map (fun e => "powerdns.metadata." ++ e.1)).Nodup := by
    have : p.Metadata.map (fun e => "powerdns.metadata." ++ e.1) =
        (p.Metadata.map Prod.fst).map (fun k => "powerdns.metadata." ++ k) := by
      simp [List.map_map, Function.comp]
    rw [this]
    exact hmd.map (fun a b hab => append_left_cancel_string hab)
  have h1 : (tagKeys "powerdns.tags" "powerdns.tags." p.Tags).count
      ("powerdns.metadata." ++ e.1) = 0 := by
    apply List.count_eq_zero_of_not_mem
    intro hk
    have ht := pfx_tagKeys "powerdns.tags" _ _ _ (by decide) (by decide) _ hk
    rw [hasPrefix_exclusive _ _ _ (by decide) (by decide) ht] at hm
    exact Bool.noConfusion hm
  have h2 : ∀ l : List String, (∀ k ∈ l, hasPrefix "powerdns.metadata." k = false) →
      l.count ("powerdns.metadata." ++ e.1) = 0 := by
    intro l hl
    apply List.count_eq_zero_of_not_mem
    intro hk
    rw [hl _ hk] at hm
    exact Bool.noConfusion hm
  have h3 : (p.Metadata.map (fun e => "powerdns.metadata." ++ e.1)).count
      ("powerdns.metadata." ++ e.1) = 1 :=
    List.count_eq_one_of_mem hnd (List.mem_map.mpr ⟨e, he, rfl⟩)
  simp only [powerDNSKeys, List.count_append, h1, h3]
  rw [h2 _ (by decide), h2 _ (by decide)]

theorem lastWrite_eq_some_of_nodup (k : String) (v : Value) (ws : List (String × Value))
    (hnd : (ws.map Prod.fst).Nodup) (hmem : (k, v) ∈ ws) : lastWrite k ws = some v := by
  apply lastWrite_eq_some_of_unique k v ws hmem
  intro v' hv'
  have h := List.inj_on_of_nodup_map hnd hv' hmem rfl
  exact congrArg Prod.snd h

theorem coreKeys_nodup : coreKeys.Nodup := by decide

theorem mem_of_getEntries {k : String} {v : Value} {l : List (String × Value)}
    (h : FlatMap.getEntries k l = some v) : (k, v) ∈ l := by
  induction l with
  | nil => simp [FlatMap.getEntries] at h
  | cons hd tl ih =>
    obtain ⟨k', v'⟩ := hd
    by_cases hk : k' = k
    · simp only [FlatMap.getEntries, hk, if_true, Option.some.injEq] at h
      simp [hk, h]
    · simp only [FlatMap.getEntries, hk, if_false] at h
      exact List.mem_cons_of_mem _ (ih h)

/-! ## Joining -/

theorem foldl_join_data (sep : String) (rest : List String) (acc : String) :
    (rest.foldl (fun b s => b ++ sep ++ s) acc).data =
      acc.data ++ (rest.map (fun s => sep.data ++ s.data)).flatten := by
  induction rest generalizing acc with
  | nil => simp
  | cons s tl ih => simp [ih, String.data_append, List.append_assoc]

theorem intercalate_cons_eq {α : Type} (sep a : List α) (rest : List (List α)) :
    List.intercalate sep (a :: rest) = a ++ (rest.map (fun s => sep ++ s)).flatten := by
  induction rest generalizing a with
  | nil => simp [List.intercalate]
  | cons b tl ih =>
    have h := ih b
    simp only [List.intercalate] at h ⊢
    simp [List.intersperse, h]

theorem stringsJoin_data (xs : List String) (sep : String) :
    (stringsJoin xs sep).data = List.intercalate sep.data (xs.map String.data) := by
  cases xs with
  | nil => simp [stringsJoin, List.intercalate]
  | cons a rest =>
    simp only [stringsJoin, foldl_join_data, List.map_cons, intercalate_cons_eq, List.map_map]
    rfl

theorem joinOrDash_eq_summarySpec (xs : List String) : joinOrDash xs = summarySpec xs := by
  cases xs with
  | nil => simp [joinOrDash, summarySpec]
  | cons a rest =>
    have h := stringsJoin_data (a :: rest) "|"
    simp only [joinOrDash, summarySpec, List.length_cons, Nat.succ_ne_zero, if_false,
      reduceCtorEq]
    exact String.ext h

/-! ## Claims about `Flatten` -/

/-- C1. With no relabeling, `Flatten` succeeds and each of the eighteen summary
keys (five per resource-record section, three for the EDNS options) holds the
dash when its list is empty and otherwise the fields of the elements, in list
order, with one `|` between neighbours and none before or after; TTLs and
option codes are rendered by `Itoa`, which writes the decimal digits of the
absolute value after a minus sign for a negative number. -/
theorem flatten_list_summaries (R : DNSMessage → FlatMap → FlatMap × Option GoError)
    (dm : DNSMessage) (hR : dm.Relabeling = none) :
    ∃ m, Flatten R dm = (some m, none) ∧
      (∀ kv ∈ expectedSummaries dm, m.get kv.1 = some (Value.str kv.2)) ∧
      (∀ i : Int, Itoa i = ⟨(if i < 0 then ['-'] else []) ++ natDigits i.natAbs⟩ ∧
        decodeDigits (natDigits i.natAbs) = i.natAbs) := by
  refine ⟨flattenFields dm, Flatten_of_no_relabeling R dm hR, ?_, ?_⟩
  swap
  · intro i
    refine ⟨?_, decodeDigits_natDigits _⟩
    unfold Itoa
    split <;> rfl
  intro kv hkv
  simp only [expectedSummaries, List.mem_cons, List.mem_singleton, List.not_mem_nil,
    or_false] at hkv
  rcases hkv with rfl | rfl | rfl | rfl | rfl | rfl | rfl | rfl | rfl | rfl | rfl | rfl |
    rfl | rfl | rfl | rfl | rfl | rfl
  all_goals
    dsimp only
    rw [get_flattenFields_fixed dm _ (by decide), ← joinOrDash_eq_summarySpec]
    rfl

/-- C1, at the sample message: two answers, no authority or additional
records, one EDNS option. -/
theorem flatten_list_summaries_witness :
    sampleMessage.Relabeling = none ∧
    ∃ m, Flatten identityRelabeling sampleMessage = (some m, none) ∧
      (∀ kv ∈ expectedSummaries sampleMessage, m.get kv.1 = some (Value.str kv.2)) ∧
      (∀ i : Int, Itoa i = ⟨(if i < 0 then ['-'] else []) ++ natDigits i.natAbs⟩ ∧
        decodeDigits (natDigits i.natAbs) = i.natAbs) :=
  ⟨rfl, flatten_list_summaries identityRelabeling sampleMessage rfl⟩

/-- C2. With no relabeling, the key set of `Flatten(dm)` is the 63 fixed core
keys (45 scalar keys, 15 resource-record summary keys, 3 EDNS-option keys, all
distinct) together with the keys of each optional sub-record that is present;
and making one optional sub-record absent removes exactly that sub-record's
keys from the key set, nothing else being removed or added. -/
theorem flatten_key_set (R : DNSMessage → FlatMap → FlatMap × Option GoError)
    (dm : DNSMessage) (hR : dm.Relabeling = none) :
    ∃ m, Flatten R dm = (some m, none) ∧
      (∀ k, k ∈ m.keys ↔ k ∈ coreKeys ∨ ∃ s, k ∈ sectionKeys s dm) ∧
      (scalarKeys.length = 45 ∧ rrKeys.length = 15 ∧ ednsOptionKeys.length = 3 ∧
        coreKeys.length = 63 ∧ coreKeys.Nodup) ∧
      (∀ s, ∃ m', Flatten R (dropSection s dm) = (some m', none) ∧
        ∀ k, k ∈ m'.keys ↔ k ∈ m.keys ∧ k ∉ sectionKeys s dm) := by
  have hkeys : ∀ (d : DNSMessage) (k : String),
      k ∈ (flattenFields d).keys ↔ k ∈ coreKeys ∨ ∃ s, k ∈ sectionKeys s d := by
    intro d k
    rw [mem_keys_flattenFields, mem_keys_optionalFields]
  refine ⟨flattenFields dm, Flatten_of_no_relabeling R dm hR, hkeys dm, ?_, ?_⟩
  · exact ⟨rfl, rfl, rfl, rfl, by decide⟩
  · intro s
    have hR' : (dropSection s dm).Relabeling = none := by cases s <;> exact hR
    refine ⟨flattenFields (dropSection s dm), Flatten_of_no_relabeling R _ hR', ?_⟩
    intro k
    rw [hkeys, hkeys]
    constructor
    · rintro (hc | ⟨t, ht⟩)
      · refine ⟨Or.inl hc, fun hs => ?_⟩
        have h1 := sectionKeys_pfx s dm k hs
        rw [noOptionalPrefix_section s k (coreKeys_noOptionalPrefix k hc)] at h1
        exact Bool.noConfusion h1
      · rw [sectionKeys_dropSection] at ht
        by_cases hts : t = s
        · simp [hts] at ht
        · rw [if_neg hts] at ht
          refine ⟨Or.inr ⟨t, ht⟩, fun hs => ?_⟩
          have h1 := sectionKeys_pfx s dm k hs
          rw [sectionPrefix_exclusive t s hts k (sectionKeys_pfx t dm k ht)] at h1
          exact Bool.noConfusion h1
    · rintro ⟨hc | ⟨t, ht⟩, hs⟩
      · exact Or.inl hc
      · refine Or.inr ⟨t, ?_⟩
        rw [sectionKeys_dropSection]
        have hts : t ≠ s := fun e => hs (e ▸ ht)
        rw [if_neg hts]
        exact ht

/-- C2, at the sample message (ATags and PowerDNS present, the rest absent). -/
theorem flatten_key_set_witness :
    sampleMessage.Relabeling = none ∧
    ∃ m, Flatten identityRelabeling sampleMessage = (some m, none) ∧
      (∀ k, k ∈ m.keys ↔ k ∈ coreKeys ∨ ∃ s, k ∈ sectionKeys s sampleMessage) ∧
      (scalarKeys.length = 45 ∧ rrKeys.length = 15 ∧ ednsOptionKeys.length = 3 ∧
        coreKeys.length = 63 ∧ coreKeys.Nodup) ∧
      (∀ s, ∃ m', Flatten identityRelabeling (dropSection s sampleMessage) = (some m', none) ∧
        ∀ k, k ∈ m'.keys ↔ k ∈ m.keys ∧ k ∉ sectionKeys s sampleMessage) :=
  ⟨rfl, flatten_key_set identityRelabeling sampleMessage rfl⟩

/-- C3. With no relabeling: when ATags is present its tags are laid out under
`atags.tags` / `atags.tags.<i>`, and when PowerDNS is present its tags are laid
out under `powerdns.tags` / `powerdns.tags.<i>`: an empty list gives the bare
key with the dash and no indexed key; a list of `n ≥ 1` tags gives the `i`-th
tag under the key indexed by `i` (decimal, from 0) for every `i < n`, exactly
`n` indexed keys, and no bare key. -/
theorem flatten_tag_lists (R : DNSMessage → FlatMap → FlatMap × Option GoError)
    (dm : DNSMessage) (hR : dm.Relabeling = none) :
    ∃ m, Flatten R dm = (some m, none) ∧
      (∀ a, dm.ATags = some a → TagsLaidOut m "atags.tags" "atags.tags." a.Tags) ∧
      (∀ p, dm.PowerDNS = some p → TagsLaidOut m "powerdns.tags" "powerdns.tags." p.Tags) := by
  refine ⟨flattenFields dm, Flatten_of_no_relabeling R dm hR, ?_, ?_⟩
  · intro a ha
    have hsec : sectionFields .atags dm = tagFields "atags.tags" "atags.tags." a.Tags := by
      simp [sectionFields, ha, atagsFields]
    apply tagsLaidOut_flattenFields dm .atags
    · decide
    · decide
    · decide
    · intro kv hkv
      rw [hsec]; exact hkv
    · intro kv hkv _
      rw [hsec] at hkv; exact hkv
  · intro p hp
    have hsec : sectionFields .powerdns dm = powerDNSFields (some p) := by
      simp [sectionFields, hp]
    apply tagsLaidOut_flattenFields dm .powerdns
    · decide
    · decide
    · decide
    · intro kv hkv
      rw [hsec]
      simp only [powerDNSFields, List.mem_append]
      exact Or.inl (Or.inl (Or.inl hkv))
    · intro kv hkv hcase
      rw [hsec] at hkv
      exact powerDNSFields_tag_only p kv hkv hcase

/-- C3, at the sample message: two ATags tags, an empty PowerDNS tag list. -/
theorem flatten_tag_lists_witness :
    sampleMessage.Relabeling = none ∧
    ∃ m, Flatten identityRelabeling sampleMessage = (some m, none) ∧
      (∀ a, sampleMessage.ATags = some a → TagsLaidOut m "atags.tags" "atags.tags." a.Tags) ∧
      (∀ p, sampleMessage.PowerDNS = some p →
        TagsLaidOut m "powerdns.tags" "powerdns.tags." p.Tags) :=
  ⟨rfl, flatten_tag_lists identityRelabeling sampleMessage rfl⟩

/-- C4. With no relabeling and PowerDNS present (its metadata being a Go map,
so with one entry per key): for every metadata entry `(k, v)` the result maps
`powerdns.metadata.` ++ `k` to `v`; every key of the result that starts with
`powerdns.metadata.` comes from exactly one metadata entry; and among all the
assignments `Flatten` executes exactly one targets the key of a metadata entry,
so no metadata entry overwrites or is overwritten by another key. -/
theorem flatten_powerdns_metadata (R : DNSMessage → FlatMap → FlatMap × Option GoError)
    (dm : DNSMessage) (p : PowerDNS) (hR : dm.Relabeling = none)
    (hp : dm.PowerDNS = some p) (hmd : (p.Metadata.map Prod.fst).Nodup) :
    ∃ m, Flatten R dm = (some m, none) ∧
      (∀ e ∈ p.Metadata, m.get ("powerdns.metadata." ++ e.1) = some (Value.str e.2)) ∧
      (∀ k ∈ m.keys, hasPrefix "powerdns.metadata." k = true →
        ∃! e, e ∈ p.Metadata ∧ k = "powerdns.metadata." ++ e.1) ∧
      (∀ e ∈ p.Metadata,
        ((fixedFields dm ++ optionalFields dm).map Prod.fst).count
          ("powerdns.metadata." ++ e.1) = 1) := by
  have hsec : sectionFields .powerdns dm = powerDNSFields (some p) := by
    simp [sectionFields, hp]
  have hin : ∀ e ∈ p.Metadata,
      ("powerdns.metadata." ++ e.1, Value.str e.2) ∈ sectionFields .powerdns dm := by
    intro e he
    rw [hsec]
    simp only [powerDNSFields, List.mem_append]
    exact Or.inl (Or.inr ((mem_metadataFields _ _).mpr ⟨e, he, rfl⟩))
  refine ⟨flattenFields dm, Flatten_of_no_relabeling R dm hR, ?_, ?_, ?_⟩
  · intro e he
    apply get_flattenFields_section dm .powerdns _ _ (hin e he)
    intro v' hv'
    rw [hsec] at hv'
    obtain ⟨e', he', hkv⟩ :=
      (mem_metadataFields _ _).mp (powerDNSFields_metadata_only p _ hv' (hasPrefix_append _ _))
    have hk : e.1 = e'.1 := append_left_cancel_string (congrArg Prod.fst hkv)
    have hee : e = e' := eq_of_nodup_keys hmd he he' hk
    have hv2 : v' = Value.str e'.2 := congrArg Prod.snd hkv
    rw [hv2, hee]
  · intro k hk hpre
    have hpd : hasPrefix (sectionPrefix .powerdns) k = true :=
      hasPrefix_trans (by decide) hpre
    obtain ⟨v, hv⟩ := mem_keys_flattenFields_pfx dm .powerdns k hk hpd
    rw [hsec] at hv
    obtain ⟨e, he, hkv⟩ :=
      (mem_metadataFields _ _).mp (powerDNSFields_metadata_only p _ hv hpre)
    have hke : k = "powerdns.metadata." ++ e.1 := congrArg Prod.fst hkv
    refine ⟨e, ⟨he, hke⟩, ?_⟩
    rintro e' ⟨he', hke'⟩
    exact eq_of_nodup_keys hmd he' he (append_left_cancel_string (hke'.symm.trans hke))
  · intro e he
    have hm : hasPrefix "powerdns.metadata." ("powerdns.metadata." ++ e.1) = true :=
      hasPrefix_append _ _
    have hpd : hasPrefix (sectionPrefix .powerdns) ("powerdns.metadata." ++ e.1) = true :=
      hasPrefix_trans (by decide) hm
    have hfix : (coreKeys).count ("powerdns.metadata." ++ e.1) = 0 := by
      apply List.count_eq_zero_of_not_mem
      intro hc
      rw [noOptionalPrefix_section .powerdns _ (coreKeys_noOptionalPrefix _ hc)] at hpd
      exact Bool.noConfusion hpd
    have hnot : ∀ t, t ≠ OptSection.powerdns →
        ((sectionFields t dm).map Prod.fst).count ("powerdns.metadata." ++ e.1) = 0 := by
      intro t ht
      apply List.count_eq_zero_of_not_mem
      intro hc
      rw [keys_sectionFields] at hc
      have h1 := sectionKeys_pfx t dm _ hc
      rw [sectionPrefix_exclusive .powerdns t (Ne.symm ht) _ hpd] at h1
      exact Bool.noConfusion h1
    have hpdn : ((sectionFields .powerdns dm).map Prod.fst).count
        ("powerdns.metadata." ++ e.1) = 1 := by
      rw [hsec, keys_powerDNSFields]
      exact count_metadata_key p hmd e he
    have h1 := hnot .geo (by decide)
    have h2 := hnot .suspicious (by decide)
    have h3 := hnot .publicSuffix (by decide)
    have h4 := hnot .extracted (by decide)
    have h5 := hnot .reducer (by decide)
    have h6 := hnot .filtering (by decide)
    have h7 := hnot .ml (by decide)
    have h8 := hnot .atags (by decide)
    simp only [sectionFields] at h1 h2 h3 h4 h5 h6 h7 h8 hpdn
    simp only [List.map_append, List.count_append, keys_fixedFields, hfix, optionalFields,
      h1, h2, h3, h4, h5, h6, h7, h8, hpdn]

/-- C4, at the sample message: one metadata entry, `agent` = `recursor`. -/
theorem flatten_powerdns_metadata_witness :
    ∃ p, sampleMessage.Relabeling = none ∧ sampleMessage.PowerDNS = some p ∧
      (p.Metadata.map Prod.fst).Nodup ∧
      ∃ m, Flatten identityRelabeling sampleMessage = (some m, none) ∧
        (∀ e ∈ p.Metadata, m.get ("powerdns.metadata." ++ e.1) = some (Value.str e.2)) ∧
        (∀ k ∈ m.keys, hasPrefix "powerdns.metadata." k = true →
          ∃! e, e ∈ p.Metadata ∧ k = "powerdns.metadata." ++ e.1) ∧
        (∀ e ∈ p.Metadata,
          ((fixedFields sampleMessage ++ optionalFields sampleMessage).map Prod.fst).count
            ("powerdns.metadata." ++ e.1) = 1) :=
  ⟨_, rfl, rfl, by decide,
    flatten_powerdns_metadata identityRelabeling sampleMessage _ rfl rfl (by decide)⟩

/-- C5. When Relabeling is present and the relabeling method returns an error,
`Flatten` returns that error and no map, whatever the method did to the map;
when Relabeling is absent the method is not consulted (the result is the same
for every method, even one that always fails) and the error is nil. -/
theorem flatten_relabeling_error (R : DNSMessage → FlatMap → FlatMap × Option GoError)
    (dm : DNSMessage) :
    (∀ rl m' err, dm.Relabeling = some rl → R dm (flattenFields dm) = (m', some err) →
      Flatten R dm = (none, some err)) ∧
    (dm.Relabeling = none → Flatten R dm = (some (flattenFields dm), none)) := by
  constructor
  · intro rl m' err hrl hR
    simp [Flatten, hrl, hR]
  · intro hnone
    exact Flatten_of_no_relabeling R dm hnone

/-- C5, at the sample message: with relabeling attached and a failing method
the result is the error alone; without relabeling the same failing method is
never run. -/
theorem flatten_relabeling_error_witness :
    Flatten failingRelabeling relabeledMessage =
      (none, some ⟨"invalid relabeling rule"⟩) ∧
    Flatten failingRelabeling sampleMessage = (some (flattenFields sampleMessage), none) :=
  ⟨(flatten_relabeling_error failingRelabeling relabeledMessage).1 _ _ _ rfl rfl,
    (flatten_relabeling_error failingRelabeling sampleMessage).2 rfl⟩

/-- C6. With no relabeling, every entry of the opening map literal survives to
the result unchanged: each of the 45 scalar keys holds the value of its field;
in particular `dns.qname`, `dns.qtype`, `dns.rcode`, `dns.length`,
`network.query-ip` and `dnstap.identity` hold the fields of those names and
`edns.optionscount` holds the number of EDNS options. -/
theorem flatten_scalar_fields (R : DNSMessage → FlatMap → FlatMap × Option GoError)
    (dm : DNSMessage) (hR : dm.Relabeling = none) :
    ∃ m, Flatten R dm = (some m, none) ∧
      (coreFields dm).map Prod.fst = scalarKeys ∧
      (∀ kv ∈ coreFields dm, m.get kv.1 = some kv.2) ∧
      m.get "dns.qname" = some dm.DNS.Qname ∧
      m.get "dns.qtype" = some dm.DNS.Qtype ∧
      m.get "dns.rcode" = some dm.DNS.Rcode ∧
      m.get "dns.length" = some dm.DNS.Length ∧
      m.get "network.query-ip" = some dm.NetworkInfo.QueryIP ∧
      m.get "dnstap.identity" = some dm.DNSTap.Identity ∧
      m.get "edns.optionscount" = some (Value.int dm.EDNS.Options.length) := by
  have hall : ∀ kv ∈ coreFields dm, (flattenFields dm).get kv.1 = some kv.2 := by
    intro kv hkv
    have hfix : kv ∈ fixedFields dm := by
      simp only [fixedFields, List.mem_append]
      exact Or.inl (Or.inl (Or.inl (Or.inl hkv)))
    have hk : kv.1 ∈ coreKeys := by
      rw [← keys_fixedFields dm]
      exact List.mem_map.mpr ⟨kv, hfix, rfl⟩
    rw [get_flattenFields_fixed dm _ (coreKeys_noOptionalPrefix _ hk)]
    exact lastWrite_eq_some_of_nodup kv.1 kv.2 _ (by rw [keys_fixedFields]; exact coreKeys_nodup)
      hfix
  refine ⟨flattenFields dm, Flatten_of_no_relabeling R dm hR, rfl, hall, ?_, ?_, ?_, ?_, ?_,
    ?_, ?_⟩
  all_goals
    rw [get_flattenFields_fixed dm _ (by decide)]
    rfl

/-- C6, at the sample message: the flat map holds `dns.qname` =
`dns.collector`. -/
theorem flatten_scalar_fields_witness :
    sampleMessage.Relabeling = none ∧
    ∃ m, Flatten identityRelabeling sampleMessage = (some m, none) ∧
      m.get "dns.qname" = some (Value.str "dns.collector") :=
  ⟨rfl,
    match flatten_scalar_fields identityRelabeling sampleMessage rfl with
    | ⟨m, hm, _, _, hq, _⟩ => ⟨m, hm, hq⟩⟩

/-! ## Reading the JSON text back -/

theorem char_eq_of_toNat (c : Char) (n : Nat) (h : c.toNat = n) : c = Char.ofNat n := by
  rw [← h, Char.ofNat_toNat]

theorem hexValue_hexChar (d : Nat) : hexValue (hexChar d) = some (d % 16) := by
  have h : d % 16 < 16 := Nat.mod_lt _ (by decide)
  unfold hexChar
  generalize d % 16 = r at h
  interval_cases r <;> rfl

theorem escapeChar_ne_nil (c : Char) : escapeChar c ≠ [] := by
  unfold escapeChar
  repeat' split
  all_goals simp

theorem escapeChar_length_pos (c : Char) : 0 < (escapeChar c).length :=
  List.length_pos.mpr (escapeChar_ne_nil c)

theorem readEscape_hex (n : Nat) (tail : List Char) (hn : n < 256) :
    readEscape ('u' :: '0' :: '0' :: hexChar (n / 16) :: hexChar n :: tail) =
      some (Char.ofNat n, tail) := by
  have h4 : hexValue4 '0' '0' (hexChar (n / 16)) (hexChar n) = some n := by
    unfold hexValue4
    rw [hexValue_hexChar, hexValue_hexChar]
    have h0 : hexValue '0' = some 0 := rfl
    rw [h0]
    simp only [Option.some.injEq]
    omega
  have hu : ('u' : Char).toNat = 117 := rfl
  simp only [readEscape, hu, if_true, h4]
  rw [if_neg (by omega), if_neg (by omega)]

theorem parseStringBody_escapeChar (c : Char) (fuel : Nat) (tail : List Char) :
    parseStringBody (fuel + 1) (escapeChar c ++ tail) =
      match parseStringBody fuel tail with
      | none => none
      | some (s, r) => some (c :: s, r) := by
  have hb : backslashChar.toNat = 92 := rfl
  have hstep : ∀ (e : List Char) (ch : Char), readEscape (e ++ tail) = some (ch, tail) →
      ch = c →
      parseStringBody (fuel + 1) (backslashChar :: e ++ tail) =
        match parseStringBody fuel tail with
        | none => none
        | some (s, r) => some (c :: s, r) := by
    intro e ch he hch
    subst hch
    simp only [List.cons_append, parseStringBody, hb]
    have he' : readEscape (e.append tail) = some (ch, tail) := he
    simp only [he', if_true]
    rfl
  unfold escapeChar
  split
  · rename_i h
    exact hstep [quoteChar] quoteChar rfl (char_eq_of_toNat c 34 h).symm
  · split
    · rename_i h
      exact hstep [backslashChar] backslashChar rfl (char_eq_of_toNat c 92 h).symm
    · split
      · rename_i h
        exact hstep ['b'] (Char.ofNat 8) rfl (char_eq_of_toNat c 8 h).symm
      · split
        · rename_i h
          exact hstep ['f'] (Char.ofNat 12) rfl (char_eq_of_toNat c 12 h).symm
        · split
          · rename_i h
            exact hstep ['n'] (Char.ofNat 10) rfl (char_eq_of_toNat c 10 h).symm
          · split
            · rename_i h
              exact hstep ['r'] (Char.ofNat 13) rfl (char_eq_of_toNat c 13 h).symm
            · split
              · rename_i h
                exact hstep ['t'] (Char.ofNat 9) rfl (char_eq_of_toNat c 9 h).symm
              · split
                · rename_i h
                  have hn : c.toNat < 256 := by omega
                  exact hstep ['u', '0', '0', hexChar (c.toNat / 16), hexChar c.toNat]
                    (Char.ofNat c.toNat) (readEscape_hex c.toNat tail hn)
                    (Char.ofNat_toNat c)
                · split
                  · rename_i h
                    exact hstep ['u', '2', '0', '2', '8'] (Char.ofNat 8232) rfl
                      (char_eq_of_toNat c 8232 h).symm
                  · split
                    · rename_i h
                      exact hstep ['u', '2', '0', '2', '9'] (Char.ofNat 8233) rfl
                        (char_eq_of_toNat c 8233 h).symm
                    · rename_i h1 h2 h3 h4 h5 h6 h7 h8 h9 h10
                      simp only [List.cons_append, List.nil_append, parseStringBody]
                      rw [if_neg h1, if_neg h2, if_neg (by omega)]
                      rfl

theorem parseStringBody_escaped (s : List Char) (fuel : Nat) (tail : List Char)
    (hfuel : (s.flatMap escapeChar).length < fuel) :
    parseStringBody fuel (s.flatMap escapeChar ++ quoteChar :: tail) = some (s, tail) := by
  induction s generalizing fuel with
  | nil =>
    cases fuel with
    | zero => simp at hfuel
    | succ fuel =>
      have hq : quoteChar.toNat = 34 := rfl
      simp only [List.flatMap_nil, List.nil_append, parseStringBody, hq, if_true]
  | cons c tl ih =>
    cases fuel with
    | zero => simp at hfuel
    | succ fuel =>
      have hpos := escapeChar_length_pos c
      simp only [List.flatMap_cons, List.length_append] at hfuel
      rw [List.flatMap_cons, List.append_assoc, parseStringBody_escapeChar,
        ih fuel (by omega)]


theorem numRun_append (s : NumState) (xs ys : List Char) :
    numRun s (xs ++ ys) =
      match numRun s xs with
      | some s' => numRun s' ys
      | none => none := by
  induction xs generalizing s with
  | nil => rfl
  | cons c tl ih =>
    simp only [List.cons_append, numRun]
    cases numStep s c with
    | none => rfl
    | some s' => exact ih s'

theorem numStep_digitChar (d : Nat) :
    numStep NumState.start (digitChar d) =
      some (if d % 10 = 0 then NumState.zero else NumState.int) ∧
    numStep NumState.minus (digitChar d) =
      some (if d % 10 = 0 then NumState.zero else NumState.int) ∧
    numStep NumState.int (digitChar d) = some NumState.int := by
  have h := digitChar_toNat d
  have hlt : d % 10 < 10 := Nat.mod_lt _ (by decide)
  have hdig : isDecDigit (digitChar d) = true := by
    simp only [isDecDigit, h, decide_eq_true_eq]
    omega
  refine ⟨?_, ?_, ?_⟩
  · simp only [numStep, h, hdig, if_true]
    rw [if_neg (by omega)]
    by_cases h0 : d % 10 = 0
    · rw [if_pos (by omega), if_pos h0]
    · rw [if_neg (by omega), if_neg h0]
  · simp only [numStep, h, hdig, if_true]
    by_cases h0 : d % 10 = 0
    · rw [if_pos (by omega), if_pos h0]
    · rw [if_neg (by omega), if_neg h0]
  · simp only [numStep, hdig, if_true]

theorem numRun_natDigitsAux (s₀ : NumState) (hs : s₀ = NumState.start ∨ s₀ = NumState.minus)
    (fuel n : Nat) (h : n ≤ fuel) :
    numRun s₀ (natDigitsAux fuel n) =
      some (if n = 0 then NumState.zero else NumState.int) := by
  have hfirst : ∀ d, numStep s₀ (digitChar d) =
      some (if d % 10 = 0 then NumState.zero else NumState.int) := by
    intro d
    rcases hs with rfl | rfl
    · exact (numStep_digitChar d).1
    · exact (numStep_digitChar d).2.1
  induction fuel generalizing n with
  | zero =>
    have hn : n = 0 := by omega
    subst hn
    simp only [natDigitsAux, numRun, hfirst]
  | succ fuel ih =>
    rw [natDigitsAux]
    split
    · rename_i hlt
      simp only [numRun, hfirst]
      have : n % 10 = n := Nat.mod_eq_of_lt hlt
      rw [this]
    · rename_i hge
      rw [numRun_append, ih (n / 10) (by omega)]
      rw [if_neg (by omega), if_neg (by omega)]
      simp only [numRun, (numStep_digitChar n).2.2]

theorem isJSONNumber_Itoa (i : Int) : isJSONNumber (Itoa i).data = true := by
  by_cases hneg : i < 0
  · have hd : (Itoa i).data = '-' :: natDigits i.natAbs := by simp [Itoa, hneg]
    have hm : numStep NumState.start '-' = some NumState.minus := rfl
    rw [hd, isJSONNumber, numRun, hm]
    simp only
    rw [natDigits, numRun_natDigitsAux NumState.minus (Or.inr rfl) _ _ (Nat.le_refl _)]
    by_cases h0 : i.natAbs = 0 <;> simp [h0, NumState.accepting]
  · have hd : (Itoa i).data = natDigits i.natAbs := by simp [Itoa, hneg]
    rw [hd, isJSONNumber, natDigits,
      numRun_natDigitsAux NumState.start (Or.inl rfl) _ _ (Nat.le_refl _)]
    by_cases h0 : i.natAbs = 0 <;> simp [h0, NumState.accepting]

theorem isWordChar_of_numStep (s s' : NumState) (c : Char) (h : numStep s c = some s') :
    isWordChar c = true := by
  have key : (c.toNat = 45 ∨ c.toNat = 48 ∨ isDecDigit c = true ∨ c.toNat = 46 ∨
      c.toNat = 101 ∨ c.toNat = 69 ∨ c.toNat = 43) → isWordChar c = true := by
    intro hc
    simp only [isDecDigit, decide_eq_true_eq] at hc
    simp only [isWordChar, isJSONSpace, Bool.not_eq_true', Bool.or_eq_false_iff,
      decide_eq_false_iff_not]
    omega
  apply key
  cases s <;> simp only [numStep] at h <;> split_ifs at h <;>
    first
    | exact Option.noConfusion h
    | tauto

theorem flatMap_escapeChar_of_plain (l : List Char) (h : ∀ c ∈ l, escapeChar c = [c]) :
    l.flatMap escapeChar = l := by
  induction l with
  | nil => rfl
  | cons c tl ih =>
    rw [List.flatMap_cons, h c (List.mem_cons_self _ _),
      ih (fun d hd => h d (List.mem_cons_of_mem _ hd))]
    rfl

theorem escapeChar_base64Char (n : Nat) : escapeChar (base64Char n) = [base64Char n] := by
  have h : n % 64 < 64 := Nat.mod_lt _ (by decide)
  unfold base64Char
  generalize n % 64 = r at h
  interval_cases r <;> rfl

theorem escapeChar_base64 (b : List Nat) : ∀ c ∈ base64 b, escapeChar c = [c] := by
  induction b using base64.induct with
  | case1 => intro c hc; simp [base64] at hc
  | case2 a =>
    intro c hc
    simp only [base64, List.mem_cons, List.mem_singleton, List.not_mem_nil, or_false] at hc
    rcases hc with rfl | rfl | rfl | rfl
    · exact escapeChar_base64Char _
    · exact escapeChar_base64Char _
    · rfl
    · rfl
  | case3 a b =>
    intro c hc
    simp only [base64, List.mem_cons, List.mem_singleton, List.not_mem_nil, or_false] at hc
    rcases hc with rfl | rfl | rfl | rfl
    · exact escapeChar_base64Char _
    · exact escapeChar_base64Char _
    · exact escapeChar_base64Char _
    · rfl
  | case4 a b c rest ih =>
    intro ch hc
    simp only [base64, List.mem_cons] at hc
    rcases hc with rfl | rfl | rfl | rfl | hc
    · exact escapeChar_base64Char _
    · exact escapeChar_base64Char _
    · exact escapeChar_base64Char _
    · exact escapeChar_base64Char _
    · exact ih ch hc

theorem length_le_flatMap_escapeChar (s : List Char) :
    s.length ≤ (s.flatMap escapeChar).length := by
  induction s with
  | nil => simp
  | cons c tl ih =>
    have := escapeChar_length_pos c
    simp only [List.flatMap_cons, List.length_append, List.length_cons]
    omega

theorem parseValue_quoted (s : List Char) (tail : List Char) :
    parseValue (quoteChar :: (s.flatMap escapeChar ++ [quoteChar]) ++ tail) =
      some (JSONValue.str ⟨s⟩, tail) := by
  have hq : quoteChar.toNat = 34 := rfl
  have hrest : s.flatMap escapeChar ++ [quoteChar] ++ tail =
      s.flatMap escapeChar ++ quoteChar :: tail := by simp
  simp only [List.cons_append, parseValue, hq, if_true]
  rw [hrest, parseStringBody_escaped s _ tail (by simp)]

theorem numRun_wordChars (cs : List Char) (s s' : NumState) (h : numRun s cs = some s') :
    ∀ c ∈ cs, isWordChar c = true := by
  induction cs generalizing s with
  | nil => intro c hc; simp at hc
  | cons d tl ih =>
    rw [numRun] at h
    cases hstep : numStep s d with
    | none => rw [hstep] at h; simp at h
    | some s₁ =>
      rw [hstep] at h
      intro c hc
      rcases List.mem_cons.mp hc with rfl | hc
      · exact isWordChar_of_numStep s s₁ c hstep
      · exact ih s₁ h c hc

theorem isJSONNumber_spec (tok : List Char) (h : isJSONNumber tok = true) :
    (∀ c ∈ tok, isWordChar c = true) ∧ wordValue tok = some (JSONValue.num ⟨tok⟩) ∧
    ∃ c tl, tok = c :: tl ∧ c.toNat ≠ 34 := by
  have hrun : ∃ s, numRun NumState.start tok = some s := by
    unfold isJSONNumber at h
    cases hr : numRun NumState.start tok with
    | none => rw [hr] at h; simp at h
    | some s => exact ⟨s, rfl⟩
  obtain ⟨s, hs⟩ := hrun
  refine ⟨numRun_wordChars tok _ s hs, ?_, ?_⟩
  · have h1 : tok ≠ "true".data := by
      intro e; rw [e] at h; revert h; decide
    have h2 : tok ≠ "false".data := by
      intro e; rw [e] at h; revert h; decide
    have h3 : tok ≠ "null".data := by
      intro e; rw [e] at h; revert h; decide
    unfold wordValue
    rw [if_neg h1, if_neg h2, if_neg h3, if_pos h]
  · cases tok with
    | nil =>
      have : isJSONNumber [] = false := rfl
      rw [this] at h
      cases h
    | cons c tl =>
      refine ⟨c, tl, rfl, ?_⟩
      intro hc
      rw [numRun] at hs
      have : numStep NumState.start c = none := by
        simp only [numStep, hc, isDecDigit]
        decide
      rw [this] at hs
      simp at hs

theorem parseValue_word (tok : List Char) (v : JSONValue) (d : Char) (r : List Char)
    (hword : ∀ c ∈ tok, isWordChar c = true) (hv : wordValue tok = some v)
    (hhead : ∃ c tl, tok = c :: tl ∧ c.toNat ≠ 34) (hd : isWordChar d = false) :
    parseValue (tok ++ d :: r) = some (v, d :: r) := by
  obtain ⟨c, tl, rfl, hc⟩ := hhead
  have htake : ((c :: tl) ++ d :: r).takeWhile isWordChar = c :: tl := by
    rw [List.takeWhile_append_of_pos hword]
    simp [List.takeWhile, hd]
  have hdrop : ((c :: tl) ++ d :: r).dropWhile isWordChar = d :: r := by
    rw [List.dropWhile_append_of_pos hword]
    simp [List.dropWhile, hd]
  have hshape : (c :: tl) ++ d :: r = c :: (tl ++ d :: r) := rfl
  rw [parseValue.eq_def]
  simp only [hshape, if_neg hc]
  rw [← hshape, htake, hdrop, hv]

theorem parseValue_marshalValue (floatText : Nat → String)
    (hfloat : ∀ bits, isNonFinite bits = false → isJSONNumber (floatText bits).data = true)
    (v : Value) (hv : v.unsupported = false) (d : Char) (r : List Char)
    (hd : isWordChar d = false) :
    parseValue (marshalValue floatText v ++ d :: r) = some (jsonOf floatText v, d :: r) := by
  cases v with
  | str s => exact parseValue_quoted s.data (d :: r)
  | int i =>
    obtain ⟨h1, h2, h3⟩ := isJSONNumber_spec _ (isJSONNumber_Itoa i)
    exact parseValue_word _ _ d r h1 h2 h3 hd
  | bool b =>
    cases b with
    | true => exact parseValue_word "true".data _ d r (by decide) rfl ⟨_, _, rfl, by decide⟩ hd
    | false => exact parseValue_word "false".data _ d r (by decide) rfl ⟨_, _, rfl, by decide⟩ hd
  | float bits =>
    obtain ⟨h1, h2, h3⟩ := isJSONNumber_spec _ (hfloat bits hv)
    exact parseValue_word _ _ d r h1 h2 h3 hd
  | bytes b =>
    have h := parseValue_quoted (base64 b) (d :: r)
    rw [flatMap_escapeChar_of_plain _ (escapeChar_base64 b)] at h
    exact h

theorem marshalValue_head (floatText : Nat → String)
    (hfloat : ∀ bits, isNonFinite bits = false → isJSONNumber (floatText bits).data = true)
    (v : Value) (hv : v.unsupported = false) :
    ∃ c tl, marshalValue floatText v = c :: tl ∧ isJSONSpace c = false := by
  have hword : ∀ tok : List Char, (∀ c ∈ tok, isWordChar c = true) →
      (∃ c tl, tok = c :: tl ∧ c.toNat ≠ 34) → ∃ c tl, tok = c :: tl ∧ isJSONSpace c = false := by
    intro tok hall hhead
    obtain ⟨c, tl, rfl, _⟩ := hhead
    refine ⟨c, tl, rfl, ?_⟩
    have := hall c (List.mem_cons_self _ _)
    simp only [isWordChar, Bool.not_eq_true', Bool.or_eq_false_iff] at this
    exact this.2
  cases v with
  | str s => exact ⟨quoteChar, _, rfl, rfl⟩
  | int i =>
    obtain ⟨h1, _, h3⟩ := isJSONNumber_spec _ (isJSONNumber_Itoa i)
    exact hword _ h1 h3
  | bool b =>
    cases b with
    | true => exact ⟨'t', _, rfl, rfl⟩
    | false => exact ⟨'f', _, rfl, rfl⟩
  | float bits =>
    obtain ⟨h1, _, h3⟩ := isJSONNumber_spec _ (hfloat bits hv)
    exact hword _ h1 h3
  | bytes b => exact ⟨quoteChar, _, rfl, rfl⟩

theorem skipSpace_cons (c : Char) (cs : List Char) (h : isJSONSpace c = false) :
    skipSpace (c :: cs) = c :: cs := by
  unfold skipSpace
  exact List.dropWhile_cons_of_neg (by simp [h])

theorem parseMembers_member (floatText : Nat → String)
    (hfloat : ∀ bits, isNonFinite bits = false → isJSONNumber (floatText bits).data = true)
    (kv : String × Value) (hv : kv.2.unsupported = false) (fuel : Nat) (d : Char)
    (r : List Char) (hd : isWordChar d = false) (hsp : isJSONSpace d = false) :
    parseMembers (fuel + 1) (marshalMember floatText kv ++ d :: r) =
      if d.toNat = 125 then some ([(kv.1, jsonOf floatText kv.2)], r)
      else if d.toNat = 44 then
        match parseMembers fuel (skipSpace r) with
        | none => none
        | some (ms, r5) => some ((kv.1, jsonOf floatText kv.2) :: ms, r5)
      else none := by
  have hq : quoteChar.toNat = 34 := rfl
  have hc : colonChar.toNat = 58 := rfl
  obtain ⟨c, tl, hhead, hcsp⟩ := marshalValue_head floatText hfloat kv.2 hv
  have hshape : marshalMember floatText kv ++ d :: r =
      quoteChar :: (kv.1.data.flatMap escapeChar ++
        quoteChar :: (colonChar :: (marshalValue floatText kv.2 ++ d :: r))) := by
    simp [marshalMember, quoteText]
  rw [hshape, parseMembers]
  simp only [hq, if_true]
  rw [parseStringBody_escaped kv.1.data _ _ (by simp)]
  simp only
  rw [skipSpace_cons colonChar _ rfl]
  simp only [hc, if_true]
  have hsk : skipSpace (marshalValue floatText kv.2 ++ d :: r) =
      marshalValue floatText kv.2 ++ d :: r := by
    rw [hhead, List.cons_append, skipSpace_cons c _ hcsp]
  rw [hsk, parseValue_marshalValue floatText hfloat kv.2 hv d r hd]
  simp only
  rw [skipSpace_cons d r hsp]

theorem marshalMembers_head (floatText : Nat → String) (kv : String × Value)
    (es : List (String × Value)) :
    ∃ tl, marshalMembers floatText (kv :: es) = quoteChar :: tl := by
  cases es with
  | nil => exact ⟨_, rfl⟩
  | cons kv' rest => exact ⟨_, rfl⟩

theorem parseMembers_marshalMembers (floatText : Nat → String)
    (hfloat : ∀ bits, isNonFinite bits = false → isJSONNumber (floatText bits).data = true)
    (es : List (String × Value)) (kv : String × Value)
    (hv : ∀ e ∈ kv :: es, e.2.unsupported = false) (fuel : Nat) (hfuel : es.length < fuel)
    (tail : List Char) :
    parseMembers fuel (marshalMembers floatText (kv :: es) ++ closeBrace :: tail) =
      some ((kv :: es).map (fun e => (e.1, jsonOf floatText e.2)), tail) := by
  induction es generalizing kv fuel with
  | nil =>
    cases fuel with
    | zero => simp at hfuel
    | succ fuel =>
      have hm : marshalMembers floatText [kv] = marshalMember floatText kv := rfl
      rw [hm, parseMembers_member floatText hfloat kv (hv kv (List.mem_cons_self _ _)) fuel
        closeBrace tail rfl rfl]
      rfl
  | cons kv' rest ih =>
    cases fuel with
    | zero => simp at hfuel
    | succ fuel =>
      have hm : marshalMembers floatText (kv :: kv' :: rest) =
          marshalMember floatText kv ++ commaChar :: marshalMembers floatText (kv' :: rest) := rfl
      rw [hm, List.append_assoc, List.cons_append,
        parseMembers_member floatText hfloat kv (hv kv (List.mem_cons_self _ _)) fuel
          commaChar _ rfl rfl]
      have h125 : ¬ commaChar.toNat = 125 := by decide
      have h44 : commaChar.toNat = 44 := rfl
      rw [if_neg h125, if_pos h44]
      obtain ⟨tl, htl⟩ := marshalMembers_head floatText kv' rest
      have hsk : skipSpace (marshalMembers floatText (kv' :: rest) ++ closeBrace :: tail) =
          marshalMembers floatText (kv' :: rest) ++ closeBrace :: tail := by
        rw [htl, List.cons_append, skipSpace_cons quoteChar _ rfl]
      rw [hsk, ih kv' (fun e he => hv e (List.mem_cons_of_mem _ he)) fuel
        (by simp only [List.length_cons] at hfuel; omega)]
      rfl

theorem length_le_marshalMembers (floatText : Nat → String) (es : List (String × Value)) :
    es.length ≤ (marshalMembers floatText es).length := by
  induction es with
  | nil => simp
  | cons kv rest ih =>
    cases rest with
    | nil => simp [marshalMembers, marshalMember, quoteText]
    | cons kv' rest' =>
      have hm : marshalMembers floatText (kv :: kv' :: rest') =
          marshalMember floatText kv ++ commaChar :: marshalMembers floatText (kv' :: rest') := rfl
      rw [hm]
      simp only [List.length_append, List.length_cons] at ih ⊢
      omega

theorem parseObject_marshal (floatText : Nat → String)
    (hfloat : ∀ bits, isNonFinite bits = false → isJSONNumber (floatText bits).data = true)
    (es : List (String × Value)) (hv : ∀ e ∈ es, e.2.unsupported = false) :
    parseObject (openBrace :: (marshalMembers floatText es ++ [closeBrace]) ++ "\n".data) =
      some (es.map (fun e => (e.1, jsonOf floatText e.2))) := by
  have ho : openBrace.toNat = 123 := rfl
  have hnl : skipSpace "\n".data = [] := rfl
  unfold parseObject
  rw [List.cons_append, skipSpace_cons openBrace _ rfl]
  simp only [ho, if_true]
  cases es with
  | nil =>
    have : skipSpace (marshalMembers floatText [] ++ [closeBrace] ++ "\n".data) =
        closeBrace :: "\n".data := rfl
    rw [this]
    have hcb : closeBrace.toNat = 125 := rfl
    simp only [hcb, if_true, hnl, List.map_nil]
  | cons kv rest =>
    obtain ⟨tl, htl⟩ := marshalMembers_head floatText kv rest
    have hsk : skipSpace (marshalMembers floatText (kv :: rest) ++ [closeBrace] ++ "\n".data) =
        quoteChar :: (tl ++ [closeBrace] ++ "\n".data) := by
      rw [htl, List.cons_append, List.cons_append, skipSpace_cons quoteChar _ rfl]
    rw [hsk]
    have hq : ¬ quoteChar.toNat = 125 := by decide
    simp only [if_neg hq]
    have hback : quoteChar :: (tl ++ [closeBrace] ++ "\n".data) =
        marshalMembers floatText (kv :: rest) ++ closeBrace :: "\n".data := by
      rw [htl]
      simp
    have hlen := length_le_marshalMembers floatText (kv :: rest)
    rw [hback, parseMembers_marshalMembers floatText hfloat rest kv hv _
      (by simp only [List.length_cons, List.length_append] at hlen ⊢; omega)]
    simp only [hnl, if_true]

theorem sortedEntries_perm (m : FlatMap) : (sortedEntries m).Perm m.entries :=
  List.perm_insertionSort _ _

theorem toFlatJSON_of_supported (R : DNSMessage → FlatMap → FlatMap × Option GoError)
    (jsonText : FlatMap → String) (dm : DNSMessage) (hnone : dm.Relabeling = none)
    (hall : ∀ kv ∈ (flattenFields dm).entries, kv.2.unsupported = false) :
    ToFlatJSON R jsonText dm = (jsonText (flattenFields dm) ++ "\n", none) := by
  have hF := Flatten_of_no_relabeling R dm hnone
  have hany : (flattenFields dm).entries.any (fun kv => kv.2.unsupported) = false := by
    rw [List.any_eq_false]
    intro kv hkv
    simp [hall kv hkv]
  simp [ToFlatJSON, hF, encodeToBuffer, hany]

/-! ## Claims about `ToFlatJSON` -/

/-- C7, as stated, fails: the sample message with a NaN latency has no
relabeling, `Flatten` succeeds on it, and `ToFlatJSON` returns the empty string
with a nil error, whatever text the encoder produces for maps it can marshal. -/
theorem toFlatJSON_nan_latency_empty :
    nanLatencyMessage.Relabeling = none ∧
    (Flatten identityRelabeling nanLatencyMessage).2 = none ∧
    ∀ jsonText, ToFlatJSON identityRelabeling jsonText nanLatencyMessage = ("", none) := by
  have hget : (flattenFields nanLatencyMessage).get "dnstap.latency" =
      some (Value.float 0x7FF8000000000000) := by
    rw [get_flattenFields_fixed _ _ (by decide)]
    rfl
  have hany : (flattenFields nanLatencyMessage).entries.any (fun kv => kv.2.unsupported) =
      true := by
    rw [List.any_eq_true]
    exact ⟨_, mem_of_getEntries hget, by decide⟩
  refine ⟨rfl, rfl, fun jsonText => ?_⟩
  have hF : Flatten identityRelabeling nanLatencyMessage =
      (some (flattenFields nanLatencyMessage), none) :=
    Flatten_of_no_relabeling _ _ rfl
  simp only [ToFlatJSON, hF, encodeToBuffer, hany, if_true]

/-- C7, amended. `ToFlatJSON` returns an error exactly when `Flatten` does, the
same one, and then the string is empty; otherwise the error is nil and the
string is what the encoder wrote for exactly the map `Flatten` returned. With
no relabeling that map is the flat projection, and when no value of the map is
a NaN or infinite float the string is the text of the map followed by a
newline, hence non-empty, and with the text that `encoding/json` produces it
parses back as a JSON object: one member per entry of the map, under the same
key, holding the value of the entry; when some value is a NaN or infinite
float, the string is empty. -/
theorem toFlatJSON_result (R : DNSMessage → FlatMap → FlatMap × Option GoError)
    (jsonText : FlatMap → String) (floatText : Nat → String) (dm : DNSMessage) :
    (∀ err, (ToFlatJSON R jsonText dm).2 = some err ↔ (Flatten R dm).2 = some err) ∧
    (∀ err, (Flatten R dm).2 = some err → ToFlatJSON R jsonText dm = ("", some err)) ∧
    (∀ flat, Flatten R dm = (some flat, none) →
      ToFlatJSON R jsonText dm = (encodeToBuffer jsonText flat, none)) ∧
    (dm.Relabeling = none →
      ToFlatJSON R jsonText dm = (encodeToBuffer jsonText (flattenFields dm), none) ∧
      ((∀ kv ∈ (flattenFields dm).entries, kv.2.unsupported = false) →
        (ToFlatJSON R jsonText dm).1 = jsonText (flattenFields dm) ++ "\n" ∧
        (ToFlatJSON R jsonText dm).1 ≠ "") ∧
      ((∃ kv ∈ (flattenFields dm).entries, kv.2.unsupported = true) →
        (ToFlatJSON R jsonText dm).1 = "")) ∧
    (dm.Relabeling = none →
      (∀ kv ∈ (flattenFields dm).entries, kv.2.unsupported = false) →
      (∀ bits, isNonFinite bits = false → isJSONNumber (floatText bits).data = true) →
      ToFlatJSON R (marshalFlat floatText) dm =
        (marshalFlat floatText (flattenFields dm) ++ "\n", none) ∧
      (ToFlatJSON R (marshalFlat floatText) dm).1 ≠ "" ∧
      parseObject (ToFlatJSON R (marshalFlat floatText) dm).1.data =
        some ((sortedEntries (flattenFields dm)).map
          (fun kv => (kv.1, jsonOf floatText kv.2))) ∧
      (sortedEntries (flattenFields dm)).Perm (flattenFields dm).entries) := by
  have hne : ∀ t : String, t ++ "\n" ≠ "" := by
    intro t hempty
    have hlen := congrArg String.length hempty
    simp only [String.length_append] at hlen
    have h1 : "\n".length = 1 := rfl
    have h0 : "".length = 0 := rfl
    omega
  refine ⟨?_, ?_, ?_, ?_, ?_⟩
  · intro err
    unfold ToFlatJSON
    rcases hF : Flatten R dm with ⟨_ | flat, _ | e⟩ <;> simp
  · intro err herr
    unfold ToFlatJSON
    rcases hF : Flatten R dm with ⟨_ | flat, _ | e⟩ <;> simp [hF] at herr ⊢ <;> exact herr
  · intro flat hF
    simp [ToFlatJSON, hF]
  · intro hnone
    have hF := Flatten_of_no_relabeling R dm hnone
    have hT : ToFlatJSON R jsonText dm =
        (encodeToBuffer jsonText (flattenFields dm), none) := by
      simp [ToFlatJSON, hF]
    refine ⟨hT, ?_, ?_⟩
    · intro hall
      have hs := toFlatJSON_of_supported R jsonText dm hnone hall
      rw [hs]
      exact ⟨rfl, hne _⟩
    · intro hex
      have hany : (flattenFields dm).entries.any (fun kv => kv.2.unsupported) = true := by
        rw [List.any_eq_true]
        exact hex
      rw [hT]
      simp [encodeToBuffer, hany]
  · intro hnone hall hfloat
    have hs := toFlatJSON_of_supported R (marshalFlat floatText) dm hnone hall
    refine ⟨hs, ?_, ?_, sortedEntries_perm _⟩
    · rw [hs]
      exact hne _
    · rw [hs]
      simp only [String.data_append]
      exact parseObject_marshal floatText hfloat (sortedEntries (flattenFields dm))
        (fun e he => hall e ((sortedEntries_perm _).mem_iff.mp he))

/-- C7 amended, at the sample messages: the failing relabeling gives the empty
string with that error; the sample message, whose values are all supported,
gives a non-empty string that parses back as an object which holds the name
asked for under `dns.qname`; the NaN latency gives the empty string. -/
theorem toFlatJSON_result_witness :
    ToFlatJSON failingRelabeling (fun _ => "\x7b\x7d") relabeledMessage =
      ("", some ⟨"invalid relabeling rule"⟩) ∧
    (ToFlatJSON identityRelabeling (fun _ => "\x7b\x7d") sampleMessage).1 ≠ "" ∧
    (ToFlatJSON identityRelabeling (fun _ => "\x7b\x7d") nanLatencyMessage).1 = "" ∧
    (∃ members,
      parseObject (ToFlatJSON identityRelabeling (marshalFlat (fun _ => "0")) sampleMessage).1.data =
        some members ∧
      ("dns.qname", JSONValue.str "dns.collector") ∈ members) :=
  ⟨(toFlatJSON_result failingRelabeling (fun _ => "\x7b\x7d") (fun _ => "0")
      relabeledMessage).2.1 _ rfl,
    (((toFlatJSON_result identityRelabeling (fun _ => "\x7b\x7d") (fun _ => "0")
      sampleMessage).2.2.2.1 rfl).2.1 (by decide)).2,
    ((toFlatJSON_result identityRelabeling (fun _ => "\x7b\x7d") (fun _ => "0")
      nanLatencyMessage).2.2.2.1 rfl).2.2
      ⟨("dnstap.latency", Value.float 0x7FF8000000000000),
        mem_of_getEntries
          (show (flattenFields nanLatencyMessage).get "dnstap.latency" = _ from
            (get_flattenFields_fixed _ _ (by decide)).trans rfl),
        by decide⟩,
    match (toFlatJSON_result identityRelabeling (fun _ => "\x7b\x7d") (fun _ => "0")
      sampleMessage).2.2.2.2 rfl (by decide) (fun _ _ => rfl) with
    | ⟨_, _, hparse, hperm⟩ =>
      ⟨_, hparse, List.mem_map.mpr
        ⟨("dns.qname", Value.str "dns.collector"),
          hperm.mem_iff.mpr
            (mem_of_getEntries
              (show (flattenFields sampleMessage).get "dns.qname" = _ from
                (get_flattenFields_fixed _ _ (by decide)).trans rfl)),
          rfl⟩⟩⟩

/-! ## Claims about the MQTT configuration -/

theorem readConfig_eq (env : Env) (w : MQTT) :
    w.ReadConfig env =
      if !env.IsValidTLS w.config.MQTT.TLSMinVersion then
        Outcome.fatal { w with textFormat := textFormatOf w.config }
          (env.PrefixLogWorker ++ "[" ++ w.name ++ "]mqtt - invalid tls min version")
      else if w.config.MQTT.QOS > 2 then
        Outcome.fatal { w with textFormat := textFormatOf w.config }
          (env.PrefixLogWorker ++ "[" ++ w.name ++
            "]mqtt - invalid qos value, must be 0, 1, or 2")
      else if ToLower env w.config.MQTT.ProtocolVersion ∈ ["v3", "v5", "auto"] then
        Outcome.running { w with textFormat := textFormatOf w.config }
      else
        Outcome.fatal { w with textFormat := textFormatOf w.config }
          (env.PrefixLogWorker ++ "[" ++ w.name ++
            "]mqtt - invalid protocol version, must be v3, v5, or auto") := by
  unfold MQTT.ReadConfig textFormatOf
  simp only [MQTT.GetConfig, MQTT.GetName]
  by_cases hfmt : 0 < w.config.MQTT.TextFormat.utf8ByteSize <;>
    by_cases htls : env.IsValidTLS w.config.MQTT.TLSMinVersion = true <;>
    by_cases hq : w.config.MQTT.QOS > 2 <;>
    by_cases hpv : ToLower env w.config.MQTT.ProtocolVersion ∈ ["v3", "v5", "auto"] <;>
    simp only [List.mem_cons, List.mem_singleton, List.not_mem_nil, or_false] at hpv <;>
    simp [hfmt, htls, hq, hpv] <;> tauto

theorem toLower_of_lower_ascii (env : Env) (s : String) (h : s ∈ ["v3", "v5", "auto"]) :
    ToLower env s = s := by
  simp only [List.mem_cons, List.mem_singleton, List.not_mem_nil, or_false] at h
  rcases h with rfl | rfl | rfl <;> rfl

/-- C8, as stated, fails: `V5` is none of `v3`, `v5`, `auto`, yet a worker
whose configuration carries it (valid TLS version, QOS 0) passes `ReadConfig`
without a fatal error. -/
theorem readConfig_accepts_capitals :
    upperCaseConfig.MQTT.ProtocolVersion ∉ ["v3", "v5", "auto"] ∧
    (MQTT.ReadConfig sampleEnv { sampleWorker with config := upperCaseConfig }).isFatal =
      false :=
  ⟨by decide, by decide⟩

/-- C8, amended. `ReadConfig` lower-cases the protocol version before checking
it: the values `v3`, `v5`, `auto` are their own lower-case form; when the
lower-cased value is one of the three (and the TLS version is valid and the QOS
at most 2) `ReadConfig` ends without a fatal error; for any value whose
lower-cased form is none of the three it reports a fatal error. -/
theorem readConfig_protocol_version (env : Env) (w : MQTT) :
    (w.config.MQTT.ProtocolVersion ∈ ["v3", "v5", "auto"] →
      ToLower env w.config.MQTT.ProtocolVersion = w.config.MQTT.ProtocolVersion) ∧
    (ToLower env w.config.MQTT.ProtocolVersion ∈ ["v3", "v5", "auto"] →
      env.IsValidTLS w.config.MQTT.TLSMinVersion = true → w.config.MQTT.QOS ≤ 2 →
      w.ReadConfig env = Outcome.running { w with textFormat := textFormatOf w.config }) ∧
    (ToLower env w.config.MQTT.ProtocolVersion ∉ ["v3", "v5", "auto"] →
      (w.ReadConfig env).isFatal = true) ∧
    (ToLower env w.config.MQTT.ProtocolVersion ∉ ["v3", "v5", "auto"] →
      env.IsValidTLS w.config.MQTT.TLSMinVersion = true → w.config.MQTT.QOS ≤ 2 →
      w.ReadConfig env = Outcome.fatal { w with textFormat := textFormatOf w.config }
        (env.PrefixLogWorker ++ "[" ++ w.name ++
          "]mqtt - invalid protocol version, must be v3, v5, or auto")) := by
  refine ⟨toLower_of_lower_ascii env _, ?_, ?_, ?_⟩
  · intro hpv htls hq
    rw [readConfig_eq]
    simp [htls, Nat.not_lt.mpr hq, hpv]
  · intro hpv
    rw [readConfig_eq]
    by_cases htls : env.IsValidTLS w.config.MQTT.TLSMinVersion = true <;>
      by_cases hq : w.config.MQTT.QOS > 2 <;> simp [htls, hq, hpv, Outcome.isFatal]
  · intro hpv htls hq
    rw [readConfig_eq]
    simp [htls, Nat.not_lt.mpr hq, hpv]

/-- C8 amended, at the samples: `V5` is accepted, `invalid` is rejected. -/
theorem readConfig_protocol_version_witness :
    MQTT.ReadConfig sampleEnv { sampleWorker with config := upperCaseConfig } =
      Outcome.running { sampleWorker with config := upperCaseConfig } ∧
    (MQTT.ReadConfig sampleEnv
      { sampleWorker with
        config := { sampleConfig with
          MQTT := { sampleConfig.MQTT with ProtocolVersion := "invalid" } } }).isFatal = true :=
  ⟨(readConfig_protocol_version sampleEnv { sampleWorker with config := upperCaseConfig }).2.1
      (by decide) (by decide) (by decide),
    (readConfig_protocol_version sampleEnv _).2.2.1 (by decide)⟩

/-- C9. With a valid TLS minimum version and a valid protocol version,
`ReadConfig` reports a fatal error if and only if QOS is greater than 2, that
is, not one of 0, 1, 2. -/
theorem readConfig_qos (env : Env) (w : MQTT)
    (htls : env.IsValidTLS w.config.MQTT.TLSMinVersion = true)
    (hpv : ToLower env w.config.MQTT.ProtocolVersion ∈ ["v3", "v5", "auto"]) :
    ((w.ReadConfig env).isFatal = true ↔ w.config.MQTT.QOS > 2) ∧
    (w.config.MQTT.QOS > 2 ↔ w.config.MQTT.QOS ∉ [0, 1, 2]) := by
  constructor
  · rw [readConfig_eq]
    by_cases hq : w.config.MQTT.QOS > 2 <;> simp [htls, hq, hpv, Outcome.isFatal]
  · simp only [List.mem_cons, List.mem_singleton, List.not_mem_nil, or_false]
    omega

/-- C9, at the sample worker with QOS 3. -/
theorem readConfig_qos_witness :
    ((MQTT.ReadConfig sampleEnv { sampleWorker with config := badQosConfig }).isFatal = true ↔
      badQosConfig.MQTT.QOS > 2) ∧
    (badQosConfig.MQTT.QOS > 2 ↔ badQosConfig.MQTT.QOS ∉ [0, 1, 2]) :=
  readConfig_qos sampleEnv { sampleWorker with config := badQosConfig } (by decide) (by decide)

/-- C10, as stated, fails: the sample worker holds the sample configuration;
a reload with QOS 3 fails validation, and the step ends in a fatal error with
the worker holding the reloaded configuration, not the prior one, and the text
format derived from the reloaded configuration. -/
theorem reload_bad_config_not_rejected :
    sampleWorker.GetConfig = sampleConfig ∧
    validConfig sampleEnv badQosConfig = false ∧
    (sampleWorker.handleNewConfig sampleEnv badQosConfig).isFatal = true ∧
    (sampleWorker.handleNewConfig sampleEnv badQosConfig).worker.GetConfig = badQosConfig ∧
    (sampleWorker.handleNewConfig sampleEnv badQosConfig).worker.GetConfig ≠ sampleConfig ∧
    (sampleWorker.handleNewConfig sampleEnv badQosConfig).worker.textFormat = ["qname"] ∧
    textFormatOf sampleConfig = ["timestamp", "identity", "qname", "qtype"] :=
  ⟨rfl, by decide, by decide, by decide, by decide, by decide, by decide⟩

/-- C10, amended. Handling a reload installs the new configuration before it
is validated: for every worker and every reloaded configuration that fails the
validation of `ReadConfig`, the step ends in a fatal error, and at that point
`GetConfig` returns the reloaded configuration and the text format is the one
derived from it. -/
theorem reload_bad_config_fatal (env : Env) (w : MQTT) (cfg : Config)
    (hbad : validConfig env cfg = false) :
    (w.handleNewConfig env cfg).isFatal = true ∧
    (w.handleNewConfig env cfg).worker.GetConfig = cfg ∧
    (w.handleNewConfig env cfg).worker.textFormat = textFormatOf cfg := by
  unfold MQTT.handleNewConfig
  rw [readConfig_eq]
  simp only [MQTT.SetConfig]
  simp only [validConfig, Bool.and_eq_false_iff, decide_eq_false_iff_not] at hbad
  by_cases htls : env.IsValidTLS cfg.MQTT.TLSMinVersion = true
  · by_cases hq : cfg.MQTT.QOS > 2
    · simp [htls, hq, Outcome.isFatal, Outcome.worker, MQTT.GetConfig]
    · have hpv : ToLower env cfg.MQTT.ProtocolVersion ∉ ["v3", "v5", "auto"] := by
        rcases hbad with (h | h) | h
        · exact absurd htls (by simp [h])
        · exact absurd (Nat.le_of_not_lt hq) h
        · exact h
      simp [htls, hq, hpv, Outcome.isFatal, Outcome.worker, MQTT.GetConfig]
  · simp [htls, Outcome.isFatal, Outcome.worker, MQTT.GetConfig]

/-- C10 amended, at the sample worker and the reload with QOS 3. -/
theorem reload_bad_config_fatal_witness :
    validConfig sampleEnv badQosConfig = false ∧
    (sampleWorker.handleNewConfig sampleEnv badQosConfig).isFatal = true ∧
    (sampleWorker.handleNewConfig sampleEnv badQosConfig).worker.GetConfig = badQosConfig ∧
    (sampleWorker.handleNewConfig sampleEnv badQosConfig).worker.textFormat =
      textFormatOf badQosConfig :=
  ⟨by decide, reload_bad_config_fatal sampleEnv sampleWorker badQosConfig (by decide)⟩

/-! ## Claims about the collector loop -/

/-- C11. For every message read from the input queue the ingress counter goes
up by one, and the transform verdict alone decides the rest: on *drop* the
message is handed to the dropped routes and nothing else changes (egress
counter, output channel and default routes are as before); on any other
verdict the egress counter goes up by one, the message is pushed to the output
channel and handed to the default routes, and the dropped routes get
nothing. -/
theorem collectMessage_routing (T : Transforms) (s : CollectState) (dm : DNSMessage) :
    (collectMessage T s dm).ingress = s.ingress + 1 ∧
    ((T.ProcessMessage dm).2.1 = T.ReturnDrop →
      (collectMessage T s dm).dropped = s.dropped ++ [(T.ProcessMessage dm).1] ∧
      (collectMessage T s dm).egress = s.egress ∧
      (collectMessage T s dm).outputChannel = s.outputChannel ∧
      (collectMessage T s dm).forwarded = s.forwarded) ∧
    ((T.ProcessMessage dm).2.1 ≠ T.ReturnDrop →
      (collectMessage T s dm).egress = s.egress + 1 ∧
      (collectMessage T s dm).outputChannel = s.outputChannel ++ [(T.ProcessMessage dm).1] ∧
      (collectMessage T s dm).forwarded = s.forwarded ++ [(T.ProcessMessage dm).1] ∧
      (collectMessage T s dm).dropped = s.dropped) := by
  unfold collectMessage
  rcases hP : T.ProcessMessage dm with ⟨dm', v, err⟩
  by_cases hv : v = T.ReturnDrop <;> cases err <;>
    simp [hv, CollectState.CountIngressTraffic, CollectState.CountEgressTraffic,
      CollectState.LogError, CollectState.SendDroppedTo, CollectState.SendForwardedTo,
      CollectState.pushOutput]

/-- C11, at the sample transform chain: the sample message is kept. -/
theorem collectMessage_routing_witness :
    (collectMessage sampleTransforms emptyCollectState sampleMessage).ingress = 1 ∧
    (collectMessage sampleTransforms emptyCollectState sampleMessage).egress = 1 ∧
    (collectMessage sampleTransforms emptyCollectState sampleMessage).dropped = [] :=
  ⟨(collectMessage_routing sampleTransforms emptyCollectState sampleMessage).1,
    ((collectMessage_routing sampleTransforms emptyCollectState sampleMessage).2.2
      (by decide)).1,
    ((collectMessage_routing sampleTransforms emptyCollectState sampleMessage).2.2
      (by decide)).2.2.2⟩

/-- C12. When the transform chain returns an error for a message, the error is
logged and the message is then routed as the verdict says: on *drop* it goes to
the dropped routes only; on any other verdict it is still counted as egress,
pushed to the output channel and forwarded to the default routes. -/
theorem collectMessage_transform_error (T : Transforms) (s : CollectState)
    (dm dm' : DNSMessage) (v : Int) (err : GoError)
    (hP : T.ProcessMessage dm = (dm', v, some err)) :
    (collectMessage T s dm).logged = s.logged ++ [err.msg] ∧
    (v ≠ T.ReturnDrop →
      (collectMessage T s dm).egress = s.egress + 1 ∧
      (collectMessage T s dm).outputChannel = s.outputChannel ++ [dm'] ∧
      (collectMessage T s dm).forwarded = s.forwarded ++ [dm'] ∧
      (collectMessage T s dm).dropped = s.dropped) ∧
    (v = T.ReturnDrop →
      (collectMessage T s dm).dropped = s.dropped ++ [dm'] ∧
      (collectMessage T s dm).egress = s.egress ∧
      (collectMessage T s dm).outputChannel = s.outputChannel ∧
      (collectMessage T s dm).forwarded = s.forwarded) := by
  unfold collectMessage
  rw [hP]
  by_cases hv : v = T.ReturnDrop <;>
    simp [hv, CollectState.CountIngressTraffic, CollectState.CountEgressTraffic,
      CollectState.LogError, CollectState.SendDroppedTo, CollectState.SendForwardedTo,
      CollectState.pushOutput]

/-- C12, at the sample transform chain: the untagged message draws an error
and is forwarded all the same. -/
theorem collectMessage_transform_error_witness :
    (collectMessage sampleTransforms emptyCollectState untaggedMessage).logged =
      ["atags: no tags"] ∧
    (collectMessage sampleTransforms emptyCollectState untaggedMessage).egress = 1 :=
  ⟨(collectMessage_transform_error sampleTransforms emptyCollectState untaggedMessage
      _ 1 ⟨"atags: no tags"⟩ rfl).1,
    ((collectMessage_transform_error sampleTransforms emptyCollectState untaggedMessage
      _ 1 ⟨"atags: no tags"⟩ rfl).2.1 (by decide)).1⟩

/-! ## Facts about `FlushBuffer` -/

theorem publishedPayloads_append (a b : List Event) :
    publishedPayloads (a ++ b) = publishedPayloads a ++ publishedPayloads b := by
  induction a with
  | nil => rfl
  | cons e tl ih => cases e <;> simp [publishedPayloads, ih]

theorem flushPayload_logged (S : Serializers) (w : MQTT) (dm : DNSMessage) :
    publishedPayloads (flushPayload S w dm).2 = [] ∧
    (∀ ev ∈ (flushPayload S w dm).2, ev.isTimerReset = false) ∧
    ((flushPayload S w dm).1 ≠ none → (flushPayload S w dm).2 = []) := by
  unfold flushPayload
  split
  · simp [publishedPayloads]
  · split
    · simp [publishedPayloads]
    · split
      · split <;> simp [publishedPayloads, Event.isTimerReset]
      · simp [publishedPayloads]

theorem flushPayload_congr (S : Serializers) (w w' : MQTT) (dm : DNSMessage)
    (hc : w'.config = w.config) (ht : w'.textFormat = w.textFormat) :
    flushPayload S w' dm = flushPayload S w dm := by
  simp [flushPayload, MQTT.GetConfig, hc, ht]

theorem flushLoop_worker (S : Serializers) (results : Nat → PublishResult) (w : MQTT)
    (n : Nat) (buf : List DNSMessage) :
    (flushLoop S results w n buf).1 = w ∨
    (flushLoop S results w n buf).1 = { w with writerReady := false } := by
  induction buf generalizing n with
  | nil => left; rfl
  | cons dm rest ih =>
    unfold flushLoop
    rcases hp : flushPayload S w dm with ⟨_ | payload, logged⟩
    · simpa using ih n
    · rcases hr : results n with _ | _ | err
      · right; rfl
      · simpa using ih (n + 1)
      · right; rfl

theorem flushLoop_no_timerReset (S : Serializers) (results : Nat → PublishResult) (w : MQTT)
    (n : Nat) (buf : List DNSMessage) :
    ∀ ev ∈ (flushLoop S results w n buf).2.2, ev.isTimerReset = false := by
  induction buf generalizing n with
  | nil => intro ev hev; simp [flushLoop] at hev
  | cons dm rest ih =>
    have hl := (flushPayload_logged S w dm).2.1
    unfold flushLoop
    rcases hp : flushPayload S w dm with ⟨_ | payload, logged⟩
    · rw [hp] at hl
      intro ev hev
      simp only [List.mem_append] at hev
      rcases hev with h | h
      · exact hl ev h
      · exact ih n ev h
    · rw [hp] at hl
      rcases hr : results n with _ | _ | err
      · intro ev hev
        simp only [List.mem_append, List.mem_cons, List.mem_singleton, List.not_mem_nil,
          or_false] at hev
        rcases hev with h | rfl | rfl | rfl
        · exact hl ev h
        all_goals rfl
      · intro ev hev
        simp only [List.mem_append, List.mem_cons] at hev
        rcases hev with h | rfl | h
        · exact hl ev h
        · rfl
        · exact ih (n + 1) ev h
      · intro ev hev
        simp only [List.mem_append, List.mem_cons, List.mem_singleton, List.not_mem_nil,
          or_false] at hev
        rcases hev with h | rfl | rfl | rfl
        · exact hl ev h
        all_goals rfl

theorem payloads_cons_none (S : Serializers) (w : MQTT) (dm : DNSMessage)
    (rest : List DNSMessage) (h : (flushPayload S w dm).1 = none) :
    payloads S w (dm :: rest) = payloads S w rest := by
  simp [payloads, List.filterMap_cons, h]

theorem payloads_cons_some (S : Serializers) (w : MQTT) (dm : DNSMessage)
    (rest : List DNSMessage) (p : String) (h : (flushPayload S w dm).1 = some p) :
    payloads S w (dm :: rest) = p :: payloads S w rest := by
  simp [payloads, List.filterMap_cons, h]

theorem flushLoop_ok_append (S : Serializers) (results : Nat → PublishResult) (w : MQTT)
    (pre rest : List DNSMessage) (n : Nat)
    (hok : ∀ j, j < (payloads S w pre).length → results (n + j) = PublishResult.done none) :
    ∃ evs, publishedPayloads evs = payloads S w pre ∧
      flushLoop S results w n (pre ++ rest) =
        ((flushLoop S results w (n + (payloads S w pre).length) rest).1,
          (flushLoop S results w (n + (payloads S w pre).length) rest).2.1,
          evs ++ (flushLoop S results w (n + (payloads S w pre).length) rest).2.2) := by
  induction pre generalizing n with
  | nil => exact ⟨[], rfl, by simp [payloads]⟩
  | cons dm tl ih =>
    have hl := (flushPayload_logged S w dm).1
    rcases hp : flushPayload S w dm with ⟨_ | payload, logged⟩
    · have hnone : (flushPayload S w dm).1 = none := by rw [hp]
      rw [payloads_cons_none S w dm tl hnone] at hok ⊢
      obtain ⟨evs, hpub, heq⟩ := ih n hok
      refine ⟨logged ++ evs, ?_, ?_⟩
      · rw [hp] at hl
        simp only at hl
        rw [publishedPayloads_append, hl, hpub, List.nil_append]
      · rw [List.cons_append, flushLoop, hp]
        simp only
        rw [heq]
        simp [List.append_assoc]
    · have hsome : (flushPayload S w dm).1 = some payload := by rw [hp]
      rw [payloads_cons_some S w dm tl payload hsome] at hok ⊢
      have h0 : results n = PublishResult.done none := by
        have := hok 0 (by simp)
        simpa using this
      have hok' : ∀ j, j < (payloads S w tl).length →
          results (n + 1 + j) = PublishResult.done none := by
        intro j hj
        have := hok (j + 1) (by simpa using hj)
        rw [← this]
        congr 1
        omega
      obtain ⟨evs, hpub, heq⟩ := ih (n + 1) hok'
      refine ⟨logged ++
        Event.publish w.GetConfig.MQTT.Topic w.GetConfig.MQTT.QOS false payload :: evs, ?_, ?_⟩
      · rw [hp] at hl
        simp only at hl
        rw [publishedPayloads_append, hl, List.nil_append]
        simp [publishedPayloads, hpub]
      · rw [List.cons_append, flushLoop, hp]
        simp only [h0]
        rw [heq]
        have hlen : n + 1 + (payloads S w tl).length = n + (payload :: payloads S w tl).length := by
          simp only [List.length_cons]
          omega
        rw [hlen]
        simp [List.append_assoc]

theorem flushLoop_fail_head (S : Serializers) (results : Nat → PublishResult) (w : MQTT)
    (n : Nat) (dm : DNSMessage) (post : List DNSMessage) (payload : String)
    (hpay : (flushPayload S w dm).1 = some payload)
    (hfail : results n ≠ PublishResult.done none) :
    ∃ fmt err, flushLoop S results w n (dm :: post) =
      ({ w with writerReady := false }, n + 1,
        [Event.publish w.GetConfig.MQTT.Topic w.GetConfig.MQTT.QOS false payload,
          Event.logError fmt err, Event.waitReconnect]) ∧
      ((results n = PublishResult.timeout ∧ fmt = "publish timeout" ∧ err = none) ∨
        (∃ e, results n = PublishResult.done (some e) ∧ fmt = "publish failed: %s" ∧
          err = some e)) := by
  have hl := (flushPayload_logged S w dm).2.2
  rcases hp : flushPayload S w dm with ⟨_ | p, logged⟩
  · rw [hp] at hpay; simp at hpay
  · rw [hp] at hpay hl
    simp only [Option.some.injEq] at hpay
    subst hpay
    have hlog : logged = [] := hl (by simp)
    subst hlog
    rcases hr : results n with _ | _ | e
    · exact ⟨_, _, by rw [flushLoop, hp]; simp only [hr]; rfl, Or.inl ⟨rfl, rfl, rfl⟩⟩
    · exact absurd hr hfail
    · exact ⟨_, _, by rw [flushLoop, hp]; simp only [hr]; rfl, Or.inr ⟨e, rfl, rfl, rfl⟩⟩

theorem sampleMessage_supported :
    ∀ kv ∈ (flattenFields sampleMessage).entries, kv.2.unsupported = false := by decide

theorem flushPayload_sample_flat :
    flushPayload sampleSerializers readyWorker sampleMessage = (some "\x7b\x7d\n", []) := by
  have hF : Flatten failingRelabeling sampleMessage = (some (flattenFields sampleMessage), none) :=
    Flatten_of_no_relabeling _ _ rfl
  have hany : (flattenFields sampleMessage).entries.any (fun kv => kv.2.unsupported) = false := by
    rw [List.any_eq_false]
    intro kv hkv
    simp [sampleMessage_supported kv hkv]
  have hmode : readyWorker.GetConfig.MQTT.Mode = ModeFlatJSON := rfl
  have h1 : readyWorker.GetConfig.MQTT.Mode ≠ ModeText := by decide
  have h2 : readyWorker.GetConfig.MQTT.Mode ≠ ModeJSON := by decide
  unfold flushPayload
  rw [if_neg h1, if_neg h2, if_pos hmode]
  have hS : sampleSerializers.ApplyRelabeling = failingRelabeling := rfl
  rw [hS, hF]
  simp only [encodeToBuffer, hany]
  rfl

theorem flushPayload_relabeled_flat :
    flushPayload sampleSerializers readyWorker relabeledMessage =
      (none, [Event.logError "flattening DNS message failed: %e"
        (some ⟨"invalid relabeling rule"⟩)]) := by
  have hF : Flatten failingRelabeling relabeledMessage =
      (none, some ⟨"invalid relabeling rule"⟩) := by
    simp [Flatten, relabeledMessage, failingRelabeling]
  have hmode : readyWorker.GetConfig.MQTT.Mode = ModeFlatJSON := rfl
  have h1 : readyWorker.GetConfig.MQTT.Mode ≠ ModeText := by decide
  have h2 : readyWorker.GetConfig.MQTT.Mode ≠ ModeJSON := by decide
  unfold flushPayload
  rw [if_neg h1, if_neg h2, if_pos hmode]
  have hS : sampleSerializers.ApplyRelabeling = failingRelabeling := rfl
  rw [hS, hF]

/-- C13, as stated, fails: in mode `flat-json`, with a buffer of two messages
of which the first cannot be flattened, publishing the message at position 1
times out; the writer is marked unready and the buffer is emptied, but the
message at position 0 was never published: the only `Publish` call is the one
for position 1. -/
theorem flushBuffer_skipped_before_failure :
    FlushBuffer sampleSerializers (fun _ => PublishResult.timeout) readyWorker 0
        [relabeledMessage, sampleMessage] =
      ({ readyWorker with writerReady := false }, 1, [],
        [Event.logError "flattening DNS message failed: %e" (some ⟨"invalid relabeling rule"⟩),
          Event.publish "dns/logs" 0 false "\x7b\x7d\n",
          Event.logError "publish timeout" none, Event.waitReconnect]) := by
  simp only [FlushBuffer, flushLoop, flushPayload_relabeled_flat, flushPayload_sample_flat]
  rfl

theorem payloads_length_of_serializable (S : Serializers) (w : MQTT) (buf : List DNSMessage)
    (h : ∀ dm ∈ buf, (flushPayload S w dm).1 ≠ none) :
    (payloads S w buf).length = buf.length := by
  induction buf with
  | nil => rfl
  | cons dm tl ih =>
    rcases hp : (flushPayload S w dm).1 with _ | p
    · exact absurd hp (h dm (List.mem_cons_self _ _))
    · rw [payloads_cons_some S w dm tl p hp, List.length_cons, List.length_cons,
        ih (fun d hd => h d (List.mem_cons_of_mem _ hd))]

theorem flushPayload_ne_none_of_mode (S : Serializers) (w : MQTT) (dm : DNSMessage)
    (h : w.GetConfig.MQTT.Mode ≠ ModeFlatJSON ∨ (Flatten S.ApplyRelabeling dm).2 = none) :
    (flushPayload S w dm).1 ≠ none := by
  unfold flushPayload
  split
  · simp
  · split
    · simp
    · split
      · rename_i hm
        rcases h with h | h
        · exact absurd hm h
        · rcases hF : Flatten S.ApplyRelabeling dm with ⟨_ | flat, _ | e⟩
          · simp
          · rw [hF] at h; simp at h
          · simp
          · rw [hF] at h; simp at h
      · simp

/-- C13, amended. When the `Publish` call for the message at position `i`
(the buffer being `pre ++ dm :: post` with `pre` of length `i`) times out or
returns an error, the earlier calls having succeeded: the writer is marked
unready, the last thing the flush does is wait for the reconnection signal, the
buffer is empty on return, and the `Publish` calls made are exactly those for
the messages of `pre` that the mode could serialize, in buffer order, followed
by the one for `dm`; nothing after position `i` is published. Every message of
`pre` is among them, once, unless the mode is `flat-json` and its `Flatten`
returned an error: such a message was skipped, not published. -/
theorem flushBuffer_publish_failure (S : Serializers) (results : Nat → PublishResult)
    (w : MQTT) (n : Nat) (pre post : List DNSMessage) (dm : DNSMessage) (payload : String)
    (hpay : (flushPayload S w dm).1 = some payload)
    (hok : ∀ j, j < (payloads S w pre).length → results (n + j) = PublishResult.done none)
    (hfail : results (n + (payloads S w pre).length) ≠ PublishResult.done none) :
    ∃ evs, FlushBuffer S results w n (pre ++ dm :: post) =
        ({ w with writerReady := false }, n + (payloads S w pre).length + 1, [], evs) ∧
      evs.getLast? = some Event.waitReconnect ∧
      publishedPayloads evs = payloads S w pre ++ [payload] ∧
      ((∀ d ∈ pre, w.GetConfig.MQTT.Mode ≠ ModeFlatJSON ∨
          (Flatten S.ApplyRelabeling d).2 = none) →
        (payloads S w pre).length = pre.length) := by
  obtain ⟨evs, hpub, heq⟩ := flushLoop_ok_append S results w pre (dm :: post) n hok
  obtain ⟨fmt, err, hhead, _⟩ :=
    flushLoop_fail_head S results w (n + (payloads S w pre).length) dm post payload hpay hfail
  rw [hhead] at heq
  refine ⟨_, by rw [FlushBuffer, heq], ?_, ?_, ?_⟩
  · simp
  · rw [publishedPayloads_append, hpub]
    simp [publishedPayloads]
  · intro hser
    exact payloads_length_of_serializable S w pre
      (fun d hd => flushPayload_ne_none_of_mode S w d (hser d hd))

/-- C13 amended, at the samples: one skipped message, then a timeout. -/
theorem flushBuffer_publish_failure_witness :
    ∃ evs, FlushBuffer sampleSerializers (fun _ => PublishResult.timeout) readyWorker 0
        ([relabeledMessage] ++ sampleMessage :: [untaggedMessage]) =
        ({ readyWorker with writerReady := false },
          0 + (payloads sampleSerializers readyWorker [relabeledMessage]).length + 1, [], evs) ∧
      evs.getLast? = some Event.waitReconnect ∧
      publishedPayloads evs =
        payloads sampleSerializers readyWorker [relabeledMessage] ++ ["\x7b\x7d\n"] :=
  match flushBuffer_publish_failure sampleSerializers (fun _ => PublishResult.timeout)
      readyWorker 0 [relabeledMessage] [untaggedMessage] sampleMessage "\x7b\x7d\n"
      (by rw [flushPayload_sample_flat])
      (by
        intro j hj
        simp [payloads, flushPayload_relabeled_flat] at hj)
      (by simp) with
  | ⟨evs, h1, h2, h3, _⟩ => ⟨evs, h1, h2, h3⟩

theorem flushPayload_flat_eq (S : Serializers) (w : MQTT) (dm : DNSMessage)
    (hmode : w.GetConfig.MQTT.Mode = ModeFlatJSON) :
    (flushPayload S w dm).1 = flatJSONOf S dm := by
  have h1 : w.GetConfig.MQTT.Mode ≠ ModeText := by rw [hmode]; decide
  have h2 : w.GetConfig.MQTT.Mode ≠ ModeJSON := by rw [hmode]; decide
  unfold flushPayload flatJSONOf ToFlatJSON
  rw [if_neg h1, if_neg h2, if_pos hmode]
  rcases Flatten S.ApplyRelabeling dm with ⟨_ | flat, _ | e⟩ <;> rfl

theorem flushLoop_skip (S : Serializers) (results : Nat → PublishResult) (w : MQTT) (n : Nat)
    (dm : DNSMessage) (rest : List DNSMessage) (err : GoError)
    (hmode : w.GetConfig.MQTT.Mode = ModeFlatJSON)
    (herr : (Flatten S.ApplyRelabeling dm).2 = some err) :
    flushLoop S results w n (dm :: rest) =
      ((flushLoop S results w n rest).1, (flushLoop S results w n rest).2.1,
        Event.logError "flattening DNS message failed: %e" (some err) ::
          (flushLoop S results w n rest).2.2) := by
  have h1 : w.GetConfig.MQTT.Mode ≠ ModeText := by rw [hmode]; decide
  have h2 : w.GetConfig.MQTT.Mode ≠ ModeJSON := by rw [hmode]; decide
  have hp : flushPayload S w dm =
      (none, [Event.logError "flattening DNS message failed: %e" (some err)]) := by
    unfold flushPayload
    rw [if_neg h1, if_neg h2, if_pos hmode]
    rcases hF : Flatten S.ApplyRelabeling dm with ⟨_ | flat, _ | e⟩ <;> rw [hF] at herr <;>
      simp at herr ⊢ <;> exact herr
  rw [flushLoop, hp]
  rfl

/-- C14. In mode `flat-json`, a message whose `Flatten` returns an error is
skipped alone: the flush of a buffer that starts with it logs the error and is
otherwise the flush of the rest, with the same worker (so `writerReady` is not
touched) and the same count of `Publish` calls; and when every `Publish`
succeeds the payloads published are exactly the flat-JSON texts of the messages
whose `Flatten` succeeded, in buffer order, the worker is unchanged and the
buffer is empty on return. -/
theorem flushBuffer_flat_json_skip (S : Serializers) (results : Nat → PublishResult)
    (w : MQTT) (n : Nat) (buf : List DNSMessage)
    (hmode : w.GetConfig.MQTT.Mode = ModeFlatJSON) :
    (∀ dm rest err, (Flatten S.ApplyRelabeling dm).2 = some err →
      flushLoop S results w n (dm :: rest) =
        ((flushLoop S results w n rest).1, (flushLoop S results w n rest).2.1,
          Event.logError "flattening DNS message failed: %e" (some err) ::
            (flushLoop S results w n rest).2.2)) ∧
    ((∀ k, n ≤ k → results k = PublishResult.done none) →
      ∃ n' evs, FlushBuffer S results w n buf = (w, n', [], evs) ∧
        publishedPayloads evs = buf.filterMap (flatJSONOf S)) := by
  constructor
  · intro dm rest err herr
    exact flushLoop_skip S results w n dm rest err hmode herr
  · intro hok
    obtain ⟨evs, hpub, heq⟩ := flushLoop_ok_append S results w buf [] n
      (fun j _ => hok (n + j) (Nat.le_add_right n j))
    rw [List.append_nil] at heq
    refine ⟨_, evs ++ [], by rw [FlushBuffer, heq]; rfl, ?_⟩
    rw [List.append_nil, hpub, payloads]
    apply List.filterMap_congr
    intro dm _
    exact flushPayload_flat_eq S w dm hmode

/-- C14, at the samples: the first message cannot be flattened and is skipped,
the second is published. -/
theorem flushBuffer_flat_json_skip_witness :
    ∃ n' evs, FlushBuffer sampleSerializers (fun _ => PublishResult.done none) readyWorker 0
        [relabeledMessage, sampleMessage] = (readyWorker, n', [], evs) ∧
      publishedPayloads evs =
        [relabeledMessage, sampleMessage].filterMap (flatJSONOf sampleSerializers) :=
  (flushBuffer_flat_json_skip sampleSerializers (fun _ => PublishResult.done none) readyWorker 0
    [relabeledMessage, sampleMessage] rfl).2 (fun _ _ => rfl)

theorem flushLoop_publish_args (S : Serializers) (results : Nat → PublishResult) (w : MQTT)
    (n : Nat) (buf : List DNSMessage) :
    ∀ ev ∈ (flushLoop S results w n buf).2.2, ∀ t q r p, ev = Event.publish t q r p →
      t = w.GetConfig.MQTT.Topic ∧ q = w.GetConfig.MQTT.QOS ∧ r = false ∧
      ∃ dm ∈ buf, (flushPayload S w dm).1 = some p := by
  induction buf generalizing n with
  | nil => intro ev hev; simp [flushLoop] at hev
  | cons dm rest ih =>
    have hl := (flushPayload_logged S w dm).1
    have hlift : ∀ m ev, ev ∈ (flushLoop S results w m rest).2.2 → ∀ t q r p,
        ev = Event.publish t q r p →
        t = w.GetConfig.MQTT.Topic ∧ q = w.GetConfig.MQTT.QOS ∧ r = false ∧
        ∃ d ∈ dm :: rest, (flushPayload S w d).1 = some p := by
      intro m ev hev t q r p he
      obtain ⟨h1, h2, h3, d, hd, hp⟩ := ih m ev hev t q r p he
      exact ⟨h1, h2, h3, d, List.mem_cons_of_mem _ hd, hp⟩
    have hlogged : ∀ logged : List Event, publishedPayloads logged = [] →
        ∀ ev ∈ logged, ∀ t q r p, ev ≠ Event.publish t q r p := by
      intro logged
      induction logged with
      | nil => intro _ ev hev; simp at hev
      | cons e tl ihl =>
        intro hnil ev hev t q r p he
        cases e <;> simp [publishedPayloads] at hnil
        all_goals
          rcases List.mem_cons.mp hev with h | h
          · subst h; cases he
          · exact ihl hnil ev h t q r p he
    unfold flushLoop
    rcases hp : flushPayload S w dm with ⟨_ | payload, logged⟩
    · rw [hp] at hl
      intro ev hev t q r p he
      simp only [List.mem_append] at hev
      rcases hev with h | h
      · exact absurd he (hlogged logged hl ev h t q r p)
      · exact hlift n ev h t q r p he
    · rw [hp] at hl
      have hhere : ∃ d ∈ dm :: rest, (flushPayload S w d).1 = some payload :=
        ⟨dm, List.mem_cons_self _ _, by rw [hp]⟩
      rcases hr : results n with _ | _ | err
      · intro ev hev t q r p he
        simp only [List.mem_append, List.mem_cons, List.mem_singleton, List.not_mem_nil,
          or_false] at hev
        rcases hev with h | rfl | rfl | rfl
        · exact absurd he (hlogged logged hl ev h t q r p)
        · cases he; exact ⟨rfl, rfl, rfl, hhere⟩
        · cases he
        · cases he
      · intro ev hev t q r p he
        simp only [List.mem_append, List.mem_cons] at hev
        rcases hev with h | rfl | h
        · exact absurd he (hlogged logged hl ev h t q r p)
        · cases he; exact ⟨rfl, rfl, rfl, hhere⟩
        · exact hlift (n + 1) ev h t q r p he
      · intro ev hev t q r p he
        simp only [List.mem_append, List.mem_cons, List.mem_singleton, List.not_mem_nil,
          or_false] at hev
        rcases hev with h | rfl | rfl | rfl
        · exact absurd he (hlogged logged hl ev h t q r p)
        · cases he; exact ⟨rfl, rfl, rfl, hhere⟩
        · cases he
        · cases he

theorem readConfig_running (env : Env) (w₀ w : MQTT)
    (h : w₀.ReadConfig env = Outcome.running w) :
    w = { w₀ with textFormat := textFormatOf w₀.config } := by
  rw [readConfig_eq] at h
  split at h
  · cases h
  · split at h
    · cases h
    · split at h
      · exact (Outcome.running.inj h).symm
      · cases h

theorem filter_isPublish_of_no_payload (l : List Event) (h : publishedPayloads l = []) :
    l.filter Event.isPublish = [] := by
  induction l with
  | nil => rfl
  | cons e tl ih =>
    cases e <;> simp [publishedPayloads] at h <;> simp [Event.isPublish, ih h]

theorem publishedPayloads_filter_isPublish (l : List Event) :
    publishedPayloads (l.filter Event.isPublish) = publishedPayloads l := by
  induction l with
  | nil => rfl
  | cons e tl ih =>
    cases e <;> simp [publishedPayloads, Event.isPublish, ih]

theorem flushLoop_publish_calls (S : Serializers) (results : Nat → PublishResult) (w : MQTT)
    (n : Nat) (buf : List DNSMessage) :
    n ≤ (flushLoop S results w n buf).2.1 ∧
    (flushLoop S results w n buf).2.2.filter Event.isPublish =
      ((payloads S w buf).take ((flushLoop S results w n buf).2.1 - n)).map
        (Event.publish w.GetConfig.MQTT.Topic w.GetConfig.MQTT.QOS false) ∧
    (payloads S w buf ≠ [] → n < (flushLoop S results w n buf).2.1) := by
  induction buf generalizing n with
  | nil => simp [flushLoop, payloads]
  | cons dm rest ih =>
    have hl := flushPayload_logged S w dm
    rcases hp : flushPayload S w dm with ⟨_ | payload, logged⟩
    · have hnone : (flushPayload S w dm).1 = none := by rw [hp]
      rw [hp] at hl
      have hlog : logged.filter Event.isPublish = [] := filter_isPublish_of_no_payload _ hl.1
      obtain ⟨h1, h2, h3⟩ := ih n
      rw [payloads_cons_none S w dm rest hnone]
      have hfl : flushLoop S results w n (dm :: rest) =
          ((flushLoop S results w n rest).1, (flushLoop S results w n rest).2.1,
            logged ++ (flushLoop S results w n rest).2.2) := by
        rw [flushLoop, hp]
      rw [hfl]
      refine ⟨h1, ?_, h3⟩
      simp only [List.filter_append, hlog, List.nil_append]
      exact h2
    · have hsome : (flushPayload S w dm).1 = some payload := by rw [hp]
      rw [hp] at hl
      have hlog : logged = [] := hl.2.2 (by simp)
      subst hlog
      rw [payloads_cons_some S w dm rest payload hsome]
      rcases hr : results n with _ | _ | err
      · have hfl : flushLoop S results w n (dm :: rest) =
            ({ w with writerReady := false }, n + 1,
              [Event.publish w.GetConfig.MQTT.Topic w.GetConfig.MQTT.QOS false payload,
                Event.logError "publish timeout" none, Event.waitReconnect]) := by
          rw [flushLoop, hp]; simp only [hr]; rfl
        rw [hfl]
        refine ⟨by simp, ?_, fun _ => by simp⟩
        simp [Event.isPublish]
      · obtain ⟨h1, h2, h3⟩ := ih (n + 1)
        have hfl : flushLoop S results w n (dm :: rest) =
            ((flushLoop S results w (n + 1) rest).1, (flushLoop S results w (n + 1) rest).2.1,
              Event.publish w.GetConfig.MQTT.Topic w.GetConfig.MQTT.QOS false payload ::
                (flushLoop S results w (n + 1) rest).2.2) := by
          rw [flushLoop, hp]; simp only [hr]; rfl
        rw [hfl]
        refine ⟨by simp only; omega, ?_, fun _ => by simp only; omega⟩
        simp only [List.filter_cons, Event.isPublish, if_true]
        rw [h2]
        have hk : (flushLoop S results w (n + 1) rest).2.1 - n =
            ((flushLoop S results w (n + 1) rest).2.1 - (n + 1)) + 1 := by omega
        rw [hk, List.take_succ_cons, List.map_cons]
      · have hfl : flushLoop S results w n (dm :: rest) =
            ({ w with writerReady := false }, n + 1,
              [Event.publish w.GetConfig.MQTT.Topic w.GetConfig.MQTT.QOS false payload,
                Event.logError "publish failed: %s" (some err), Event.waitReconnect]) := by
          rw [flushLoop, hp]; simp only [hr]; rfl
        rw [hfl]
        refine ⟨by simp, ?_, fun _ => by simp⟩
        simp [Event.isPublish]

theorem flushLoop_ok_map (S : Serializers) (results : Nat → PublishResult) (w : MQTT)
    (f : DNSMessage → String) (buf : List DNSMessage) (n : Nat)
    (hf : ∀ dm ∈ buf, flushPayload S w dm = (some (f dm), []))
    (hok : ∀ k, n ≤ k → results k = PublishResult.done none) :
    flushLoop S results w n buf =
      (w, n + buf.length,
        buf.map (fun dm =>
          Event.publish w.GetConfig.MQTT.Topic w.GetConfig.MQTT.QOS false (f dm))) := by
  induction buf generalizing n with
  | nil => rfl
  | cons dm rest ih =>
    rw [flushLoop, hf dm (List.mem_cons_self _ _)]
    simp only [hok n (Nat.le_refl n)]
    rw [ih (n + 1) (fun d hd => hf d (List.mem_cons_of_mem _ hd)) (fun k hk => hok k (by omega))]
    simp only [List.nil_append, List.map_cons, List.length_cons]
    congr 2
    omega

theorem flushLoop_ok_count (S : Serializers) (results : Nat → PublishResult) (w : MQTT)
    (buf : List DNSMessage) (n : Nat)
    (hok : ∀ k, n ≤ k → results k = PublishResult.done none) :
    (flushLoop S results w n buf).1 = w ∧
    (flushLoop S results w n buf).2.1 = n + (payloads S w buf).length ∧
    publishedPayloads (flushLoop S results w n buf).2.2 = payloads S w buf := by
  obtain ⟨evs, hpub, heq⟩ := flushLoop_ok_append S results w buf [] n
    (fun j _ => hok (n + j) (Nat.le_add_right n j))
  rw [List.append_nil] at heq
  rw [heq]
  simp only [flushLoop, List.append_nil]
  exact ⟨trivial, trivial, hpub⟩

theorem flushPayload_text (S : Serializers) (w : MQTT) (dm : DNSMessage)
    (hmode : w.GetConfig.MQTT.Mode = "text") :
    flushPayload S w dm =
      (some (S.DNSMessageString dm w.textFormat w.GetConfig.Global.TextFormatDelimiter
        w.GetConfig.Global.TextFormatBoundary), []) := by
  have h1 : w.GetConfig.MQTT.Mode = ModeText := hmode
  unfold flushPayload
  rw [if_pos h1]

theorem flushPayload_json (S : Serializers) (w : MQTT) (dm : DNSMessage)
    (hmode : w.GetConfig.MQTT.Mode = "json") :
    flushPayload S w dm = (some (S.encodeMessage dm), []) := by
  have h1 : w.GetConfig.MQTT.Mode ≠ ModeText := by rw [hmode]; decide
  have h2 : w.GetConfig.MQTT.Mode = ModeJSON := hmode
  unfold flushPayload
  rw [if_neg h1, if_pos h2]

theorem flushPayload_flat_ok (S : Serializers) (w : MQTT) (dm : DNSMessage)
    (hmode : w.GetConfig.MQTT.Mode = "flat-json")
    (hF : (Flatten S.ApplyRelabeling dm).2 = none) :
    flushPayload S w dm = (some (ToFlatJSON S.ApplyRelabeling S.jsonText dm).1, []) := by
  have h1 : w.GetConfig.MQTT.Mode ≠ ModeText := by rw [hmode]; decide
  have h2 : w.GetConfig.MQTT.Mode ≠ ModeJSON := by rw [hmode]; decide
  have h3 : w.GetConfig.MQTT.Mode = ModeFlatJSON := hmode
  unfold flushPayload ToFlatJSON
  rw [if_neg h1, if_neg h2, if_pos h3]
  rcases hFl : Flatten S.ApplyRelabeling dm with ⟨_ | flat, _ | e⟩ <;> rw [hFl] at hF <;>
    simp at hF ⊢

/-- C20. For a worker whose configuration has been read by `ReadConfig`: the
text format is the logger's own `TextFormat` split on white space when that
string is non-empty and the global one split on white space otherwise; with
mode `text` the payload of a message is its text rendering under that format
with the global delimiter and boundary, with mode `json` it is what the JSON
encoder wrote for the message, with mode `flat-json` it is what the encoder
wrote for the map `Flatten` returned. `FlushBuffer` publishes these payloads:
every `Publish` call carries the configured topic, the configured QOS,
retained = false and the payload of a message of the buffer; the calls made
are, in buffer order, those for the payloads of the buffer up to the first call
that fails, the first payload is always published, and when every call succeeds
all of them are; so then, in each of the three modes, the events of the flush
are exactly one `Publish` per message with the payload of that mode, the buffer
is empty afterwards and the worker unchanged. -/
theorem flushBuffer_mode_serialization (env : Env) (S : Serializers)
    (results : Nat → PublishResult) (w₀ w : MQTT) (n : Nat) (buf : List DNSMessage)
    (hrc : w₀.ReadConfig env = Outcome.running w) :
    (w.textFormat =
      if 0 < w.GetConfig.MQTT.TextFormat.utf8ByteSize then Fields w.GetConfig.MQTT.TextFormat
      else Fields w.GetConfig.Global.TextFormat) ∧
    (w.GetConfig.MQTT.Mode = "text" → ∀ dm,
      (flushPayload S w dm).1 =
        some (S.DNSMessageString dm w.textFormat w.GetConfig.Global.TextFormatDelimiter
          w.GetConfig.Global.TextFormatBoundary)) ∧
    (w.GetConfig.MQTT.Mode = "json" → ∀ dm,
      (flushPayload S w dm).1 = some (S.encodeMessage dm)) ∧
    (w.GetConfig.MQTT.Mode = "flat-json" → ∀ dm flat,
      Flatten S.ApplyRelabeling dm = (some flat, none) →
      (flushPayload S w dm).1 = some (encodeToBuffer S.jsonText flat)) ∧
    (∀ ev ∈ (FlushBuffer S results w n buf).2.2.2, ∀ t q r p, ev = Event.publish t q r p →
      t = w.GetConfig.MQTT.Topic ∧ q = w.GetConfig.MQTT.QOS ∧ r = false ∧
      ∃ dm ∈ buf, (flushPayload S w dm).1 = some p) ∧
    (∃ w' n' evs, FlushBuffer S results w n buf = (w', n', [], evs) ∧ n ≤ n' ∧
      evs.filter Event.isPublish =
        ((payloads S w buf).take (n' - n)).map
          (Event.publish w.GetConfig.MQTT.Topic w.GetConfig.MQTT.QOS false) ∧
      (payloads S w buf ≠ [] → n < n') ∧
      ((∀ k, n ≤ k → results k = PublishResult.done none) →
        w' = w ∧ n' = n + (payloads S w buf).length ∧
        publishedPayloads evs = payloads S w buf)) ∧
    ((∀ k, n ≤ k → results k = PublishResult.done none) →
      (w.GetConfig.MQTT.Mode = "text" →
        FlushBuffer S results w n buf =
          (w, n + buf.length, [],
            buf.map (fun dm =>
              Event.publish w.GetConfig.MQTT.Topic w.GetConfig.MQTT.QOS false
                (S.DNSMessageString dm w.textFormat w.GetConfig.Global.TextFormatDelimiter
                  w.GetConfig.Global.TextFormatBoundary)))) ∧
      (w.GetConfig.MQTT.Mode = "json" →
        FlushBuffer S results w n buf =
          (w, n + buf.length, [],
            buf.map (fun dm =>
              Event.publish w.GetConfig.MQTT.Topic w.GetConfig.MQTT.QOS false
                (S.encodeMessage dm)))) ∧
      (w.GetConfig.MQTT.Mode = "flat-json" →
        (∀ dm ∈ buf, (Flatten S.ApplyRelabeling dm).2 = none) →
        FlushBuffer S results w n buf =
          (w, n + buf.length, [],
            buf.map (fun dm =>
              Event.publish w.GetConfig.MQTT.Topic w.GetConfig.MQTT.QOS false
                (ToFlatJSON S.ApplyRelabeling S.jsonText dm).1)))) := by
  have hw := readConfig_running env w₀ w hrc
  refine ⟨?_, ?_, ?_, ?_, ?_, ?_, ?_⟩
  · rw [hw]
    rfl
  · intro hmode dm
    rw [flushPayload_text S w dm hmode]
  · intro hmode dm
    rw [flushPayload_json S w dm hmode]
  · intro hmode dm flat hF
    have h1 : w.GetConfig.MQTT.Mode ≠ ModeText := by rw [hmode]; decide
    have h2 : w.GetConfig.MQTT.Mode ≠ ModeJSON := by rw [hmode]; decide
    have h3 : w.GetConfig.MQTT.Mode = ModeFlatJSON := hmode
    unfold flushPayload
    rw [if_neg h1, if_neg h2, if_pos h3, hF]
  · intro ev hev
    have : (FlushBuffer S results w n buf).2.2.2 = (flushLoop S results w n buf).2.2 := rfl
    rw [this] at hev
    exact flushLoop_publish_args S results w n buf ev hev
  · obtain ⟨h1, h2, h3⟩ := flushLoop_publish_calls S results w n buf
    refine ⟨(flushLoop S results w n buf).1, (flushLoop S results w n buf).2.1,
      (flushLoop S results w n buf).2.2, rfl, h1, h2, h3, ?_⟩
    intro hok
    exact flushLoop_ok_count S results w buf n hok
  · intro hok
    refine ⟨?_, ?_, ?_⟩
    · intro hmode
      rw [FlushBuffer, flushLoop_ok_map S results w _ buf n
        (fun dm _ => flushPayload_text S w dm hmode) hok]
    · intro hmode
      rw [FlushBuffer, flushLoop_ok_map S results w _ buf n
        (fun dm _ => flushPayload_json S w dm hmode) hok]
    · intro hmode hflat
      rw [FlushBuffer, flushLoop_ok_map S results w _ buf n
        (fun dm hdm => flushPayload_flat_ok S w dm hmode (hflat dm hdm)) hok]

/-- C20, at the sample worker in mode `text` with a text format of its own,
after `ReadConfig`, and a buffer of two messages: each is published under the
topic `dns/logs` with its own text under the format `qname qtype`. -/
theorem flushBuffer_mode_serialization_witness :
    MQTT.ReadConfig sampleEnv { readyWorker with config := textModeConfig } =
      Outcome.running { readyWorker with config := textModeConfig,
                                         textFormat := ["qname", "qtype"] } ∧
    FlushBuffer showingSerializers (fun _ => PublishResult.done none)
        { readyWorker with config := textModeConfig, textFormat := ["qname", "qtype"] } 0
        [sampleMessage, otherMessage] =
      ({ readyWorker with config := textModeConfig, textFormat := ["qname", "qtype"] }, 2, [],
        [Event.publish "dns/logs" 0 false "dns.collector A",
          Event.publish "dns/logs" 0 false "example.org A"]) :=
  ⟨by decide,
    ((flushBuffer_mode_serialization sampleEnv showingSerializers
      (fun _ => PublishResult.done none) { readyWorker with config := textModeConfig }
      { readyWorker with config := textModeConfig, textFormat := ["qname", "qtype"] } 0
      [sampleMessage, otherMessage] (by decide)).2.2.2.2.2.2 (fun _ _ => rfl)).1 rfl⟩

/-! ## Facts about the logging loop -/

theorem flush_bufferDm (S : Serializers) (results : Nat → PublishResult) (st : LoggingState) :
    (st.flush S results).bufferDm = [] := rfl

theorem flush_eq (S : Serializers) (results : Nat → PublishResult) (st : LoggingState) :
    st.flush S results =
      { st with w := (flushLoop S results st.w st.publishCalls st.bufferDm).1,
                publishCalls := (flushLoop S results st.w st.publishCalls st.bufferDm).2.1,
                bufferDm := [],
                trace := st.trace ++
                  (flushLoop S results st.w st.publishCalls st.bufferDm).2.2 } := rfl

theorem flush_config (S : Serializers) (results : Nat → PublishResult) (st : LoggingState) :
    (st.flush S results).w.config = st.w.config := by
  rw [flush_eq]
  rcases flushLoop_worker S results st.w st.publishCalls st.bufferDm with h | h <;>
    simp only [h]

/-- C15, as stated, fails: with a configured buffer size of -1 and the writer
not ready, after a tick of the flush timer the buffer holds 0 messages, which
is more than the configured size. -/
theorem unready_tick_exceeds_negative_size :
    (startLogging { sampleWorker with config := negativeBufferConfig }).w.writerReady = false ∧
    (loggingStep sampleSerializers (fun _ => PublishResult.done none)
      (startLogging { sampleWorker with config := negativeBufferConfig })
      LoopInput.flushTimer).bufferDm.length = 0 ∧
    ¬ (((loggingStep sampleSerializers (fun _ => PublishResult.done none)
      (startLogging { sampleWorker with config := negativeBufferConfig })
      LoopInput.flushTimer).bufferDm.length : Int) ≤
        (loggingStep sampleSerializers (fun _ => PublishResult.done none)
          (startLogging { sampleWorker with config := negativeBufferConfig })
          LoopInput.flushTimer).w.GetConfig.MQTT.BufferSize) :=
  ⟨rfl, rfl, by decide⟩

/-- C15, amended. On a tick of the flush timer while the writer is not ready
the buffer is discarded: it becomes empty, nothing is published (no `Publish`
call is made and the only event is the reset of the timer) and the worker is
as before; so after the tick the buffer length is 0, which does not exceed the
configured buffer size whenever that size is not negative. -/
theorem unready_tick_discards (S : Serializers) (results : Nat → PublishResult)
    (st : LoggingState) (hrun : st.returned = false) (hready : st.w.writerReady = false) :
    (loggingStep S results st LoopInput.flushTimer).bufferDm = [] ∧
    (loggingStep S results st LoopInput.flushTimer).trace =
      st.trace ++ [Event.timerReset st.flushInterval] ∧
    (loggingStep S results st LoopInput.flushTimer).publishCalls = st.publishCalls ∧
    (loggingStep S results st LoopInput.flushTimer).w = st.w ∧
    (loggingStep S results st LoopInput.flushTimer).bufferDm.length = 0 ∧
    (0 ≤ st.w.GetConfig.MQTT.BufferSize →
      ((loggingStep S results st LoopInput.flushTimer).bufferDm.length : Int) ≤
        (loggingStep S results st LoopInput.flushTimer).w.GetConfig.MQTT.BufferSize) := by
  have h : loggingStep S results st LoopInput.flushTimer =
      { st with bufferDm := [], trace := st.trace ++ [Event.timerReset st.flushInterval] } := by
    simp [loggingStep, hrun, hready]
  rw [h]
  refine ⟨rfl, rfl, rfl, rfl, rfl, ?_⟩
  intro hB
  simpa using hB

/-- C15 amended, at a state with two buffered messages and the writer lost. -/
theorem unready_tick_discards_witness :
    (loggingStep sampleSerializers (fun _ => PublishResult.done none)
      { startLogging sampleWorker with bufferDm := [sampleMessage, untaggedMessage] }
      LoopInput.flushTimer).bufferDm = [] ∧
    (loggingStep sampleSerializers (fun _ => PublishResult.done none)
      { startLogging sampleWorker with bufferDm := [sampleMessage, untaggedMessage] }
      LoopInput.flushTimer).publishCalls = 0 :=
  match unready_tick_discards sampleSerializers (fun _ => PublishResult.done none)
      { startLogging sampleWorker with bufferDm := [sampleMessage, untaggedMessage] }
      rfl rfl with
  | ⟨h1, _, h3, _⟩ => ⟨h1, h3⟩

theorem loggingStep_flushTimer_eq (S : Serializers) (results : Nat → PublishResult)
    (st : LoggingState) (hrun : st.returned = false) :
    loggingStep S results st LoopInput.flushTimer =
      if st.w.writerReady = true ∧ st.bufferDm ≠ [] then
        { st.flush S results with
          trace := (st.flush S results).trace ++ [Event.timerReset st.flushInterval] }
      else
        { st with bufferDm := [], trace := st.trace ++ [Event.timerReset st.flushInterval] } := by
  simp only [loggingStep, hrun, Bool.false_eq_true, if_false]
  by_cases hr : st.w.writerReady = true
  · cases hb : st.bufferDm with
    | nil => simp [hr, hb, hrun]
    | cons d tl =>
      simp only [hr, hb, Bool.not_true, Bool.false_eq_true, if_false, List.length_cons,
        gt_iff_lt, Nat.zero_lt_succ, if_true, ne_eq, reduceCtorEq, not_false_eq_true,
        and_self]
      rfl
  · simp [hr]

theorem loggingStep_output_eq (S : Serializers) (results : Nat → PublishResult)
    (st : LoggingState) (dm : DNSMessage) (hrun : st.returned = false) :
    loggingStep S results st (LoopInput.output dm) =
      if st.w.writerReady = false then st
      else if ((st.bufferDm ++ [dm]).length : Int) ≥ st.w.GetConfig.MQTT.BufferSize then
        LoggingState.flush S results { st with bufferDm := st.bufferDm ++ [dm] }
      else { st with bufferDm := st.bufferDm ++ [dm] } := by
  simp only [loggingStep, hrun, Bool.false_eq_true, if_false]
  by_cases hr : st.w.writerReady = true
  · simp [hr]
  · simp [hr]

theorem loggingStep_returned (S : Serializers) (results : Nat → PublishResult)
    (st : LoggingState) (i : LoopInput) (hret : st.returned = true)
    (hi : ∀ err, i ≠ LoopInput.onConnect ∧ i ≠ LoopInput.connectionLost err) :
    loggingStep S results st i = st := by
  cases i <;> simp only [loggingStep, hret, if_true]
  · exact absurd rfl (hi ⟨""⟩).1
  · rename_i err
    exact absurd rfl (hi err).2

theorem loggingStep_config (S : Serializers) (results : Nat → PublishResult)
    (st : LoggingState) (i : LoopInput) :
    (loggingStep S results st i).w.config = st.w.config := by
  by_cases hret : st.returned = true
  · cases i <;> simp only [loggingStep, hret, if_true]
  · have hrun : st.returned = false := by simpa using hret
    cases i
    · simp only [loggingStep, hrun, Bool.false_eq_true, if_false]
    · simp only [loggingStep, hrun, Bool.false_eq_true, if_false]
    · rw [loggingStep_output_eq S results st _ hrun]
      split
      · rfl
      · split
        · exact flush_config S results _
        · rfl
    · simp only [loggingStep, hrun, Bool.false_eq_true, if_false]
    · rw [loggingStep_flushTimer_eq S results st hrun]
      split
      · exact flush_config S results st
      · rfl
    · rfl
    · rfl

theorem loggingStep_buffer_bound (S : Serializers) (results : Nat → PublishResult)
    (st : LoggingState) (i : LoopInput) (B : Int) (hB : 1 ≤ B)
    (hcfg : st.w.GetConfig.MQTT.BufferSize = B) (hlen : (st.bufferDm.length : Int) < B) :
    ((loggingStep S results st i).bufferDm.length : Int) < B := by
  have hzero : ((([] : List DNSMessage).length : Nat) : Int) < B := by
    simp only [List.length_nil, Nat.cast_zero]
    omega
  by_cases hret : st.returned = true
  · cases i <;> simp only [loggingStep, hret, if_true] <;> exact hlen
  · have hrun : st.returned = false := by simpa using hret
    cases i
    · simp only [loggingStep, hrun, Bool.false_eq_true, if_false]
      exact hlen
    · simp only [loggingStep, hrun, Bool.false_eq_true, if_false]
      exact hlen
    · rw [loggingStep_output_eq S results st _ hrun]
      split
      · exact hlen
      · split
        · rw [flush_bufferDm]
          exact hzero
        · rename_i h
          rw [hcfg] at h
          exact not_le.mp h
    · simp only [loggingStep, hrun, Bool.false_eq_true, if_false]
      exact hlen
    · rw [loggingStep_flushTimer_eq S results st hrun]
      split
      · exact hzero
      · exact hzero
    · exact hlen
    · exact hlen

theorem runLogging_buffer_bound (S : Serializers) (results : Nat → PublishResult)
    (inputs : List LoopInput) (st : LoggingState) (B : Int) (hB : 1 ≤ B)
    (hcfg : st.w.GetConfig.MQTT.BufferSize = B) (hlen : (st.bufferDm.length : Int) < B) :
    ((runLogging S results st inputs).bufferDm.length : Int) < B := by
  induction inputs generalizing st with
  | nil => exact hlen
  | cons i rest ih =>
    have hstep : runLogging S results st (i :: rest) =
        runLogging S results (loggingStep S results st i) rest := rfl
    rw [hstep]
    apply ih
    · have := loggingStep_config S results st i
      simp only [MQTT.GetConfig] at hcfg ⊢
      rw [this]
      exact hcfg
    · exact loggingStep_buffer_bound S results st i B hB hcfg hlen

/-- C16. With a buffer size `B ≥ 1` and the writer ready: an output message
that leaves the buffer below `B` messages is appended and nothing else happens;
an output message that brings the buffer to `B` messages or more is flushed
with the whole buffer in that same step: the step is the call of `FlushBuffer`
on the buffer with the new message at its end, its `Publish` calls are those
for the payloads of these messages, in order, up to the first call that fails,
the first payload is always published, all of them are when every call
succeeds, and the buffer is empty afterwards. Consequently, in every run of
the logging loop that starts from the empty buffer, whatever wakes the loop and
in whatever order, the buffer holds strictly fewer than `B` messages after
every step. -/
theorem logging_buffer_below_size (S : Serializers) (results : Nat → PublishResult)
    (w : MQTT) (hB : 1 ≤ w.GetConfig.MQTT.BufferSize) :
    (∀ (st : LoggingState) (dm : DNSMessage), st.returned = false →
      st.w.writerReady = true →
      ((st.bufferDm ++ [dm]).length : Int) < st.w.GetConfig.MQTT.BufferSize →
      loggingStep S results st (LoopInput.output dm) =
        { st with bufferDm := st.bufferDm ++ [dm] }) ∧
    (∀ (st : LoggingState) (dm : DNSMessage), st.returned = false →
      st.w.writerReady = true →
      ((st.bufferDm ++ [dm]).length : Int) ≥ st.w.GetConfig.MQTT.BufferSize →
      ∃ w' n' evs,
        FlushBuffer S results st.w st.publishCalls (st.bufferDm ++ [dm]) = (w', n', [], evs) ∧
        loggingStep S results st (LoopInput.output dm) =
          { st with w := w', publishCalls := n', bufferDm := [], trace := st.trace ++ evs } ∧
        st.publishCalls ≤ n' ∧
        evs.filter Event.isPublish =
          ((payloads S st.w (st.bufferDm ++ [dm])).take (n' - st.publishCalls)).map
            (Event.publish st.w.GetConfig.MQTT.Topic st.w.GetConfig.MQTT.QOS false) ∧
        (payloads S st.w (st.bufferDm ++ [dm]) ≠ [] → st.publishCalls < n') ∧
        ((∀ k, st.publishCalls ≤ k → results k = PublishResult.done none) →
          w' = st.w ∧
          n' = st.publishCalls + (payloads S st.w (st.bufferDm ++ [dm])).length ∧
          publishedPayloads evs = payloads S st.w (st.bufferDm ++ [dm]))) ∧
    (∀ inputs : List LoopInput,
      ((runLogging S results (startLogging w) inputs).bufferDm.length : Int) <
        w.GetConfig.MQTT.BufferSize) := by
  refine ⟨?_, ?_, ?_⟩
  · intro st dm hrun hready hbelow
    rw [loggingStep_output_eq S results st dm hrun, if_neg (by simp [hready]),
      if_neg (by omega)]
  · intro st dm hrun hready hfull
    have h : loggingStep S results st (LoopInput.output dm) =
        LoggingState.flush S results { st with bufferDm := st.bufferDm ++ [dm] } := by
      rw [loggingStep_output_eq S results st dm hrun, if_neg (by simp [hready]), if_pos hfull]
    obtain ⟨h1, h2, h3⟩ := flushLoop_publish_calls S results st.w st.publishCalls
      (st.bufferDm ++ [dm])
    refine ⟨(flushLoop S results st.w st.publishCalls (st.bufferDm ++ [dm])).1,
      (flushLoop S results st.w st.publishCalls (st.bufferDm ++ [dm])).2.1,
      (flushLoop S results st.w st.publishCalls (st.bufferDm ++ [dm])).2.2, rfl, ?_, h1, h2, h3,
      ?_⟩
    · rw [h, flush_eq]
    · intro hok
      exact flushLoop_ok_count S results st.w (st.bufferDm ++ [dm]) st.publishCalls hok
  · intro inputs
    apply runLogging_buffer_bound S results inputs (startLogging w) _ hB rfl
    simp only [startLogging, List.length_nil, Nat.cast_zero]
    omega

/-- C16, at a ready worker in mode `json` with a buffer size of 2: the first
message stays in the buffer, the second brings it to 2 and both are published
in that step, in order, leaving the buffer empty. -/
theorem logging_buffer_below_size_witness :
    (1 : Int) ≤ (MQTT.GetConfig { readyWorker with config := pairBufferConfig }).MQTT.BufferSize ∧
    loggingStep showingSerializers (fun _ => PublishResult.done none)
        (startLogging { readyWorker with config := pairBufferConfig })
        (LoopInput.output sampleMessage) =
      { startLogging { readyWorker with config := pairBufferConfig } with
        bufferDm := [sampleMessage] } ∧
    (∃ w' n' evs,
      FlushBuffer showingSerializers (fun _ => PublishResult.done none)
          { readyWorker with config := pairBufferConfig } 0 [sampleMessage, otherMessage] =
        (w', n', [], evs) ∧
      loggingStep showingSerializers (fun _ => PublishResult.done none)
          { startLogging { readyWorker with config := pairBufferConfig } with
            bufferDm := [sampleMessage] }
          (LoopInput.output otherMessage) =
        { startLogging { readyWorker with config := pairBufferConfig } with
          w := w', publishCalls := n', bufferDm := [],
          trace := (startLogging { readyWorker with config := pairBufferConfig }).trace ++ evs } ∧
      publishedPayloads evs =
        ["\x7b\"qname\":\"dns.collector\"\x7d\n", "\x7b\"qname\":\"example.org\"\x7d\n"]) ∧
    ((runLogging showingSerializers (fun _ => PublishResult.done none)
        (startLogging { readyWorker with config := pairBufferConfig })
        [LoopInput.output sampleMessage, LoopInput.output otherMessage]).bufferDm.length : Int) <
      2 :=
  ⟨by decide,
    (logging_buffer_below_size showingSerializers (fun _ => PublishResult.done none)
      { readyWorker with config := pairBufferConfig } (by decide)).1 _ sampleMessage rfl rfl
      (by decide),
    match (logging_buffer_below_size showingSerializers (fun _ => PublishResult.done none)
      { readyWorker with config := pairBufferConfig } (by decide)).2.1
      { startLogging { readyWorker with config := pairBufferConfig } with
        bufferDm := [sampleMessage] } otherMessage rfl rfl (by decide) with
    | ⟨w', n', evs, h1, h2, _, _, _, h6⟩ => ⟨w', n', evs, h1, h2, (h6 (fun _ _ => rfl)).2.2⟩,
    (logging_buffer_below_size showingSerializers (fun _ => PublishResult.done none)
      { readyWorker with config := pairBufferConfig } (by decide)).2.2 _⟩

/-- C17, as stated, fails: with a buffer size of 1 and the writer ready, an
output message triggers a flush by size (one `Publish` call is made and the
buffer is emptied), and that step does not reset the flush timer: no timer
event follows the flush. -/
theorem size_flush_leaves_timer :
    (loggingStep sampleSerializers (fun _ => PublishResult.done none)
      (startLogging { readyWorker with config := smallBufferConfig })
      (LoopInput.output sampleMessage)).trace =
      (startLogging { readyWorker with config := smallBufferConfig }).trace ++
        [Event.publish "dns/logs" 0 false "\x7b\"dns\":\x7b\x7d\x7d\n"] ∧
    (loggingStep sampleSerializers (fun _ => PublishResult.done none)
      (startLogging { readyWorker with config := smallBufferConfig })
      (LoopInput.output sampleMessage)).bufferDm = [] :=
  ⟨by decide, by decide⟩

/-- C17, amended. The flush timer is reset at the end of every step taken on
its expiry, after the time-triggered flush if there is one, and with the flush
interval computed when `StartLogging` began; no other step resets it, a flush
triggered by size included. -/
theorem timer_reset_on_expiry_only (S : Serializers) (results : Nat → PublishResult)
    (st : LoggingState) (i : LoopInput) (hrun : st.returned = false) :
    ∃ evs, (loggingStep S results st i).trace = st.trace ++ evs ∧
      (loggingStep S results st i).flushInterval = st.flushInterval ∧
      (i = LoopInput.flushTimer →
        evs.getLast? = some (Event.timerReset st.flushInterval) ∧
        ∀ ev ∈ evs.dropLast, ev.isTimerReset = false) ∧
      (i ≠ LoopInput.flushTimer → ∀ ev ∈ evs, ev.isTimerReset = false) := by
  cases i
  · exact ⟨[Event.disconnect], by simp [loggingStep, hrun], by simp [loggingStep, hrun],
      by simp, by simp [Event.isTimerReset]⟩
  · exact ⟨[Event.logInfo "mqtt client connected with success"], by simp [loggingStep, hrun],
      by simp [loggingStep, hrun], by simp, by simp [Event.isTimerReset]⟩
  · rename_i dm
    rw [loggingStep_output_eq S results st dm hrun]
    split
    · exact ⟨[], by simp, rfl, by simp, by simp⟩
    · split
      · refine ⟨(flushLoop S results st.w st.publishCalls (st.bufferDm ++ [dm])).2.2, rfl, rfl,
          by simp, ?_⟩
        intro _
        exact flushLoop_no_timerReset S results st.w st.publishCalls (st.bufferDm ++ [dm])
      · exact ⟨[], by simp, rfl, by simp, by simp⟩
  · exact ⟨[Event.logInfo "output channel closed!"], by simp [loggingStep, hrun],
      by simp [loggingStep, hrun], by simp, by simp [Event.isTimerReset]⟩
  · rw [loggingStep_flushTimer_eq S results st hrun]
    split
    · refine ⟨(flushLoop S results st.w st.publishCalls st.bufferDm).2.2 ++
        [Event.timerReset st.flushInterval], ?_, rfl, ?_, by simp⟩
      · rw [flush_eq]
        simp [List.append_assoc]
      · intro _
        refine ⟨by simp, ?_⟩
        rw [List.dropLast_concat]
        exact flushLoop_no_timerReset S results st.w st.publishCalls st.bufferDm
    · exact ⟨[Event.timerReset st.flushInterval], rfl, rfl, by simp, by simp⟩
  · exact ⟨[Event.logInfo "mqtt broker connected"], rfl, rfl, by simp,
      by simp [Event.isTimerReset]⟩
  · rename_i err
    exact ⟨[Event.logError "mqtt connection lost: %s" (some err)], rfl, rfl, by simp,
      by simp [Event.isTimerReset]⟩

/-- C17 amended, at the start of the logging loop of the sample worker: a
tick resets the timer to 30 seconds. -/
theorem timer_reset_on_expiry_only_witness :
    ∃ evs, (loggingStep sampleSerializers (fun _ => PublishResult.done none)
        (startLogging sampleWorker) LoopInput.flushTimer).trace =
        (startLogging sampleWorker).trace ++ evs ∧
      evs.getLast? = some (Event.timerReset 30000000000) :=
  match timer_reset_on_expiry_only sampleSerializers (fun _ => PublishResult.done none)
      (startLogging sampleWorker) LoopInput.flushTimer rfl with
  | ⟨evs, h1, _, h3, _⟩ => ⟨evs, h1, (h3 rfl).1⟩

/-- C18. On a tick of the flush timer while the writer is ready: when the
buffer is non-empty the whole buffer, in its order, is handed to `FlushBuffer`,
the step is that flush followed by the reset of the timer, the buffer is empty
afterwards, and if every `Publish` succeeds the payloads published are those of
the buffered messages in buffer order; when the buffer holds no message,
nothing is published and the buffer stays empty. -/
theorem ready_tick_flushes (S : Serializers) (results : Nat → PublishResult)
    (st : LoggingState) (hrun : st.returned = false) (hready : st.w.writerReady = true) :
    (st.bufferDm ≠ [] →
      ∃ w' n' evs, FlushBuffer S results st.w st.publishCalls st.bufferDm = (w', n', [], evs) ∧
        loggingStep S results st LoopInput.flushTimer =
          { st with w := w', publishCalls := n', bufferDm := [],
                    trace := st.trace ++ evs ++ [Event.timerReset st.flushInterval] } ∧
        ((∀ k, st.publishCalls ≤ k → results k = PublishResult.done none) →
          publishedPayloads evs = payloads S st.w st.bufferDm)) ∧
    (st.bufferDm = [] →
      (loggingStep S results st LoopInput.flushTimer).bufferDm = [] ∧
      (loggingStep S results st LoopInput.flushTimer).trace =
        st.trace ++ [Event.timerReset st.flushInterval] ∧
      (loggingStep S results st LoopInput.flushTimer).publishCalls = st.publishCalls) := by
  constructor
  · intro hne
    refine ⟨(flushLoop S results st.w st.publishCalls st.bufferDm).1,
      (flushLoop S results st.w st.publishCalls st.bufferDm).2.1,
      (flushLoop S results st.w st.publishCalls st.bufferDm).2.2, rfl, ?_, ?_⟩
    · rw [loggingStep_flushTimer_eq S results st hrun, if_pos ⟨hready, hne⟩, flush_eq]
    · intro hok
      obtain ⟨evs, hpub, heq⟩ := flushLoop_ok_append S results st.w st.bufferDm []
        st.publishCalls (fun j _ => hok _ (Nat.le_add_right _ j))
      rw [List.append_nil] at heq
      rw [heq]
      simp only [flushLoop, List.append_nil]
      exact hpub
  · intro hempty
    rw [loggingStep_flushTimer_eq S results st hrun, if_neg (by simp [hempty])]
    exact ⟨rfl, rfl, rfl⟩

/-- C18, at a ready worker with two buffered messages. -/
theorem ready_tick_flushes_witness :
    ∃ w' n' evs, FlushBuffer sampleSerializers (fun _ => PublishResult.done none) readyWorker 0
        [sampleMessage, untaggedMessage] = (w', n', [], evs) ∧
      loggingStep sampleSerializers (fun _ => PublishResult.done none)
          { startLogging readyWorker with bufferDm := [sampleMessage, untaggedMessage] }
          LoopInput.flushTimer =
        { startLogging readyWorker with
          w := w', publishCalls := n', bufferDm := [],
          trace := (startLogging readyWorker).trace ++ evs ++
            [Event.timerReset (startLogging readyWorker).flushInterval] } :=
  match (ready_tick_flushes sampleSerializers (fun _ => PublishResult.done none)
      { startLogging readyWorker with bufferDm := [sampleMessage, untaggedMessage] }
      rfl rfl).1 (by simp) with
  | ⟨w', n', evs, h1, h2, _⟩ => ⟨w', n', evs, h1, h2⟩

/-! ## Claim about the connection loop -/

/-- C19, on the code: with a retry interval of 10 seconds and a connect
timeout of 5, the loop entered at time 0 and the stop signal given during the
sleep that follows a failed attempt, `ConnectToMQTT` returns only when the
sleep is over: at time 10 (stop at 1) after a connection error, at time 15
(stop at 6) after a connection timeout, and at time 10 (stop at 1) after a TLS
configuration failure. -/
theorem connectToMQTT_stop_waits_for_sleep :
    ConnectToMQTT sampleConfig.MQTT (some 1) 0 [refusedAttempt, refusedAttempt] =
      ConnectEnd.returned 10 ∧
    ConnectToMQTT sampleConfig.MQTT (some 6) 0
        [{ refusedAttempt with connectElapsed := 60 }, refusedAttempt] =
      ConnectEnd.returned 15 ∧
    ConnectToMQTT { sampleConfig.MQTT with TLSSupport := true } (some 1) 0
        [{ refusedAttempt with tlsConfigError := true }, refusedAttempt] =
      ConnectEnd.returned 10 :=
  ⟨by decide, by decide, by decide⟩

/-! ## Reading the integer summaries back -/

theorem digitChar_isDigit (d : Nat) : (digitChar d).isDigit = true := by
  have h : d % 10 < 10 := Nat.mod_lt _ (by decide)
  unfold digitChar
  generalize d % 10 = r at h
  interval_cases r <;> rfl

theorem natDigitsAux_spec (fuel n : Nat) :
    natDigitsAux fuel n ≠ [] ∧ (natDigitsAux fuel n).all Char.isDigit = true := by
  induction fuel generalizing n with
  | zero => simp [natDigitsAux, digitChar_isDigit]
  | succ fuel ih =>
    rw [natDigitsAux]
    split
    · simp [digitChar_isDigit]
    · obtain ⟨_, h2⟩ := ih (n / 10)
      simp [h2, digitChar_isDigit]

theorem digitsOk_natDigits (n : Nat) : digitsOk (natDigits n) = true := by
  obtain ⟨h1, h2⟩ := natDigitsAux_spec n n
  unfold digitsOk natDigits
  cases h : natDigitsAux n n with
  | nil => exact absurd h h1
  | cons c ds =>
    rw [h] at h2
    simp only [List.isEmpty_cons, Bool.not_false, Bool.true_and]
    exact h2

theorem parseDecimal_natDigits (n : Nat) : parseDecimal (natDigits n) = some (n : Int) := by
  have hok := digitsOk_natDigits n
  have hdec := decodeDigits_natDigits n
  cases h : natDigits n with
  | nil => rw [h] at hok; simp [digitsOk] at hok
  | cons c ds =>
    rw [h] at hok hdec
    have hc : c.isDigit = true := by
      simp only [digitsOk, List.isEmpty_cons, Bool.not_false, Bool.true_and, List.all_cons,
        Bool.and_eq_true] at hok
      exact hok.1
    have hminus : c ≠ '-' := by
      intro e; rw [e] at hc; revert hc; decide
    have hplus : c ≠ '+' := by
      intro e; rw [e] at hc; revert hc; decide
    simp only [parseDecimal, hminus, hplus, if_false, hok, if_true, hdec]

theorem parseDecimal_Itoa (i : Int) : parseDecimal (Itoa i).data = some i := by
  unfold Itoa
  split
  · rename_i hneg
    simp only [parseDecimal, if_true, digitsOk_natDigits, decodeDigits_natDigits]
    congr 1
    omega
  · rename_i hpos
    rw [parseDecimal_natDigits]
    congr 1
    omega

theorem Itoa_no_bar (i : Int) : '|' ∉ (Itoa i).data := by
  intro hmem
  have hall : ∀ c ∈ natDigits i.natAbs, c.isDigit = true := by
    have := (natDigitsAux_spec i.natAbs i.natAbs).2
    rw [List.all_eq_true] at this
    exact this
  unfold Itoa at hmem
  split at hmem
  · rcases List.mem_cons.mp hmem with h | h
    · revert h; decide
    · have := hall _ h
      revert this; decide
  · have := hall _ hmem
    revert this; decide

theorem splitOn_joinOrDash_Itoa (xs : List Int) (hne : xs ≠ []) :
    (joinOrDash (xs.map Itoa)).data.splitOn '|' = xs.map (fun i => (Itoa i).data) := by
  have hne' : xs.map Itoa ≠ [] := by simpa using hne
  have hlen : ¬ (xs.map Itoa).length = 0 := by
    simpa using hne
  rw [joinOrDash, if_neg hlen, stringsJoin_data]
  have hd : "|".data = ['|'] := rfl
  rw [hd, List.splitOn_intercalate]
  · simp [List.map_map, Function.comp]
  · intro l hl
    simp only [List.map_map, List.mem_map, Function.comp] at hl
    obtain ⟨i, _, rfl⟩ := hl
    exact Itoa_no_bar i
  · simpa using hne

theorem parse_joinOrDash_Itoa (xs : List Int) (hne : xs ≠ []) :
    ((joinOrDash (xs.map Itoa)).data.splitOn '|').map parseDecimal = xs.map some := by
  rw [splitOn_joinOrDash_Itoa xs hne, List.map_map]
  apply List.map_congr_left
  intro i _
  exact parseDecimal_Itoa i

theorem joinOrDash_Itoa_eq_dash (xs : List Int) : joinOrDash (xs.map Itoa) = "-" ↔ xs = [] := by
  constructor
  · intro h
    by_contra hne
    have hp := parse_joinOrDash_Itoa xs hne
    rw [h] at hp
    have hd : ("-".data.splitOn '|').map parseDecimal = [none] := by decide
    rw [hd] at hp
    cases xs with
    | nil => exact hne rfl
    | cons x tl => simp at hp
  · rintro rfl
    rfl

theorem joinOrDash_Itoa_injective (xs ys : List Int)
    (h : joinOrDash (xs.map Itoa) = joinOrDash (ys.map Itoa)) : xs = ys := by
  by_cases hx : xs = []
  · subst hx
    have : joinOrDash (ys.map Itoa) = "-" := h.symm
    exact ((joinOrDash_Itoa_eq_dash ys).mp this).symm
  · by_cases hy : ys = []
    · subst hy
      exact (joinOrDash_Itoa_eq_dash xs).mp h
    · have h1 := parse_joinOrDash_Itoa xs hx
      have h2 := parse_joinOrDash_Itoa ys hy
      rw [h, h2] at h1
      exact (List.map_injective_iff.mpr (Option.some_injective _) h1).symm

theorem get_withAnswers (answers : List DNSAnswer) (key : String)
    (hkey : noOptionalPrefix key = true) :
    (flattenFields (withAnswers answers)).get key =
      lastWrite key (fixedFields (withAnswers answers)) :=
  get_flattenFields_fixed _ _ hkey

/-- C21. With no relabeling, each integer summary of `Flatten` (the TTLs of
the three resource-record sections, the codes of the EDNS options) determines
its list of integers: the text is the dash exactly when the list is empty, and
otherwise splitting it at `|` and reading each piece as a decimal integer gives
the integers back in order; so two lists with the same text are equal. The
string summaries do not determine their lists: no answer and one answer whose
fields are the dash give the same names, types, data and classes, and one
answer named `a|b` gives the same names and data as two answers named `a` and
`b`. -/
theorem flatten_int_summaries_decode (R : DNSMessage → FlatMap → FlatMap × Option GoError)
    (dm : DNSMessage) (hR : dm.Relabeling = none) :
    (∃ m, Flatten R dm = (some m, none) ∧
      ∀ kv ∈ intSummaries dm, ∃ s, m.get kv.1 = some (Value.str s) ∧
        (s = "-" ↔ kv.2 = []) ∧
        (kv.2 ≠ [] → (s.data.splitOn '|').map parseDecimal = kv.2.map some)) ∧
    (∀ xs ys : List Int, joinOrDash (xs.map Itoa) = joinOrDash (ys.map Itoa) → xs = ys) ∧
    (([] : List DNSAnswer) ≠ [dashRecord] ∧
      ∃ m₁ m₂, Flatten R (withAnswers []) = (some m₁, none) ∧
        Flatten R (withAnswers [dashRecord]) = (some m₂, none) ∧
        ∀ key ∈ ["dns.resource-records.an.names", "dns.resource-records.an.rdatatypes",
            "dns.resource-records.an.rdatas", "dns.resource-records.an.classes"],
          m₁.get key = some (Value.str "-") ∧ m₂.get key = some (Value.str "-")) ∧
    ([namedRecord "a|b"] ≠ [namedRecord "a", namedRecord "b"] ∧
      ∃ m₁ m₂, Flatten R (withAnswers [namedRecord "a|b"]) = (some m₁, none) ∧
        Flatten R (withAnswers [namedRecord "a", namedRecord "b"]) = (some m₂, none) ∧
        ∀ key ∈ ["dns.resource-records.an.names", "dns.resource-records.an.rdatas"],
          m₁.get key = some (Value.str "a|b") ∧ m₂.get key = some (Value.str "a|b")) := by
  refine ⟨⟨flattenFields dm, Flatten_of_no_relabeling R dm hR, ?_⟩,
    joinOrDash_Itoa_injective, ⟨by decide, ?_⟩, ⟨by decide, ?_⟩⟩
  · intro kv hkv
    simp only [intSummaries, List.mem_cons, List.mem_singleton, List.not_mem_nil,
      or_false] at hkv
    have hgen : ∀ xs : List Int, ∃ s, some (Value.str (joinOrDash (xs.map Itoa))) =
        some (Value.str s) ∧ (s = "-" ↔ xs = []) ∧
        (xs ≠ [] → (s.data.splitOn '|').map parseDecimal = xs.map some) :=
      fun xs => ⟨_, rfl, joinOrDash_Itoa_eq_dash xs, parse_joinOrDash_Itoa xs⟩
    rcases hkv with rfl | rfl | rfl | rfl
    · dsimp only
      rw [get_flattenFields_fixed dm _ (by decide)]
      have := hgen (dm.DNS.DNSRRs.Answers.map (fun rr => rr.TTL))
      rw [List.map_map] at this
      exact this
    · dsimp only
      rw [get_flattenFields_fixed dm _ (by decide)]
      have := hgen (dm.DNS.DNSRRs.Nameservers.map (fun rr => rr.TTL))
      rw [List.map_map] at this
      exact this
    · dsimp only
      rw [get_flattenFields_fixed dm _ (by decide)]
      have := hgen (dm.DNS.DNSRRs.Records.map (fun rr => rr.TTL))
      rw [List.map_map] at this
      exact this
    · dsimp only
      rw [get_flattenFields_fixed dm _ (by decide)]
      have := hgen (dm.EDNS.Options.map (fun opt => opt.Code))
      rw [List.map_map] at this
      exact this
  · refine ⟨_, _, Flatten_of_no_relabeling R _ rfl, Flatten_of_no_relabeling R _ rfl, ?_⟩
    intro key hkey
    simp only [List.mem_cons, List.mem_singleton, List.not_mem_nil, or_false] at hkey
    rcases hkey with rfl | rfl | rfl | rfl <;>
      exact ⟨(get_withAnswers _ _ (by decide)).trans (by decide),
        (get_withAnswers _ _ (by decide)).trans (by decide)⟩
  · refine ⟨_, _, Flatten_of_no_relabeling R _ rfl, Flatten_of_no_relabeling R _ rfl, ?_⟩
    intro key hkey
    simp only [List.mem_cons, List.mem_singleton, List.not_mem_nil, or_false] at hkey
    rcases hkey with rfl | rfl <;>
      exact ⟨(get_withAnswers _ _ (by decide)).trans (by decide),
        (get_withAnswers _ _ (by decide)).trans (by decide)⟩

/-- C21, at the sample message: the TTLs 300 and 60 are read back from the
text of `dns.resource-records.an.ttls`. -/
theorem flatten_int_summaries_decode_witness :
    sampleMessage.Relabeling = none ∧
    ∃ m, Flatten identityRelabeling sampleMessage = (some m, none) ∧
      ∃ s, m.get "dns.resource-records.an.ttls" = some (Value.str s) ∧
        (s.data.splitOn '|').map parseDecimal = [some 300, some 60] :=
  ⟨rfl,
    match (flatten_int_summaries_decode identityRelabeling sampleMessage rfl).1 with
    | ⟨m, hm, hall⟩ =>
      match hall ("dns.resource-records.an.ttls", [300, 60]) (List.mem_cons_self _ _) with
      | ⟨s, hs, _, hdec⟩ => ⟨m, hm, s, hs, hdec (by decide)⟩⟩

/-! ## Claims about messages that arrive unready and about unknown modes -/

/-- C22. An output message that arrives while the writer is not ready is
discarded on arrival: the step leaves the whole state of the logging loop as it
was (the buffer is not appended to, no `Publish` call is made, no event is
added), and so the message is never published later either: every run that
goes on from there, the writer becoming ready again or not, is the run that
would have taken place had the message never arrived. -/
theorem unready_output_discarded (S : Serializers) (results : Nat → PublishResult)
    (st : LoggingState) (dm : DNSMessage) (hready : st.w.writerReady = false) :
    loggingStep S results st (LoopInput.output dm) = st ∧
    (loggingStep S results st (LoopInput.output dm)).bufferDm = st.bufferDm ∧
    (loggingStep S results st (LoopInput.output dm)).publishCalls = st.publishCalls ∧
    (loggingStep S results st (LoopInput.output dm)).trace = st.trace ∧
    (∀ rest : List LoopInput,
      runLogging S results st (LoopInput.output dm :: rest) = runLogging S results st rest) := by
  have h : loggingStep S results st (LoopInput.output dm) = st := by
    simp [loggingStep, hready]
  refine ⟨h, by rw [h], by rw [h], by rw [h], ?_⟩
  intro rest
  show runLogging S results (loggingStep S results st (LoopInput.output dm)) rest = _
  rw [h]

/-- C22, at the start of the logging loop of the sample worker, whose writer
is not ready: the message leaves no mark, whatever follows. -/
theorem unready_output_discarded_witness :
    loggingStep sampleSerializers (fun _ => PublishResult.done none) (startLogging sampleWorker)
      (LoopInput.output sampleMessage) = startLogging sampleWorker ∧
    runLogging sampleSerializers (fun _ => PublishResult.done none) (startLogging sampleWorker)
        [LoopInput.output sampleMessage, LoopInput.onConnect, LoopInput.flushTimer] =
      runLogging sampleSerializers (fun _ => PublishResult.done none)
        (startLogging sampleWorker) [LoopInput.onConnect, LoopInput.flushTimer] :=
  match unready_output_discarded sampleSerializers (fun _ => PublishResult.done none)
      (startLogging sampleWorker) sampleMessage rfl with
  | ⟨h1, _, _, _, h5⟩ => ⟨h1, h5 _⟩

theorem flushPayload_unknown_mode (S : Serializers) (w : MQTT) (dm : DNSMessage)
    (hmode : w.GetConfig.MQTT.Mode ∉ ["text", "json", "flat-json"]) :
    flushPayload S w dm = (some "", []) := by
  simp only [List.mem_cons, List.mem_singleton, List.not_mem_nil, or_false, not_or] at hmode
  have h1 : w.GetConfig.MQTT.Mode ≠ ModeText := hmode.1
  have h2 : w.GetConfig.MQTT.Mode ≠ ModeJSON := hmode.2.1
  have h3 : w.GetConfig.MQTT.Mode ≠ ModeFlatJSON := hmode.2.2
  unfold flushPayload
  rw [if_neg h1, if_neg h2, if_neg h3]

theorem flushLoop_unknown_mode_ok (S : Serializers) (results : Nat → PublishResult) (w : MQTT)
    (buf : List DNSMessage) (n : Nat)
    (hmode : w.GetConfig.MQTT.Mode ∉ ["text", "json", "flat-json"])
    (hok : ∀ k, n ≤ k → results k = PublishResult.done none) :
    flushLoop S results w n buf =
      (w, n + buf.length,
        buf.map (fun _ => Event.publish w.GetConfig.MQTT.Topic w.GetConfig.MQTT.QOS false "")) := by
  induction buf generalizing n with
  | nil => rfl
  | cons dm rest ih =>
    rw [flushLoop, flushPayload_unknown_mode S w dm hmode]
    simp only [hok n (Nat.le_refl n)]
    rw [ih (n + 1) (fun k hk => hok k (by omega))]
    simp only [List.nil_append, List.map_cons, List.length_cons]
    congr 2
    omega

theorem readConfig_isFatal_mode (env : Env) (w : MQTT) (mode : String) :
    (MQTT.ReadConfig env
      { w with config := { w.config with MQTT := { w.config.MQTT with Mode := mode } } }).isFatal =
      (w.ReadConfig env).isFatal := by
  rw [readConfig_eq, readConfig_eq]
  simp only
  split
  · rfl
  · split
    · rfl
    · split <;> rfl

/-- C23, as stated, fails: with the mode `xml`, a buffer of two messages and a
broker that does not answer, `FlushBuffer` publishes one payload, not one per
buffered message: the second message is skipped and an error is reported. -/
theorem unknown_mode_publish_timeout :
    FlushBuffer sampleSerializers (fun _ => PublishResult.timeout)
        { readyWorker with config := unknownModeConfig } 0 [sampleMessage, untaggedMessage] =
      ({ readyWorker with config := unknownModeConfig, writerReady := false }, 1, [],
        [Event.publish "dns/logs" 0 false "", Event.logError "publish timeout" none,
          Event.waitReconnect]) := by
  decide

/-- C23, amended. `ReadConfig` does not look at the mode: whether it ends in a
fatal error is the same whatever the mode. For a mode other than `text`, `json`
and `flat-json`: no message is skipped and no error is reported on account of
the mode, every message the loop reaches is published with the empty string as
payload; when every `Publish` succeeds that is one `Publish` call per buffered
message, in order, and nothing else; and whatever the broker does, every
payload published is the empty string. -/
theorem unknown_mode_empty_payload (env : Env) (S : Serializers)
    (results : Nat → PublishResult) (w : MQTT) (n : Nat) (buf : List DNSMessage)
    (hmode : w.GetConfig.MQTT.Mode ∉ ["text", "json", "flat-json"]) :
    (∀ mode : String,
      (MQTT.ReadConfig env
        { w with config := { w.config with MQTT := { w.config.MQTT with Mode := mode } } }).isFatal =
        (w.ReadConfig env).isFatal) ∧
    (∀ dm, flushPayload S w dm = (some "", [])) ∧
    ((∀ k, n ≤ k → results k = PublishResult.done none) →
      FlushBuffer S results w n buf =
        (w, n + buf.length, [],
          buf.map (fun _ =>
            Event.publish w.GetConfig.MQTT.Topic w.GetConfig.MQTT.QOS false ""))) ∧
    (∀ ev ∈ (FlushBuffer S results w n buf).2.2.2, ∀ t q r p, ev = Event.publish t q r p →
      p = "") := by
  refine ⟨readConfig_isFatal_mode env w, fun dm => flushPayload_unknown_mode S w dm hmode, ?_, ?_⟩
  · intro hok
    rw [FlushBuffer, flushLoop_unknown_mode_ok S results w buf n hmode hok]
  · intro ev hev t q r p he
    have hev' : ev ∈ (flushLoop S results w n buf).2.2 := hev
    obtain ⟨_, _, _, dm, _, hp⟩ := flushLoop_publish_args S results w n buf ev hev' t q r p he
    rw [flushPayload_unknown_mode S w dm hmode] at hp
    exact (Option.some.inj hp).symm

/-- C23 amended, at the sample worker with mode `xml` and a broker that
accepts everything: two messages, two empty payloads. -/
theorem unknown_mode_empty_payload_witness :
    FlushBuffer sampleSerializers (fun _ => PublishResult.done none)
        { readyWorker with config := unknownModeConfig } 0 [sampleMessage, untaggedMessage] =
      ({ readyWorker with config := unknownModeConfig }, 2, [],
        [Event.publish "dns/logs" 0 false "", Event.publish "dns/logs" 0 false ""]) :=
  (unknown_mode_empty_payload sampleEnv sampleSerializers (fun _ => PublishResult.done none)
    { readyWorker with config := unknownModeConfig } 0 [sampleMessage, untaggedMessage]
    (by decide)).2.2.1 (fun _ _ => rfl)

/-! ## Distinct keys and the order of the metadata -/

theorem setEntries_of_not_mem (k : String) (v : Value) (l : List (String × Value))
    (h : k ∉ l.map Prod.fst) : FlatMap.setEntries k v l = l ++ [(k, v)] := by
  induction l with
  | nil => rfl
  | cons hd tl ih =>
    obtain ⟨k', v'⟩ := hd
    simp only [List.map_cons, List.mem_cons, not_or] at h
    have hne : ¬ k' = k := fun e => h.1 e.symm
    simp only [FlatMap.setEntries, hne, if_false, List.cons_append, ih h.2]

theorem assignAll_of_nodup (ws l : List (String × Value))
    (h : ((l ++ ws).map Prod.fst).Nodup) :
    (FlatMap.assignAll ⟨l⟩ ws).entries = l ++ ws := by
  induction ws generalizing l with
  | nil => simp [FlatMap.assignAll_nil]
  | cons kv tl ih =>
    obtain ⟨k, v⟩ := kv
    have hk : k ∉ l.map Prod.fst := by
      rw [List.map_append, List.nodup_append] at h
      intro hmem
      exact h.2.2 hmem (by simp)
    rw [FlatMap.assignAll_cons]
    have hset : FlatMap.set ⟨l⟩ k v = ⟨l ++ [(k, v)]⟩ := by
      simp only [FlatMap.set, setEntries_of_not_mem k v l hk]
    simp only [hset]
    rw [ih (l ++ [(k, v)]) (by simpa [List.append_assoc] using h)]
    simp [List.append_assoc]

theorem tagKeys_nodup (key pfx : String) (tags : List String) :
    (tagKeys key pfx tags).Nodup := by
  unfold tagKeys
  split
  · simp
  · apply List.Nodup.map _ (List.nodup_range _)
    intro a b hab
    exact Itoa_natCast_injective (append_left_cancel_string hab)

theorem powerDNSKeys_nodup (p : PowerDNS) (hmd : (p.Metadata.map Prod.fst).Nodup) :
    (powerDNSKeys p).Nodup := by
  have hmdk : (p.Metadata.map (fun e => "powerdns.metadata." ++ e.1)).Nodup := by
    have : p.Metadata.map (fun e => "powerdns.metadata." ++ e.1) =
        (p.Metadata.map Prod.fst).map (fun k => "powerdns.metadata." ++ k) := by
      simp [List.map_map, Function.comp]
    rw [this]
    exact hmd.map (fun a b hab => append_left_cancel_string hab)
  have htag : ∀ k ∈ tagKeys "powerdns.tags" "powerdns.tags." p.Tags,
      hasPrefix "powerdns.tags" k = true :=
    pfx_tagKeys "powerdns.tags" _ _ _ (by decide) (by decide)
  have hmeta : ∀ k ∈ p.Metadata.map (fun e => "powerdns.metadata." ++ e.1),
      hasPrefix "powerdns.metadata." k = true := by
    intro k hk
    obtain ⟨e, _, rfl⟩ := List.mem_map.mp hk
    exact hasPrefix_append _ _
  have hf1 : ∀ k ∈ ["powerdns.original-request-subnet", "powerdns.applied-policy",
      "powerdns.applied-policy-hit", "powerdns.applied-policy-kind",
      "powerdns.applied-policy-trigger", "powerdns.applied-policy-type"],
      hasPrefix "powerdns.tags" k = false ∧ hasPrefix "powerdns.metadata." k = false := by
    decide
  have hf2 : ∀ k ∈ ["powerdns.http-version", "powerdns.message-id", "powerdns.requestor-id",
      "powerdns.device-id", "powerdns.device-name", "powerdns.initial-requestor-id"],
      hasPrefix "powerdns.tags" k = false ∧ hasPrefix "powerdns.metadata." k = false ∧
      k ∉ ["powerdns.original-request-subnet", "powerdns.applied-policy",
        "powerdns.applied-policy-hit", "powerdns.applied-policy-kind",
        "powerdns.applied-policy-trigger", "powerdns.applied-policy-type"] := by
    decide
  have hclash : ∀ {b : Bool}, b = true → b = false → False := by
    intro b h1 h2
    rw [h1] at h2
    exact Bool.noConfusion h2
  unfold powerDNSKeys
  rw [List.nodup_append, List.nodup_append, List.nodup_append]
  refine ⟨⟨⟨tagKeys_nodup _ _ _, by decide, ?_⟩, hmdk, ?_⟩, by decide, ?_⟩
  · intro k hk1 hk2
    exact hclash (htag k hk1) (hf1 k hk2).1
  · intro k hk1 hk2
    have hm := hmeta k hk2
    rcases List.mem_append.mp hk1 with h | h
    · exact hclash hm (hasPrefix_exclusive _ _ _ (by decide) (by decide) (htag k h))
    · exact hclash hm (hf1 k h).2
  · intro k hk1 hk2
    rcases List.mem_append.mp hk1 with h | h
    · rcases List.mem_append.mp h with h | h
      · exact hclash (htag k h) (hf2 k hk2).1
      · exact (hf2 k hk2).2.2 h
    · exact hclash (hmeta k h) (hf2 k hk2).2.1

theorem sectionKeys_nodup (s : OptSection) (dm : DNSMessage)
    (hmd : ∀ p, dm.PowerDNS = some p → (p.Metadata.map Prod.fst).Nodup) :
    (sectionKeys s dm).Nodup := by
  cases s <;> simp only [sectionKeys]
  · cases dm.Geo with
    | none => exact List.nodup_nil
    | some _ => show geoKeys.Nodup; decide
  · cases dm.Suspicious with
    | none => exact List.nodup_nil
    | some _ => show suspiciousKeys.Nodup; decide
  · cases dm.PublicSuffix with
    | none => exact List.nodup_nil
    | some _ => show publicSuffixKeys.Nodup; decide
  · cases dm.Extracted with
    | none => exact List.nodup_nil
    | some _ => show extractedKeys.Nodup; decide
  · cases dm.Reducer with
    | none => exact List.nodup_nil
    | some _ => show reducerKeys.Nodup; decide
  · cases dm.Filtering with
    | none => exact List.nodup_nil
    | some _ => show filteringKeys.Nodup; decide
  · cases dm.MachineLearning with
    | none => exact List.nodup_nil
    | some _ => show mlKeys.Nodup; decide
  · cases dm.ATags with
    | none => exact List.nodup_nil
    | some a => exact tagKeys_nodup _ _ _
  · cases hp : dm.PowerDNS with
    | none => exact List.nodup_nil
    | some p => exact powerDNSKeys_nodup p (hmd p hp)

theorem optionalFields_eq_flatMap (dm : DNSMessage) :
    optionalFields dm = sectionsInOrder.flatMap (fun s => sectionFields s dm) := by
  simp [optionalFields, sectionsInOrder, sectionFields, List.flatMap, List.append_assoc]

theorem keys_flattenWrites (dm : DNSMessage) :
    (flattenWrites dm).map Prod.fst =
      coreKeys ++ sectionsInOrder.flatMap (fun s => sectionKeys s dm) := by
  rw [flattenWrites, List.map_append, keys_fixedFields, optionalFields_eq_flatMap,
    List.map_flatMap]
  congr 1
  apply List.flatMap_congr
  intro s _
  exact keys_sectionFields s dm

theorem flattenWrites_nodup (dm : DNSMessage)
    (hmd : ∀ p, dm.PowerDNS = some p → (p.Metadata.map Prod.fst).Nodup) :
    ((flattenWrites dm).map Prod.fst).Nodup := by
  rw [keys_flattenWrites, List.nodup_append]
  refine ⟨coreKeys_nodup, ?_, ?_⟩
  · rw [List.nodup_flatMap]
    refine ⟨fun s _ => sectionKeys_nodup s dm hmd, ?_⟩
    have hnd : sectionsInOrder.Nodup := by decide
    apply List.Nodup.pairwise_of_forall_ne hnd
    intro s _ t _ hst k hks hkt
    have h1 := sectionKeys_pfx t dm k hkt
    rw [sectionPrefix_exclusive s t hst k (sectionKeys_pfx s dm k hks)] at h1
    exact Bool.noConfusion h1
  · intro k hc hk
    obtain ⟨s, _, hks⟩ := List.mem_flatMap.mp hk
    have h1 := sectionKeys_pfx s dm k hks
    rw [noOptionalPrefix_section s k (coreKeys_noOptionalPrefix k hc)] at h1
    exact Bool.noConfusion h1

theorem flattenFields_entries (dm : DNSMessage)
    (hmd : ∀ p, dm.PowerDNS = some p → (p.Metadata.map Prod.fst).Nodup) :
    (flattenFields dm).entries = flattenWrites dm := by
  have h := assignAll_of_nodup (flattenWrites dm) [] (by simpa using flattenWrites_nodup dm hmd)
  rw [flattenFields_eq]
  simpa [FlatMap.empty, flattenWrites] using h

theorem flattenWrites_withMetadataOrder (dm : DNSMessage) (p : PowerDNS)
    (md : List (String × String)) (hp : dm.PowerDNS = some p) (hperm : md.Perm p.Metadata) :
    (flattenWrites (withMetadataOrder dm md)).Perm (flattenWrites dm) := by
  have hw : withMetadataOrder dm md = { dm with PowerDNS := some { p with Metadata := md } } := by
    simp [withMetadataOrder, hp]
  rw [hw]
  simp only [flattenWrites, fixedFields, optionalFields, hp, powerDNSFields]
  refine List.Perm.append_left _ (List.Perm.append_left _ ?_)
  refine List.Perm.append_right _ (List.Perm.append_left _ ?_)
  exact hperm.map _

theorem lastWrite_perm (k : String) (ws ws' : List (String × Value))
    (hnd : (ws.map Prod.fst).Nodup) (hperm : ws'.Perm ws) :
    lastWrite k ws' = lastWrite k ws := by
  have hnd' : (ws'.map Prod.fst).Nodup := (hperm.map Prod.fst).nodup_iff.mpr hnd
  by_cases hk : k ∈ ws.map Prod.fst
  · obtain ⟨⟨k', v⟩, hmem, rfl⟩ := List.mem_map.mp hk
    rw [lastWrite_eq_some_of_nodup k' v ws hnd hmem,
      lastWrite_eq_some_of_nodup k' v ws' hnd' (hperm.mem_iff.mpr hmem)]
  · have hk' : k ∉ ws'.map Prod.fst := fun h => hk ((hperm.map Prod.fst).mem_iff.mp h)
    rw [(lastWrite_eq_none_iff k ws).mpr hk, (lastWrite_eq_none_iff k ws').mpr hk']

theorem get_flattenFields_writes (dm : DNSMessage) (k : String) :
    (flattenFields dm).get k = lastWrite k (flattenWrites dm) := by
  rw [flattenFields_eq, FlatMap.get_assignAll, FlatMap.get_empty, Option.or_none, flattenWrites]

/-- C24. `Flatten` is a function of the message and of the order in which the
metadata map is visited, and that order does not matter. With no relabeling
and the metadata a Go map (one entry per key): the keys of the assignments
`Flatten` executes are pairwise distinct, so no assignment overwrites an
earlier one and the entries of the result are exactly the assignments; and
visiting the metadata entries in any other order gives an equal map: the same
value, or none, under every key, and the same entries up to their order. -/
theorem flatten_order_independent (R : DNSMessage → FlatMap → FlatMap × Option GoError)
    (dm : DNSMessage) (hR : dm.Relabeling = none)
    (hmd : ∀ p, dm.PowerDNS = some p → (p.Metadata.map Prod.fst).Nodup) :
    ((flattenWrites dm).map Prod.fst).Nodup ∧
    (∃ m, Flatten R dm = (some m, none) ∧ m.entries = flattenWrites dm) ∧
    (∀ p md, dm.PowerDNS = some p → md.Perm p.Metadata →
      ∃ m m', Flatten R dm = (some m, none) ∧
        Flatten R (withMetadataOrder dm md) = (some m', none) ∧
        (∀ k, m'.get k = m.get k) ∧ m'.entries.Perm m.entries) := by
  have hnd := flattenWrites_nodup dm hmd
  refine ⟨hnd, ⟨flattenFields dm, Flatten_of_no_relabeling R dm hR,
    flattenFields_entries dm hmd⟩, ?_⟩
  intro p md hp hperm
  have hw : withMetadataOrder dm md = { dm with PowerDNS := some { p with Metadata := md } } := by
    simp [withMetadataOrder, hp]
  have hR' : (withMetadataOrder dm md).Relabeling = none := by rw [hw]; exact hR
  have hmd' : ∀ q, (withMetadataOrder dm md).PowerDNS = some q →
      (q.Metadata.map Prod.fst).Nodup := by
    intro q hq
    rw [hw] at hq
    simp only [Option.some.injEq] at hq
    subst hq
    exact ((hperm.map Prod.fst).nodup_iff).mpr (hmd p hp)
  have hwp := flattenWrites_withMetadataOrder dm p md hp hperm
  refine ⟨flattenFields dm, flattenFields (withMetadataOrder dm md),
    Flatten_of_no_relabeling R dm hR, Flatten_of_no_relabeling R _ hR', ?_, ?_⟩
  · intro k
    rw [get_flattenFields_writes, get_flattenFields_writes]
    exact lastWrite_perm k _ _ hnd hwp
  · rw [flattenFields_entries dm hmd, flattenFields_entries _ hmd']
    exact hwp

/-- C24, at the sample message with two metadata entries, visited in the
other order. -/
theorem flatten_order_independent_witness :
    twoMetadataMessage.Relabeling = none ∧
    ∃ m m', Flatten identityRelabeling twoMetadataMessage = (some m, none) ∧
      Flatten identityRelabeling
        (withMetadataOrder twoMetadataMessage [("zone", "rpz"), ("agent", "recursor")]) =
        (some m', none) ∧
      (∀ k, m'.get k = m.get k) ∧ m'.entries.Perm m.entries :=
  ⟨rfl,
    (flatten_order_independent identityRelabeling twoMetadataMessage rfl
      (fun p hp => by
        have : p.Metadata = [("agent", "recursor"), ("zone", "rpz")] := by
          have h := Option.some.inj hp
          rw [← h]
        rw [this]
        decide)).2.2 _ [("zone", "rpz"), ("agent", "recursor")] rfl
      (List.Perm.swap _ _ _)⟩

end DNSCollector
